import Mathlib

/-!
# Low-level SQL layer of the CockroachDB catalog plugin

A shallow embedding of `src/low_level_libpq.cpp`: the statement classifier
(`processRes`, `logPsgError`), the transaction retry engine (`execTx`), the
two text rewrites applied before a statement is submitted (`replaceParams`,
`replaceLikesToSimilarTos`), the two result cursors (`all_result_set`,
`paging_result_set`), the cursor registry (`find_res_inx`, `cllFreeStatement`)
and the connection string of `cllConnect`.

The database is an oracle: it answers every statement with a `PGresult`, and
its answer may depend on everything that happened before on the connection.
Every function that talks to the database therefore threads the history of the
connection, a list of `Event`s in chronological order, and appends to it what
it does.  Log output (`rodsLog`, the `/tmp/sqllog` stream) is not modelled.
-/

namespace LowLevelLibpq

/-! ## The data model -/

/-- Status of a command result, the `ExecStatusType` of libpq. -/
inductive ExecStatusType where
  | PGRES_EMPTY_QUERY
  | PGRES_COMMAND_OK
  | PGRES_TUPLES_OK
  | PGRES_COPY_OUT
  | PGRES_COPY_IN
  | PGRES_BAD_RESPONSE
  | PGRES_NONFATAL_ERROR
  | PGRES_FATAL_ERROR
  | PGRES_COPY_BOTH
  | PGRES_SINGLE_TUPLE
  deriving DecidableEq, Repr

/-- What the code reads from a libpq result handle: `PQresultStatus`,
`PQcmdTuples`, the two error fields `PG_DIAG_SQLSTATE` and
`PG_DIAG_MESSAGE_PRIMARY`, the column names (`PQnfields`, `PQfname`) and the
rows (`PQntuples`, `PQgetvalue`). -/
structure PGresult where
  status : ExecStatusType
  cmdTuples : String
  sqlstate : String
  message : String
  fields : List String
  tuples : List (List String)
  deriving DecidableEq, Repr

/-- The two catalog codes of the iRODS error table that the file uses. Their
values are declared outside this file, so they are parameters of the model. -/
structure ErrorTable where
  CAT_SUCCESS_BUT_WITH_NO_INFO : Int
  CATALOG_ALREADY_HAS_ITEM_BY_THAT_NAME : Int
  deriving DecidableEq, Repr

/-- The part of `irods::error` that `execTx` touches: the status flag read by
`ok()`, the code and the message. -/
structure irods.error where
  status_ : Bool
  code_ : Int
  message_ : String
  deriving DecidableEq, Repr

/-- Member `irods::error::ok()`. -/
def irods.error.ok (e : irods.error) : Bool := e.status_

/-- The `ERROR(code, message)` constructor of iRODS: an error that is not ok. -/
def ERROR (code : Int) (message : String) : irods.error :=
  { status_ := false, code_ := code, message_ := message }

/-- One observable step on a connection: a statement sent with `PQexec`
together with the result handle the database answered, or one invocation of
the unit of work together with the flag and error it produced. -/
inductive Event where
  | stmt (sql : String) (res : PGresult)
  | call (result : Bool × irods.error)
  deriving DecidableEq, Repr

/-- The database as an oracle: the answer to a statement, given the history of
the connection so far. -/
abbrev Backend := List Event → String → PGresult

/-- The unit of work handed to `execTx`, a `boost::variant` of two callback
shapes: one returning an `irods::error`, one returning either an
`irods::error` or a pair of a success flag and an `irods::error`. A callback
may look at the history of the connection. -/
inductive TxFunc where
  | plain (f : List Event → irods.error)
  | flagged (f : List Event → irods.error ⊕ (Bool × irods.error))

/-! ## Statement classification -/

/-- C `strstr(haystack, needle) != NULL`. -/
def strstr : List Char → List Char → Bool
  | [], needle => needle.isEmpty
  | c :: cs, needle => needle.isPrefixOf (c :: cs) || strstr cs needle

/-- C `isspace` in the "C" locale. -/
def isspace (c : Char) : Bool :=
  c = ' ' || c = '\t' || c = '\n' || c = '\x0b' || c = '\x0c' || c = '\r'

/-- The digit loop of `strtol` in base 10, on the digits that follow the sign. -/
def atoiDigits : Int → List Char → Int
  | acc, [] => acc
  | acc, c :: cs => if c.isDigit then atoiDigits (acc * 10 + ((c.toNat : Int) - 48)) cs else acc

/-- C `strtol(nptr, NULL, 10)` where `long` has 64 bits: leading white space,
an optional sign, then decimal digits; a value outside the range of `long` is
replaced by the nearest end of the range (`LONG_MAX` or `LONG_MIN`). -/
def strtol (s : List Char) : Int :=
  let v : Int :=
    match s.dropWhile isspace with
    | '-' :: cs => - atoiDigits 0 cs
    | '+' :: cs => atoiDigits 0 cs
    | cs => atoiDigits 0 cs
  if v > 9223372036854775807 then 9223372036854775807
  else if v < -9223372036854775808 then -9223372036854775808
  else v

/-- The conversion of a `long` to `int`: the value of the same residue modulo
2^32 in the range of a 32-bit `int`, from -2^31 to 2^31 - 1. -/
def toInt32 (v : Int) : Int := (v + 2147483648) % 4294967296 - 2147483648

/-- C `atoi`, which the C library defines as `(int) strtol(nptr, NULL, 10)`:
what it returns is a 32-bit `int`, so the number read keeps only its residue
modulo 2^32. -/
def atoi (s : List Char) : Int := toInt32 (strtol s)

/-- The comparison `boost::iequals`: equal length and equal characters after
`toupper`. -/
def iequals (a b : String) : Bool :=
  a.data.map Char.toUpper == b.data.map Char.toUpper

/-- Function `logPsgError`: the catalog code for a failed result. -/
def logPsgError (E : ErrorTable) (res : PGresult) : Int :=
  if res.sqlstate = "23505" ∧ strstr res.message.data "duplicate key".data = true then
    E.CATALOG_ALREADY_HAS_ITEM_BY_THAT_NAME
  else
    -2

/-- Function `processRes`: the catalog code and the SQLSTATE for the result of
statement `_sql`. -/
def processRes (E : ErrorTable) (_sql : String) (_bindVars : List String) (res : PGresult) :
    Int × String :=
  let stat := res.status
  if stat = ExecStatusType.PGRES_COMMAND_OK ∨ stat = ExecStatusType.PGRES_TUPLES_OK then
    if (!iequals _sql "begin" &&
        !iequals _sql "commit" &&
        !iequals _sql "rollback" &&
        !iequals _sql "savepoint cockroach_restart" &&
        !iequals _sql "release savepoint cockroach_restart" &&
        !iequals _sql "rollback to savepoint cockroach_restart") = true then
      if atoi res.cmdTuples.data = 0 then
        (E.CAT_SUCCESS_BUT_WITH_NO_INFO, "")
      else
        (0, "")
    else
      (0, "")
  else
    (logPsgError E res, res.sqlstate)

/-- Function `_execTxSql`: send `_sql` with `PQexec`, classify the answer. The
second component is the history with this statement appended. -/
def _execTxSql (E : ErrorTable) (conn : Backend) (h : List Event) (_sql : String) :
    (Int × String) × List Event :=
  let res := conn h _sql
  (processRes E _sql [] res, h ++ [Event.stmt _sql res])

/-! ## The transaction retry engine -/

/-- Both overloads of `_result_visitor::operator()`. -/
def _result_visitor : irods.error ⊕ (Bool × irods.error) → Bool × irods.error
  | Sum.inl result => (result.ok, result)
  | Sum.inr result => result

/-- Both overloads of `_execTxSql_visitor::operator()`: invoke the unit of
work and normalise what it returns to a flag and an error. -/
def _execTxSql_visitor (func : TxFunc) (h : List Event) : Bool × irods.error :=
  match func with
  | TxFunc.plain f => let result4 := f h; (result4.ok, result4)
  | TxFunc.flagged f => _result_visitor (f h)

/-- The tail of the failure branch of the loop of `execTx`: a full `rollback`,
then the error for the failed release step `result2`. -/
def execTxRollback (E : ErrorTable) (conn : Backend) (h : List Event) (result2 : Int × String) :
    Option irods.error × List Event :=
  let r := _execTxSql E conn h "rollback"
  let result := r.1.1
  if result < 0 then
    (some (ERROR result "rollback failure"), r.2)
  else
    (some (ERROR result2.1 "release savepoint cockroach_restart failure"), r.2)

/-- The `while(true)` loop of `execTx`, entered with history `h`. Each
iteration uses one unit of fuel; without fuel the loop is cut off and no
result is produced. -/
def execTxLoop (E : ErrorTable) (conn : Backend) (func : TxFunc) :
    Nat → List Event → Option irods.error × List Event
  | 0, h => (none, h)
  | fuel + 1, h =>
    let result4 := _execTxSql_visitor func h
    let h1 := h ++ [Event.call result4]
    let result3 := result4.2
    if result4.1 = false then
      (some result3, h1)
    else
      let r2 := _execTxSql E conn h1 "release savepoint cockroach_restart"
      let result2 := r2.1
      if result2.1 < 0 then
        if result2.2 = "40001" then
          let r := _execTxSql E conn r2.2 "rollback to savepoint cockroach_restart"
          if ¬ (r.1.1 < 0) then
            execTxLoop E conn func fuel r.2
          else
            execTxRollback E conn r.2 result2
        else
          execTxRollback E conn r2.2 result2
      else
        let r := _execTxSql E conn r2.2 "commit"
        if r.1.1 < 0 then
          (some (ERROR r.1.1 "commit failure"), r.2)
        else
          (some result3, r.2)

/-- Function `execTx`, run on a connection whose history starts empty: the
error it returns (`none` when the loop was cut off after `fuel` iterations) and
everything that happened, in order. -/
def execTx (E : ErrorTable) (conn : Backend) (func : TxFunc) (fuel : Nat) :
    Option irods.error × List Event :=
  let r := _execTxSql E conn [] "begin"
  if r.1.1 < 0 then
    (some (ERROR r.1.1 "begin failure"), r.2)
  else
    let r1 := _execTxSql E conn r.2 "savepoint cockroach_restart"
    if r1.1.1 < 0 then
      (some (ERROR r1.1.1 "savepoint cockroach_restart failure"), r1.2)
    else
      execTxLoop E conn func fuel r1.2

/-! ## The text rewrites applied before a statement is submitted -/

/-- The call `std::to_string(i)` on the values the placeholder counter takes:
the decimal numeral of `i`. -/
def to_string (i : Nat) : List Char := Nat.toDigits 10 i

/-- The `for` loop of `replaceParams` over the characters of the text, with the
counter `i` (an `int` that starts at 1 and only grows; reaching the end of the
`int` range takes a text of more than 2^31 - 2 placeholders, beyond which C++
leaves the increment undefined, so the model counts in the natural numbers). -/
def replaceParamsLoop : Nat → List Char → List Char
  | _, [] => []
  | i, ch :: rest =>
    if ch = '?' then '$' :: (to_string i ++ replaceParamsLoop (i + 1) rest)
    else ch :: replaceParamsLoop i rest

/-- Function `replaceParams`. -/
def replaceParams (_sql : String) : String := String.mk (replaceParamsLoop 1 _sql.data)

/-- The scan of `boost::replace_all` for a non-empty `search`: the text is read
left to right; where `search` starts, `format` is written and the scan
continues behind the match (`skip` counts the characters of a match still to
be passed over); any other character is copied. -/
def replaceAllFrom (search format : List Char) : Nat → List Char → List Char
  | _, [] => []
  | skip + 1, _ :: rest => replaceAllFrom search format skip rest
  | 0, c :: rest =>
    if search.isPrefixOf (c :: rest) then
      format ++ replaceAllFrom search format (search.length - 1) rest
    else c :: replaceAllFrom search format 0 rest

/-- The call `boost::replace_all(input, search, format)`: every occurrence of
`search`, found left to right without overlap, is replaced by `format`; an
empty `search` matches nothing. -/
def replace_all (input search format : List Char) : List Char :=
  if search.isEmpty then input else replaceAllFrom search format 0 input

/-- Function `replaceLikesToSimilarTos`. -/
def replaceLikesToSimilarTos (_sql : String) : String :=
  let res := _sql.data
  let res := replace_all res " like ".data " similar to ".data
  let res := replace_all res " LIKE ".data " SIMILAR TO ".data
  String.mk res

/-- Function `_execSql` on a connection that answers `PQexecParams(sql, params)`
with `exec sql params`: translate the text, submit it with the bind values,
classify the answer. The second component is the result handle stored in `res`. -/
def _execSql (E : ErrorTable) (exec : String → List String → PGresult) (_sql : String)
    (bindVars : List String) : Int × PGresult :=
  let sql := replaceLikesToSimilarTos (replaceParams _sql)
  let res := exec sql bindVars
  ((processRes E sql bindVars res).1, res)

/-- The text `seg₀ m(k) seg₁ m(k+1) … m(k+n-1) last`: the segments `segs`, each
followed by the marker with the next number, and then `last`. -/
def withMarkers (marker : Nat → List Char) : Nat → List (List Char) → List Char → List Char
  | _, [], last => last
  | k, seg :: segs, last => seg ++ marker k ++ withMarkers marker (k + 1) segs last

/-- The text `w₀ k₀ w₁ k₁ … last`: the pieces listed in `segs`, each followed by
the keyword `upper` when it is flagged and by `lower` when it is not, and then
`last`. -/
def withKeywords (lower upper : List Char) : List (List Char × Bool) → List Char → List Char
  | [], last => last
  | (w, up) :: segs, last =>
    w ++ ((if up = true then upper else lower) ++ withKeywords lower upper segs last)

/-! ## Result cursors

A cursor holds at most one result handle (`res_`, `none` for `nullptr`) and a
row index (`row_`). Its query callback is a closure, so what it returns may
depend on what it was asked before; it returns a status and the handle it
stored in `res_` (`none` when it stored `nullptr`, or left the `nullptr` of a
cursor without handle in place; a callback that leaves the handle that
`paging_result_set::next_row` has just released in place is not modelled).
Each cursor carries, as a ghost field, a record of the invocations of its
callback. The `int` fields are modelled in the integers (they stay below the
number of rows fetched). -/

/-- Row count of a result handle, `PQntuples`. -/
def PQntuples (res : PGresult) : Int := res.tuples.length

/-- Value of a field of a result handle, `PQgetvalue`; `none` outside the handle. -/
def PQgetvalue (res : PGresult) (row : Int) (col : Int) : Option String :=
  if row < 0 ∨ col < 0 then none
  else (res.tuples.get? row.toNat).bind fun tuple => tuple.get? col.toNat

/-- The buffered-all cursor: the fields of `result_set` and, as a ghost, the
number of invocations of `query_` so far. -/
structure all_result_set where
  res_ : Option PGresult
  row_ : Int
  invoked : Nat
  deriving DecidableEq, Repr

/-- One invocation of the query callback of a paginated cursor: the offset and
page size it was given, the status it returned and the handle it stored. -/
structure Fetch where
  offset : Int
  maxrows : Int
  status : Int
  res : Option PGresult
  deriving DecidableEq, Repr

/-- The paginated cursor: the fields of `result_set`, the offset and the page
size and, as a ghost, the invocations of `query_` so far, in order. -/
structure paging_result_set where
  res_ : Option PGresult
  row_ : Int
  offset_ : Int
  maxrows_ : Int
  fetched : List Fetch
  deriving DecidableEq, Repr

/-- Constructor `all_result_set::all_result_set` (with `result_set::result_set`):
no handle, row index 0. -/
def all_result_set.new : all_result_set :=
  { res_ := none, row_ := 0, invoked := 0 }

/-- Constructor `paging_result_set::paging_result_set` (with
`result_set::result_set`): no handle, row index 0, the given offset and page size. -/
def paging_result_set.new (_offset _maxrows : Int) : paging_result_set :=
  { res_ := none, row_ := 0, offset_ := _offset, maxrows_ := _maxrows, fetched := [] }

/-- Member `all_result_set::next_row`. The callback `query_` is given the number
of its earlier invocations. -/
def all_result_set.next_row (E : ErrorTable) (query_ : Nat → Int × Option PGresult)
    (s : all_result_set) : Int × all_result_set :=
  match s.res_ with
  | none =>
    let r := query_ s.invoked
    (r.1, { s with res_ := r.2, invoked := s.invoked + 1 })
  | some res =>
    if s.row_ ≥ PQntuples res - 1 then
      (E.CAT_SUCCESS_BUT_WITH_NO_INFO, s)
    else
      (0, { s with row_ := s.row_ + 1 })

/-- The fetch of `paging_result_set::next_row`: `row_ = 0`, the offset moved to
`offset`, then `query_(offset_, maxrows_, res_)`. The callback is given its
earlier invocations. -/
def paging_result_set.fetch (query_ : List Fetch → Int → Int → Int × Option PGresult)
    (s : paging_result_set) (offset : Int) : Int × paging_result_set :=
  let r := query_ s.fetched offset s.maxrows_
  (r.1, { res_ := r.2, row_ := 0, offset_ := offset, maxrows_ := s.maxrows_,
          fetched := s.fetched ++ [{ offset := offset, maxrows := s.maxrows_, status := r.1,
                                     res := r.2 }] })

/-- Member `paging_result_set::next_row`. -/
def paging_result_set.next_row (query_ : List Fetch → Int → Int → Int × Option PGresult)
    (s : paging_result_set) : Int × paging_result_set :=
  match s.res_ with
  | none => paging_result_set.fetch query_ s s.offset_
  | some res =>
    if s.row_ ≥ PQntuples res - 1 then
      paging_result_set.fetch query_ s (s.offset_ + PQntuples res)
    else
      (0, { s with row_ := s.row_ + 1 })

/-- Member `result_set::get_value(_col)` on the fields of a cursor. -/
def get_value (res_ : Option PGresult) (row_ : Int) (_col : Int) : Option String :=
  match res_ with
  | none => none
  | some res => PQgetvalue res row_ _col

/-- The row a cursor stands on: the tuple that `get_value` reads from. -/
def current_row (res_ : Option PGresult) (row_ : Int) : Option (List String) :=
  match res_ with
  | none => none
  | some res => if row_ < 0 then none else res.tuples.get? row_.toNat

/-- The buffered-all cursor after `n` calls of `next_row` on a fresh cursor. -/
def all_result_set.afterCalls (E : ErrorTable) (query_ : Nat → Int × Option PGresult) :
    Nat → all_result_set
  | 0 => all_result_set.new
  | n + 1 => (all_result_set.next_row E query_ (all_result_set.afterCalls E query_ n)).2

/-- The paginated cursor after `n` calls of `next_row` on a fresh cursor. -/
def paging_result_set.afterCalls (query_ : List Fetch → Int → Int → Int × Option PGresult)
    (_offset _maxrows : Int) : Nat → paging_result_set
  | 0 => paging_result_set.new _offset _maxrows
  | n + 1 => (paging_result_set.next_row query_
      (paging_result_set.afterCalls query_ _offset _maxrows n)).2

/-- A caller that calls `next_row` until it returns a status other than 0 and
reads the current row after every call that returned 0: the rows read, in
order, and the cursor at the end (`none` when `fuel` calls did not get there). -/
def paging_result_set.readAll (query_ : List Fetch → Int → Int → Int × Option PGresult) :
    Nat → paging_result_set → Option (List (Option (List String)) × paging_result_set)
  | 0, _ => none
  | fuel + 1, s =>
    let r := paging_result_set.next_row query_ s
    if r.1 ≠ 0 then some ([], r.2)
    else
      match paging_result_set.readAll query_ fuel r.2 with
      | none => none
      | some (rows, t) => some (current_row r.2.res_ r.2.row_ :: rows, t)

/-- A result handle of a query that returned the rows `page`. -/
def pageResult (page : List (List String)) : PGresult :=
  { status := ExecStatusType.PGRES_TUPLES_OK, cmdTuples := toString page.length,
    sqlstate := "", message := "", fields := [], tuples := page }

/-- The backend of the paginated cursor as a fixed list of rows: the query
callback at `(offset, maxrows)` stores the rows `[offset, offset + maxrows)`
of the list and returns 0 when that page is not empty and
`CAT_SUCCESS_BUT_WITH_NO_INFO` when it is. -/
def pageQuery (E : ErrorTable) (rows : List (List String)) :
    List Fetch → Int → Int → Int × Option PGresult := fun _ offset maxrows =>
  let page := (rows.drop offset.toNat).take maxrows.toNat
  (if page = [] then E.CAT_SUCCESS_BUT_WITH_NO_INFO else 0, some (pageResult page))

/-- The total number of rows of the handles stored by the invocations in a
record of fetches. -/
def fetchedRows : List Fetch → Int
  | [] => 0
  | f :: fs => (match f.res with
      | none => 0
      | some res => PQntuples res) + fetchedRows fs

/-- The offset at which a paginated cursor fetches next: its offset, moved on
by the rows of the handle it holds. -/
def paging_result_set.nextOffset (s : paging_result_set) : Int :=
  match s.res_ with
  | none => s.offset_
  | some res => s.offset_ + PQntuples res

/-! ## The cursor registry

The registry `result_sets` is a vector of pointers to cursors; a slot is
`none` for `nullptr`. Cursors are compared by identity, so the type `α` of
cursors is arbitrary. -/

/-- The `for` loop of `find_res_inx` from index `i` on, over the slots from
`i` on: the first index whose slot is `nullptr`. -/
def find_res_inx_scan {α : Type} : Nat → List (Option α) → Option Nat
  | _, [] => none
  | i, none :: _ => some i
  | i, some _ :: rest => find_res_inx_scan (i + 1) rest

/-- Function `find_res_inx`: the index it returns and the registry afterwards. -/
def find_res_inx {α : Type} (result_sets : List (Option α)) : Nat × List (Option α) :=
  match find_res_inx_scan 0 result_sets with
  | some i => (i, result_sets)
  | none => (result_sets.length, result_sets ++ [none])

/-- Function `cllFreeStatement`: the status and the registry afterwards. -/
def cllFreeStatement {α : Type} (_resinx : Nat) (result_sets : List (Option α)) :
    Int × List (Option α) :=
  (0, result_sets.set _resinx none)

/-- The registry part of `cllExecSqlWithResultBV`: `find_res_inx`, then the
new cursor `resset` (the `new all_result_set` of `execSql`) is stored in the
slot found. The handle `*_resinx` and the registry afterwards. -/
def cllExecSqlWithResultBV {α : Type} (resset : α) (result_sets : List (Option α)) :
    Nat × List (Option α) :=
  let r := find_res_inx result_sets
  (r.1, r.2.set r.1 (some resset))

/-- An operation on the registry: allocate a handle for a new cursor, or free a handle. -/
inductive RegistryOp (α : Type) where
  | allocate (resset : α)
  | free (_resinx : Nat)

/-- The registry together with, as a ghost, the live handles: those given out
by an allocate and not freed since, each with the cursor it was given out for. -/
structure Registry (α : Type) where
  result_sets : List (Option α)
  live : List (Nat × α)

/-- One operation on the registry; `none` for freeing a handle that is not
live, which callers must not do. -/
def Registry.step {α : Type} (s : Registry α) : RegistryOp α → Option (Registry α)
  | RegistryOp.allocate resset =>
    some { result_sets := (cllExecSqlWithResultBV resset s.result_sets).2,
           live := ((cllExecSqlWithResultBV resset s.result_sets).1, resset) :: s.live }
  | RegistryOp.free _resinx =>
    if _resinx ∈ s.live.map Prod.fst then
      some { result_sets := (cllFreeStatement _resinx s.result_sets).2,
             live := s.live.filter fun x => decide (x.1 ≠ _resinx) }
    else none

/-- A sequence of operations on the registry, from left to right. -/
def Registry.run {α : Type} : List (RegistryOp α) → Registry α → Option (Registry α)
  | [], s => some s
  | op :: ops, s =>
    match s.step op with
    | none => none
    | some t => Registry.run ops t

/-! ## Connecting -/

/-- Function `extract_optional`. -/
def extract_optional (key : String) (optional_value : Option String) : String :=
  match optional_value with
  | some value => " " ++ key ++ "=" ++ value
  | none => ""

/-- Function `cllConnect`, with the user name and password of the session
`icss`; `PQconnectdb` tells whether the connection made for a connection
string is in state `CONNECTION_OK`. Returned are the status and, as a ghost,
the connection string that was passed to `PQconnectdb`. -/
def cllConnect (PQconnectdb : String → Bool) (databaseUsername databasePassword : String)
    (host : String) (port : Int) (dbname : String)
    (sslmode sslrootcert sslcert sslkey : Option String) : Int × String :=
  let conninfo := "host=" ++ host ++ " port=" ++ toString port ++ " dbname=" ++ dbname ++
    " user=" ++ databaseUsername ++ " password=" ++ databasePassword ++
    extract_optional "sslmode" sslmode ++ extract_optional "sslrootcert" sslrootcert ++
    extract_optional "sslcert" sslcert ++ extract_optional "sslkey" sslkey
  (if PQconnectdb conninfo = true then 0 else -1, conninfo)

/-! ## Reading a history -/

/-- The statement text of a statement event. -/
def Event.sqlOf : Event → Option String
  | Event.stmt sql _ => some sql
  | Event.call _ => none

/-- The result of a unit-of-work event. -/
def Event.resultOf : Event → Option (Bool × irods.error)
  | Event.stmt _ _ => none
  | Event.call result => some result

/-- The statements issued in a history, in order. -/
def statements (h : List Event) : List String := h.filterMap Event.sqlOf

/-- The results of the unit-of-work invocations in a history, in order. -/
def invocations (h : List Event) : List (Bool × irods.error) := h.filterMap Event.resultOf

/-- A statement failed, the way `execTx` tests it: the code `processRes` gives
its result is negative. -/
def failed (E : ErrorTable) (sql : String) (res : PGresult) : Prop :=
  (processRes E sql [] res).1 < 0

instance (E : ErrorTable) (sql : String) (res : PGresult) : Decidable (failed E sql res) := by
  unfold failed; infer_instance

/-- The SQLSTATE `processRes` reports for the result of a statement. -/
def sqlstateOf (E : ErrorTable) (sql : String) (res : PGresult) : String :=
  (processRes E sql [] res).2

/-! ## Sample results and backends -/

/-- A result handle of a command that succeeded without rows. -/
def okResult : PGresult :=
  { status := ExecStatusType.PGRES_COMMAND_OK, cmdTuples := "", sqlstate := "", message := "",
    fields := [], tuples := [] }

/-- A result handle of a command that failed with the given SQLSTATE. -/
def errResult (sqlstate : String) : PGresult :=
  { status := ExecStatusType.PGRES_FATAL_ERROR, cmdTuples := "", sqlstate := sqlstate,
    message := "restart transaction", fields := [], tuples := [] }

/-- A backend on which every statement succeeds, except that the first `K`
executions of the release step fail with SQLSTATE 40001. -/
def retryBackend (K : Nat) : Backend := fun h sql =>
  if sql = "release savepoint cockroach_restart" ∧
      (statements h).count "release savepoint cockroach_restart" < K then
    errResult "40001"
  else
    okResult

/-- A result handle of an update that touched 2^32 rows. -/
def manyRowsResult : PGresult :=
  { status := ExecStatusType.PGRES_COMMAND_OK, cmdTuples := "4294967296", sqlstate := "",
    message := "", fields := [], tuples := [] }

/-- A result handle of a command that failed on a unique constraint. -/
def dupResult : PGresult :=
  { status := ExecStatusType.PGRES_FATAL_ERROR, cmdTuples := "", sqlstate := "23505",
    message := "duplicate key value violates unique constraint", fields := [], tuples := [] }

/-- A backend that answers the statements listed in `script` with the result
listed for them, whatever the history, and every other statement with success. -/
def scriptedBackend (script : List (String × PGresult)) : Backend := fun _ sql =>
  (script.lookup sql).getD okResult

/-- Three sample rows of one column. -/
def sampleRows : List (List String) := [["a"], ["b"], ["c"]]

/-- A callback of a buffered-all cursor that stores `res` and returns 0. -/
def constQuery (res : PGresult) : Nat → Int × Option PGresult := fun _ => (0, some res)

/-- Sample values of the two catalog codes. -/
def sampleTable : ErrorTable :=
  { CAT_SUCCESS_BUT_WITH_NO_INFO := -808000, CATALOG_ALREADY_HAS_ITEM_BY_THAT_NAME := -809000 }

/-- A unit of work that always succeeds with code 0. -/
def okWork : TxFunc := TxFunc.plain fun _ => { status_ := true, code_ := 0, message_ := "" }

/-- A unit of work that always fails with code -1. -/
def failWork : TxFunc := TxFunc.flagged fun _ => Sum.inr (false, ERROR (-1) "unit of work failed")

/-! ## The events of one loop iteration

The loop of `execTx`, entered with history `h`, first invokes the unit of
work, then sends the release step, and after a serialization conflict the
rollback to the savepoint. -/

/-- The unit-of-work event of an iteration entered with history `h`. -/
def workEvent (func : TxFunc) (h : List Event) : Event :=
  Event.call (_execTxSql_visitor func h)

/-- The release step of an iteration entered with history `h`. -/
def releaseEvent (conn : Backend) (func : TxFunc) (h : List Event) : Event :=
  Event.stmt "release savepoint cockroach_restart"
    (conn (h ++ [workEvent func h]) "release savepoint cockroach_restart")

/-- The result handle of the release step of an iteration entered with `h`. -/
def releaseResult (conn : Backend) (func : TxFunc) (h : List Event) : PGresult :=
  conn (h ++ [workEvent func h]) "release savepoint cockroach_restart"

/-- The result handle of the rollback to the savepoint of an iteration entered
with `h`. -/
def restartResult (conn : Backend) (func : TxFunc) (h : List Event) : PGresult :=
  conn (h ++ [workEvent func h, releaseEvent conn func h])
    "rollback to savepoint cockroach_restart"

/-- The rollback to the savepoint of an iteration entered with history `h`. -/
def restartEvent (conn : Backend) (func : TxFunc) (h : List Event) : Event :=
  Event.stmt "rollback to savepoint cockroach_restart" (restartResult conn func h)

/-! ## Lemmas on histories -/

@[simp] theorem statements_nil : statements [] = [] := rfl

@[simp] theorem statements_append (a b : List Event) :
    statements (a ++ b) = statements a ++ statements b := by
  simp [statements]

@[simp] theorem statements_stmt (sql : String) (res : PGresult) (t : List Event) :
    statements (Event.stmt sql res :: t) = sql :: statements t := rfl

@[simp] theorem statements_call (r : Bool × irods.error) (t : List Event) :
    statements (Event.call r :: t) = statements t := rfl

@[simp] theorem invocations_nil : invocations [] = [] := rfl

@[simp] theorem invocations_append (a b : List Event) :
    invocations (a ++ b) = invocations a ++ invocations b := by
  simp [invocations]

@[simp] theorem invocations_stmt (sql : String) (res : PGresult) (t : List Event) :
    invocations (Event.stmt sql res :: t) = invocations t := rfl

@[simp] theorem invocations_call (r : Bool × irods.error) (t : List Event) :
    invocations (Event.call r :: t) = r :: invocations t := rfl

@[simp] theorem _execTxSql_fst (E : ErrorTable) (conn : Backend) (h : List Event) (sql : String) :
    (_execTxSql E conn h sql).1 = processRes E sql [] (conn h sql) := rfl

@[simp] theorem _execTxSql_snd (E : ErrorTable) (conn : Backend) (h : List Event) (sql : String) :
    (_execTxSql E conn h sql).2 = h ++ [Event.stmt sql (conn h sql)] := rfl

/-! ## The retry loop under repeated serialization conflicts -/

/-- The loop of `execTx`, entered when `n` more release steps will fail with
SQLSTATE 40001: it runs the unit of work `n + 1` more times and commits. -/
theorem execTxLoop_retry (E : ErrorTable) (conn : Backend) (func : TxFunc) (K : Nat)
    (hrb : ∀ h, ¬ failed E "rollback to savepoint cockroach_restart"
      (conn h "rollback to savepoint cockroach_restart"))
    (hcommit : ∀ h, ¬ failed E "commit" (conn h "commit"))
    (hrel_fail : ∀ h, (statements h).count "release savepoint cockroach_restart" < K →
      failed E "release savepoint cockroach_restart"
        (conn h "release savepoint cockroach_restart") ∧
      sqlstateOf E "release savepoint cockroach_restart"
        (conn h "release savepoint cockroach_restart") = "40001")
    (hrel_ok : ∀ h, (statements h).count "release savepoint cockroach_restart" = K →
      ¬ failed E "release savepoint cockroach_restart"
        (conn h "release savepoint cockroach_restart"))
    (hfunc : ∀ h, (_execTxSql_visitor func h).1 = true) :
    ∀ (n : Nat) (h : List Event) (fuel : Nat),
      (statements h).count "release savepoint cockroach_restart" + n = K →
      (statements h).count "commit" = 0 → n + 1 ≤ fuel →
      ∃ result, (execTxLoop E conn func fuel h).1 = some result ∧
        (invocations (execTxLoop E conn func fuel h).2).length = (invocations h).length + n + 1 ∧
        (statements (execTxLoop E conn func fuel h).2).count "commit" = 1 ∧
        (invocations (execTxLoop E conn func fuel h).2).getLast? = some (true, result) := by
  intro n
  induction n with
  | zero =>
    intro h fuel hK hc hfuel
    obtain ⟨fuel, rfl⟩ : ∃ f, fuel = f + 1 := ⟨fuel - 1, by omega⟩
    have hok := hrel_ok (h ++ [Event.call (_execTxSql_visitor func h)]) (by simpa using hK)
    have hco := hcommit (h ++ [Event.call (_execTxSql_visitor func h)] ++
      [Event.stmt "release savepoint cockroach_restart"
        (conn (h ++ [Event.call (_execTxSql_visitor func h)])
          "release savepoint cockroach_restart")])
    unfold failed at hok hco
    have hrun : execTxLoop E conn func (fuel + 1) h =
        (some (_execTxSql_visitor func h).2,
          h ++ [Event.call (_execTxSql_visitor func h)] ++
            [Event.stmt "release savepoint cockroach_restart"
              (conn (h ++ [Event.call (_execTxSql_visitor func h)])
                "release savepoint cockroach_restart")] ++
            [Event.stmt "commit"
              (conn (h ++ [Event.call (_execTxSql_visitor func h)] ++
                [Event.stmt "release savepoint cockroach_restart"
                  (conn (h ++ [Event.call (_execTxSql_visitor func h)])
                    "release savepoint cockroach_restart")]) "commit")]) := by
      simp only [execTxLoop, hfunc h, _execTxSql_fst, _execTxSql_snd, hok, hco,
        Bool.true_eq_false, if_false]
    rw [hrun]
    refine ⟨(_execTxSql_visitor func h).2, rfl, ?_, ?_, ?_⟩
    · simp
    · simp [hc]
    · simp [← hfunc h]
  | succ n ih =>
    intro h fuel hK hc hfuel
    obtain ⟨fuel, rfl⟩ : ∃ f, fuel = f + 1 := ⟨fuel - 1, by omega⟩
    have hfail := hrel_fail (h ++ [Event.call (_execTxSql_visitor func h)])
      (by simp; omega)
    have hr := hrb (h ++ [Event.call (_execTxSql_visitor func h)] ++
      [Event.stmt "release savepoint cockroach_restart"
        (conn (h ++ [Event.call (_execTxSql_visitor func h)])
          "release savepoint cockroach_restart")])
    unfold failed sqlstateOf at hfail
    unfold failed at hr
    have hrun : execTxLoop E conn func (fuel + 1) h =
        execTxLoop E conn func fuel
          (h ++ [Event.call (_execTxSql_visitor func h)] ++
            [Event.stmt "release savepoint cockroach_restart"
              (conn (h ++ [Event.call (_execTxSql_visitor func h)])
                "release savepoint cockroach_restart")] ++
            [Event.stmt "rollback to savepoint cockroach_restart"
              (conn (h ++ [Event.call (_execTxSql_visitor func h)] ++
                [Event.stmt "release savepoint cockroach_restart"
                  (conn (h ++ [Event.call (_execTxSql_visitor func h)])
                    "release savepoint cockroach_restart")])
                "rollback to savepoint cockroach_restart")]) := by
      simp only [execTxLoop, hfunc h, _execTxSql_fst, _execTxSql_snd, hfail.1, hfail.2, hr,
        Bool.true_eq_false, if_false, if_true, not_false_eq_true]
    rw [hrun]
    generalize hh3 : h ++ [Event.call (_execTxSql_visitor func h)] ++
      [Event.stmt "release savepoint cockroach_restart"
        (conn (h ++ [Event.call (_execTxSql_visitor func h)])
          "release savepoint cockroach_restart")] ++
      [Event.stmt "rollback to savepoint cockroach_restart"
        (conn (h ++ [Event.call (_execTxSql_visitor func h)] ++
          [Event.stmt "release savepoint cockroach_restart"
            (conn (h ++ [Event.call (_execTxSql_visitor func h)])
              "release savepoint cockroach_restart")])
          "rollback to savepoint cockroach_restart")] = h3
    have e1 : statements h3 = statements h ++
        ["release savepoint cockroach_restart", "rollback to savepoint cockroach_restart"] := by
      rw [← hh3]; simp
    have e2 : invocations h3 = invocations h ++ [_execTxSql_visitor func h] := by
      rw [← hh3]; simp
    obtain ⟨result, hres, hinv, hcm, hlast⟩ := ih h3 fuel
      (by rw [e1]; simp [List.count_cons]; omega) (by rw [e1]; simp [hc, List.count_cons])
      (by omega)
    refine ⟨result, hres, ?_, hcm, hlast⟩
    rw [hinv, e2]
    simp
    omega

/-! ## One iteration of the loop, case by case -/

/-- The five ways one iteration of the loop of `execTx` can go. -/
theorem execTxLoop_succ (E : ErrorTable) (conn : Backend) (func : TxFunc) (fuel : Nat)
    (h : List Event) :
    ((_execTxSql_visitor func h).1 = false ∧
      execTxLoop E conn func (fuel + 1) h =
        (some (_execTxSql_visitor func h).2, h ++ [workEvent func h])) ∨
    ((_execTxSql_visitor func h).1 = true ∧
      ¬ failed E "release savepoint cockroach_restart" (releaseResult conn func h) ∧
      execTxLoop E conn func (fuel + 1) h =
        (some (if failed E "commit"
            (conn (h ++ [workEvent func h, releaseEvent conn func h]) "commit") then
          ERROR (processRes E "commit" []
            (conn (h ++ [workEvent func h, releaseEvent conn func h]) "commit")).1
            "commit failure"
          else (_execTxSql_visitor func h).2),
        h ++ [workEvent func h, releaseEvent conn func h,
          Event.stmt "commit"
            (conn (h ++ [workEvent func h, releaseEvent conn func h]) "commit")])) ∨
    ((_execTxSql_visitor func h).1 = true ∧
      failed E "release savepoint cockroach_restart" (releaseResult conn func h) ∧
      sqlstateOf E "release savepoint cockroach_restart" (releaseResult conn func h) ≠ "40001" ∧
      execTxLoop E conn func (fuel + 1) h =
        (some (if failed E "rollback"
            (conn (h ++ [workEvent func h, releaseEvent conn func h]) "rollback") then
          ERROR (processRes E "rollback" []
            (conn (h ++ [workEvent func h, releaseEvent conn func h]) "rollback")).1
            "rollback failure"
          else ERROR (processRes E "release savepoint cockroach_restart" []
            (releaseResult conn func h)).1 "release savepoint cockroach_restart failure"),
        h ++ [workEvent func h, releaseEvent conn func h,
          Event.stmt "rollback"
            (conn (h ++ [workEvent func h, releaseEvent conn func h]) "rollback")])) ∨
    ((_execTxSql_visitor func h).1 = true ∧
      failed E "release savepoint cockroach_restart" (releaseResult conn func h) ∧
      sqlstateOf E "release savepoint cockroach_restart" (releaseResult conn func h) = "40001" ∧
      failed E "rollback to savepoint cockroach_restart" (restartResult conn func h) ∧
      execTxLoop E conn func (fuel + 1) h =
        (some (if failed E "rollback"
            (conn (h ++ [workEvent func h, releaseEvent conn func h,
              restartEvent conn func h]) "rollback") then
          ERROR (processRes E "rollback" []
            (conn (h ++ [workEvent func h, releaseEvent conn func h,
              restartEvent conn func h]) "rollback")).1
            "rollback failure"
          else ERROR (processRes E "release savepoint cockroach_restart" []
            (releaseResult conn func h)).1 "release savepoint cockroach_restart failure"),
        h ++ [workEvent func h, releaseEvent conn func h, restartEvent conn func h,
          Event.stmt "rollback"
            (conn (h ++ [workEvent func h, releaseEvent conn func h,
              restartEvent conn func h]) "rollback")])) ∨
    ((_execTxSql_visitor func h).1 = true ∧
      failed E "release savepoint cockroach_restart" (releaseResult conn func h) ∧
      sqlstateOf E "release savepoint cockroach_restart" (releaseResult conn func h) = "40001" ∧
      ¬ failed E "rollback to savepoint cockroach_restart" (restartResult conn func h) ∧
      execTxLoop E conn func (fuel + 1) h =
        execTxLoop E conn func fuel
          (h ++ [workEvent func h, releaseEvent conn func h, restartEvent conn func h])) := by
  unfold failed sqlstateOf
  simp only [execTxLoop, execTxRollback, _execTxSql_fst, _execTxSql_snd, workEvent, releaseEvent,
    restartEvent, releaseResult, restartResult, List.append_assoc, List.cons_append,
    List.nil_append]
  by_cases hv : (_execTxSql_visitor func h).1 = false
  · left
    simp only [hv, if_true, and_self]
  · right
    have hv1 : (_execTxSql_visitor func h).1 = true := by simpa using hv
    simp only [hv1, Bool.true_eq_false, if_false, true_and]
    split_ifs <;> simp_all

/-- The loop of `execTx` only appends to the history. -/
theorem execTxLoop_extends (E : ErrorTable) (conn : Backend) (func : TxFunc) :
    ∀ (fuel : Nat) (h : List Event), ∃ suf, (execTxLoop E conn func fuel h).2 = h ++ suf := by
  intro fuel
  induction fuel with
  | zero => intro h; exact ⟨[], by simp [execTxLoop]⟩
  | succ fuel ih =>
    intro h
    rcases execTxLoop_succ E conn func fuel h with
      ⟨_, hr⟩ | ⟨_, _, hr⟩ | ⟨_, _, _, hr⟩ | ⟨_, _, _, _, hr⟩ | ⟨_, _, _, _, hr⟩
    · exact ⟨_, by rw [hr]⟩
    · exact ⟨_, by rw [hr]⟩
    · exact ⟨_, by rw [hr]⟩
    · exact ⟨_, by rw [hr]⟩
    · obtain ⟨suf, hs⟩ := ih (h ++ [workEvent func h, releaseEvent conn func h,
        restartEvent conn func h])
      exact ⟨[workEvent func h, releaseEvent conn func h, restartEvent conn func h] ++ suf,
        by rw [hr, hs, List.append_assoc]⟩

/-- In the events the loop appends, a successful unit of work followed by a
successful release step is followed by `commit` and nothing else, and decides
the result. -/
theorem execTxLoop_release_ok (E : ErrorTable) (conn : Backend) (func : TxFunc) :
    ∀ (fuel : Nat) (h suf : List Event), (execTxLoop E conn func fuel h).2 = h ++ suf →
      ∀ (p : List Event) (e : irods.error) (res : PGresult) (post : List Event),
        suf = p ++ Event.call (true, e) ::
          Event.stmt "release savepoint cockroach_restart" res :: post →
        ¬ failed E "release savepoint cockroach_restart" res →
        ∃ rc, post = [Event.stmt "commit" rc] ∧
          (execTxLoop E conn func fuel h).1 =
            some (if failed E "commit" rc then
              ERROR (processRes E "commit" [] rc).1 "commit failure" else e) := by
  intro fuel
  induction fuel with
  | zero =>
    intro h suf hs p e res post hdec _
    simp [execTxLoop] at hs
    subst hs
    simp at hdec
  | succ fuel ih =>
    intro h suf hs p e res post hdec hok
    rcases execTxLoop_succ E conn func fuel h with
      ⟨_, hr⟩ | ⟨hv, _, hr⟩ | ⟨_, hf, _, hr⟩ | ⟨_, hf, _, _, hr⟩ | ⟨_, hf, _, _, hr⟩
    · rw [hr] at hs
      have hL := List.append_cancel_left hs
      subst hL
      rcases p with _ | ⟨p1, _ | ⟨p2, p⟩⟩ <;> simp [workEvent] at hdec
    · rw [hr] at hs ⊢
      have hL := List.append_cancel_left hs
      subst hL
      rcases p with _ | ⟨p1, _ | ⟨p2, _ | ⟨p3, p⟩⟩⟩ <;>
        simp [workEvent, releaseEvent] at hdec
      obtain ⟨hw, hres, hpost⟩ := hdec
      refine ⟨_, hpost.symm, ?_⟩
      simp [workEvent, releaseEvent, hw]
    · rw [hr] at hs
      have hL := List.append_cancel_left hs
      subst hL
      rcases p with _ | ⟨p1, _ | ⟨p2, _ | ⟨p3, p⟩⟩⟩ <;>
        simp [workEvent, releaseEvent] at hdec
      obtain ⟨hw, hres, hpost⟩ := hdec
      rw [releaseResult, workEvent, hres] at hf
      exact absurd hf hok
    · rw [hr] at hs
      have hL := List.append_cancel_left hs
      subst hL
      rcases p with _ | ⟨p1, _ | ⟨p2, _ | ⟨p3, _ | ⟨p4, p⟩⟩⟩⟩ <;>
        simp [workEvent, releaseEvent, restartEvent] at hdec
      obtain ⟨hw, hres, hpost⟩ := hdec
      rw [releaseResult, workEvent, hres] at hf
      exact absurd hf hok
    · rw [hr] at hs ⊢
      obtain ⟨suf1, hs1⟩ := execTxLoop_extends E conn func fuel
        (h ++ [workEvent func h, releaseEvent conn func h, restartEvent conn func h])
      rw [hs1, List.append_assoc] at hs
      have hL := List.append_cancel_left hs
      subst hL
      rcases p with _ | ⟨p1, _ | ⟨p2, _ | ⟨p3, p⟩⟩⟩
      · simp [workEvent, releaseEvent, restartEvent] at hdec
        obtain ⟨hw, hres, hpost⟩ := hdec
        rw [releaseResult, workEvent, hres] at hf
        exact absurd hf hok
      · simp [workEvent, releaseEvent, restartEvent] at hdec
      · simp [workEvent, releaseEvent, restartEvent] at hdec
      · simp only [List.cons_append, List.cons.injEq] at hdec
        exact ih _ suf1 hs1 p e res post hdec.2.2.2 hok

/-- In the events the loop appends, a release step that failed with a SQLSTATE
other than 40001 is followed by a full `rollback` and nothing else, and the two
decide the result. -/
theorem execTxLoop_release_fatal (E : ErrorTable) (conn : Backend) (func : TxFunc) :
    ∀ (fuel : Nat) (h suf : List Event), (execTxLoop E conn func fuel h).2 = h ++ suf →
      ∀ (p : List Event) (res : PGresult) (post : List Event),
        suf = p ++ Event.stmt "release savepoint cockroach_restart" res :: post →
        failed E "release savepoint cockroach_restart" res →
        sqlstateOf E "release savepoint cockroach_restart" res ≠ "40001" →
        ∃ rr, post = [Event.stmt "rollback" rr] ∧
          (execTxLoop E conn func fuel h).1 =
            some (if failed E "rollback" rr then
              ERROR (processRes E "rollback" [] rr).1 "rollback failure"
            else ERROR (processRes E "release savepoint cockroach_restart" [] res).1
              "release savepoint cockroach_restart failure") := by
  intro fuel
  induction fuel with
  | zero =>
    intro h suf hs p res post hdec _ _
    simp [execTxLoop] at hs
    subst hs
    simp at hdec
  | succ fuel ih =>
    intro h suf hs p res post hdec hfail hstate
    rcases execTxLoop_succ E conn func fuel h with
      ⟨_, hr⟩ | ⟨_, hf, hr⟩ | ⟨_, _, _, hr⟩ | ⟨_, _, hst, _, hr⟩ | ⟨_, _, hst, _, hr⟩
    · rw [hr] at hs
      have hL := List.append_cancel_left hs
      subst hL
      rcases p with _ | ⟨p1, _ | ⟨p2, p⟩⟩ <;> simp [workEvent] at hdec
    · rw [hr] at hs
      have hL := List.append_cancel_left hs
      subst hL
      rcases p with _ | ⟨p1, _ | ⟨p2, _ | ⟨p3, p⟩⟩⟩ <;>
        simp [workEvent, releaseEvent] at hdec
      obtain ⟨_, hres, _⟩ := hdec
      rw [releaseResult, workEvent, hres] at hf
      exact absurd hfail hf
    · rw [hr] at hs ⊢
      have hL := List.append_cancel_left hs
      subst hL
      rcases p with _ | ⟨p1, _ | ⟨p2, _ | ⟨p3, p⟩⟩⟩ <;>
        simp [workEvent, releaseEvent] at hdec
      obtain ⟨_, hres, hpost⟩ := hdec
      refine ⟨_, hpost.symm, ?_⟩
      simp [workEvent, releaseEvent, releaseResult, hres]
    · rw [hr] at hs
      have hL := List.append_cancel_left hs
      subst hL
      rcases p with _ | ⟨p1, _ | ⟨p2, _ | ⟨p3, _ | ⟨p4, p⟩⟩⟩⟩ <;>
        simp [workEvent, releaseEvent, restartEvent] at hdec
      obtain ⟨_, hres, _⟩ := hdec
      rw [releaseResult, workEvent, hres] at hst
      exact absurd hst hstate
    · rw [hr] at hs ⊢
      obtain ⟨suf1, hs1⟩ := execTxLoop_extends E conn func fuel
        (h ++ [workEvent func h, releaseEvent conn func h, restartEvent conn func h])
      rw [hs1, List.append_assoc] at hs
      have hL := List.append_cancel_left hs
      subst hL
      rcases p with _ | ⟨p1, _ | ⟨p2, _ | ⟨p3, p⟩⟩⟩
      · simp [workEvent, releaseEvent, restartEvent] at hdec
      · simp [workEvent, releaseEvent, restartEvent] at hdec
        obtain ⟨_, hres, _⟩ := hdec
        rw [releaseResult, workEvent, hres] at hst
        exact absurd hst hstate
      · simp [workEvent, releaseEvent, restartEvent] at hdec
      · simp only [List.cons_append, List.cons.injEq] at hdec
        exact ih _ suf1 hs1 p res post hdec.2.2.2 hfail hstate

/-- In the events the loop appends, a release step followed by a rollback to
the savepoint that failed is followed by a full `rollback` and nothing else,
and the two decide the result. -/
theorem execTxLoop_restart_fatal (E : ErrorTable) (conn : Backend) (func : TxFunc) :
    ∀ (fuel : Nat) (h suf : List Event), (execTxLoop E conn func fuel h).2 = h ++ suf →
      ∀ (p : List Event) (res res2 : PGresult) (post : List Event),
        suf = p ++ Event.stmt "release savepoint cockroach_restart" res ::
          Event.stmt "rollback to savepoint cockroach_restart" res2 :: post →
        failed E "rollback to savepoint cockroach_restart" res2 →
        ∃ rr, post = [Event.stmt "rollback" rr] ∧
          (execTxLoop E conn func fuel h).1 =
            some (if failed E "rollback" rr then
              ERROR (processRes E "rollback" [] rr).1 "rollback failure"
            else ERROR (processRes E "release savepoint cockroach_restart" [] res).1
              "release savepoint cockroach_restart failure") := by
  intro fuel
  induction fuel with
  | zero =>
    intro h suf hs p res res2 post hdec _
    simp [execTxLoop] at hs
    subst hs
    simp at hdec
  | succ fuel ih =>
    intro h suf hs p res res2 post hdec hfail
    rcases execTxLoop_succ E conn func fuel h with
      ⟨_, hr⟩ | ⟨_, _, hr⟩ | ⟨_, _, _, hr⟩ | ⟨_, _, _, _, hr⟩ | ⟨_, _, _, hf, hr⟩
    · rw [hr] at hs
      have hL := List.append_cancel_left hs
      subst hL
      rcases p with _ | ⟨p1, _ | ⟨p2, p⟩⟩ <;> simp [workEvent] at hdec
    · rw [hr] at hs
      have hL := List.append_cancel_left hs
      subst hL
      rcases p with _ | ⟨p1, _ | ⟨p2, _ | ⟨p3, p⟩⟩⟩ <;>
        simp [workEvent, releaseEvent] at hdec
    · rw [hr] at hs
      have hL := List.append_cancel_left hs
      subst hL
      rcases p with _ | ⟨p1, _ | ⟨p2, _ | ⟨p3, p⟩⟩⟩ <;>
        simp [workEvent, releaseEvent] at hdec
    · rw [hr] at hs ⊢
      have hL := List.append_cancel_left hs
      subst hL
      rcases p with _ | ⟨p1, _ | ⟨p2, _ | ⟨p3, _ | ⟨p4, p⟩⟩⟩⟩ <;>
        simp [workEvent, releaseEvent, restartEvent] at hdec
      obtain ⟨_, hres, _, hpost⟩ := hdec
      refine ⟨_, hpost.symm, ?_⟩
      simp [workEvent, releaseEvent, restartEvent, releaseResult, hres]
    · rw [hr] at hs ⊢
      obtain ⟨suf1, hs1⟩ := execTxLoop_extends E conn func fuel
        (h ++ [workEvent func h, releaseEvent conn func h, restartEvent conn func h])
      rw [hs1, List.append_assoc] at hs
      have hL := List.append_cancel_left hs
      subst hL
      rcases p with _ | ⟨p1, _ | ⟨p2, _ | ⟨p3, p⟩⟩⟩
      · simp [workEvent, releaseEvent, restartEvent] at hdec
      · simp [workEvent, releaseEvent, restartEvent] at hdec
        obtain ⟨_, _, hres2, _⟩ := hdec
        rw [hres2] at hf
        exact absurd hfail hf
      · simp [workEvent, releaseEvent, restartEvent] at hdec
      · simp only [List.cons_append, List.cons.injEq] at hdec
        exact ih _ suf1 hs1 p res res2 post hdec.2.2.2 hfail

/-- In the events the loop appends, every rollback to the savepoint comes
right after a release step that failed with SQLSTATE 40001. -/
theorem execTxLoop_restart_guarded (E : ErrorTable) (conn : Backend) (func : TxFunc) :
    ∀ (fuel : Nat) (h suf : List Event), (execTxLoop E conn func fuel h).2 = h ++ suf →
      ∀ (p : List Event) (res : PGresult) (post : List Event),
        suf = p ++ Event.stmt "rollback to savepoint cockroach_restart" res :: post →
        ∃ q r, p = q ++ [Event.stmt "release savepoint cockroach_restart" r] ∧
          failed E "release savepoint cockroach_restart" r ∧
          sqlstateOf E "release savepoint cockroach_restart" r = "40001" := by
  intro fuel
  induction fuel with
  | zero =>
    intro h suf hs p res post hdec
    simp [execTxLoop] at hs
    subst hs
    simp at hdec
  | succ fuel ih =>
    intro h suf hs p res post hdec
    rcases execTxLoop_succ E conn func fuel h with
      ⟨_, hr⟩ | ⟨_, _, hr⟩ | ⟨_, _, _, hr⟩ | ⟨_, hf, hst, _, hr⟩ | ⟨_, hf, hst, _, hr⟩
    · rw [hr] at hs
      have hL := List.append_cancel_left hs
      subst hL
      rcases p with _ | ⟨p1, _ | ⟨p2, p⟩⟩ <;> simp [workEvent] at hdec
    · rw [hr] at hs
      have hL := List.append_cancel_left hs
      subst hL
      rcases p with _ | ⟨p1, _ | ⟨p2, _ | ⟨p3, p⟩⟩⟩ <;>
        simp [workEvent, releaseEvent] at hdec
    · rw [hr] at hs
      have hL := List.append_cancel_left hs
      subst hL
      rcases p with _ | ⟨p1, _ | ⟨p2, _ | ⟨p3, p⟩⟩⟩ <;>
        simp [workEvent, releaseEvent] at hdec
    · rw [hr] at hs
      have hL := List.append_cancel_left hs
      subst hL
      rcases p with _ | ⟨p1, _ | ⟨p2, _ | ⟨p3, _ | ⟨p4, p⟩⟩⟩⟩ <;>
        simp [workEvent, releaseEvent, restartEvent] at hdec
      obtain ⟨h1, h2, _⟩ := hdec
      exact ⟨[p1], releaseResult conn func h, by simp [← h2, releaseResult, workEvent], hf, hst⟩
    · rw [hr] at hs
      obtain ⟨suf1, hs1⟩ := execTxLoop_extends E conn func fuel
        (h ++ [workEvent func h, releaseEvent conn func h, restartEvent conn func h])
      rw [hs1, List.append_assoc] at hs
      have hL := List.append_cancel_left hs
      subst hL
      rcases p with _ | ⟨p1, _ | ⟨p2, _ | ⟨p3, p⟩⟩⟩
      · simp [workEvent, releaseEvent, restartEvent] at hdec
      · simp [workEvent, releaseEvent, restartEvent] at hdec
      · simp [workEvent, releaseEvent, restartEvent] at hdec
        obtain ⟨h1, h2, _⟩ := hdec
        exact ⟨[p1], releaseResult conn func h, by simp [← h2, releaseResult, workEvent], hf, hst⟩
      · simp only [List.cons_append, List.cons.injEq] at hdec
        obtain ⟨q, r, hq, hqf, hqs⟩ := ih _ suf1 hs1 p res post hdec.2.2.2
        exact ⟨p1 :: p2 :: p3 :: q, r, by simp [hq], hqf, hqs⟩

/-- In the events the loop appends, when the first release step succeeds or
fails with a SQLSTATE other than 40001, the unit of work runs exactly once and
no rollback to the savepoint is sent. -/
theorem execTxLoop_first_release (E : ErrorTable) (conn : Backend) (func : TxFunc)
    (fuel : Nat) (h suf : List Event) (hs : (execTxLoop E conn func fuel h).2 = h ++ suf)
    (p : List Event) (res : PGresult) (post : List Event)
    (hdec : suf = p ++ Event.stmt "release savepoint cockroach_restart" res :: post)
    (hfirst : "release savepoint cockroach_restart" ∉ statements p)
    (hres : ¬ failed E "release savepoint cockroach_restart" res ∨
      sqlstateOf E "release savepoint cockroach_restart" res ≠ "40001") :
    (invocations suf).length = 1 ∧
      "rollback to savepoint cockroach_restart" ∉ statements suf := by
  cases fuel with
  | zero =>
    simp [execTxLoop] at hs
    subst hs
    simp at hdec
  | succ fuel =>
    rcases execTxLoop_succ E conn func fuel h with
      ⟨_, hr⟩ | ⟨_, _, hr⟩ | ⟨_, _, _, hr⟩ | ⟨_, hf, hst, _, hr⟩ | ⟨_, hf, hst, _, hr⟩
    · rw [hr] at hs
      have hL := List.append_cancel_left hs
      subst hL
      rcases p with _ | ⟨p1, _ | ⟨p2, p⟩⟩ <;> simp [workEvent] at hdec
    · rw [hr] at hs
      have hL := List.append_cancel_left hs
      subst hL
      simp [workEvent, releaseEvent]
    · rw [hr] at hs
      have hL := List.append_cancel_left hs
      subst hL
      simp [workEvent, releaseEvent]
    · rw [hr] at hs
      have hL := List.append_cancel_left hs
      subst hL
      rcases p with _ | ⟨p1, _ | ⟨p2, p⟩⟩
      · simp [workEvent, releaseEvent, restartEvent] at hdec
      · simp [workEvent, releaseEvent, restartEvent] at hdec
        obtain ⟨_, h2, _⟩ := hdec
        rw [releaseResult, workEvent, h2] at hf hst
        rcases hres with hres | hres
        · exact absurd hf hres
        · exact absurd hst hres
      · simp only [List.cons_append, List.cons.injEq] at hdec
        obtain ⟨h1, h2, _⟩ := hdec
        simp [← h1, ← h2, workEvent, releaseEvent] at hfirst
    · rw [hr] at hs
      obtain ⟨suf1, hs1⟩ := execTxLoop_extends E conn func fuel
        (h ++ [workEvent func h, releaseEvent conn func h, restartEvent conn func h])
      rw [hs1, List.append_assoc] at hs
      have hL := List.append_cancel_left hs
      subst hL
      rcases p with _ | ⟨p1, _ | ⟨p2, p⟩⟩
      · simp [workEvent, releaseEvent, restartEvent] at hdec
      · simp [workEvent, releaseEvent, restartEvent] at hdec
        obtain ⟨_, h2, _⟩ := hdec
        rw [releaseResult, workEvent, h2] at hf hst
        rcases hres with hres | hres
        · exact absurd hf hres
        · exact absurd hst hres
      · simp only [List.cons_append, List.cons.injEq] at hdec
        obtain ⟨h1, h2, _⟩ := hdec
        simp [← h1, ← h2, workEvent, releaseEvent] at hfirst

/-- The three ways the steps of `execTx` before the loop can go. -/
theorem execTx_cases (E : ErrorTable) (conn : Backend) (func : TxFunc) (fuel : Nat) :
    (failed E "begin" (conn [] "begin") ∧
      execTx E conn func fuel =
        (some (ERROR (processRes E "begin" [] (conn [] "begin")).1 "begin failure"),
          [Event.stmt "begin" (conn [] "begin")])) ∨
    (¬ failed E "begin" (conn [] "begin") ∧
      failed E "savepoint cockroach_restart"
        (conn [Event.stmt "begin" (conn [] "begin")] "savepoint cockroach_restart") ∧
      execTx E conn func fuel =
        (some (ERROR (processRes E "savepoint cockroach_restart" []
            (conn [Event.stmt "begin" (conn [] "begin")] "savepoint cockroach_restart")).1
          "savepoint cockroach_restart failure"),
          [Event.stmt "begin" (conn [] "begin"),
            Event.stmt "savepoint cockroach_restart"
              (conn [Event.stmt "begin" (conn [] "begin")] "savepoint cockroach_restart")])) ∨
    (¬ failed E "begin" (conn [] "begin") ∧
      ¬ failed E "savepoint cockroach_restart"
        (conn [Event.stmt "begin" (conn [] "begin")] "savepoint cockroach_restart") ∧
      execTx E conn func fuel =
        execTxLoop E conn func fuel
          [Event.stmt "begin" (conn [] "begin"),
            Event.stmt "savepoint cockroach_restart"
              (conn [Event.stmt "begin" (conn [] "begin")] "savepoint cockroach_restart")]) := by
  unfold failed
  simp only [execTx, _execTxSql_fst, _execTxSql_snd, List.nil_append, List.cons_append]
  split_ifs <;> simp_all

/-- An event of a run of `execTx` that is neither `begin` nor the savepoint
step lies in the part of the history that the loop appended. -/
theorem execTx_enters_loop (E : ErrorTable) (conn : Backend) (func : TxFunc) (fuel : Nat)
    (pre : List Event) (x : Event) (post : List Event)
    (hrun : (execTx E conn func fuel).2 = pre ++ x :: post)
    (hb : x.sqlOf ≠ some "begin") (hsp : x.sqlOf ≠ some "savepoint cockroach_restart") :
    ∃ h suf p, execTx E conn func fuel = execTxLoop E conn func fuel h ∧
      (execTxLoop E conn func fuel h).2 = h ++ suf ∧ pre = h ++ p ∧ suf = p ++ x :: post ∧
      statements h = ["begin", "savepoint cockroach_restart"] ∧ invocations h = [] := by
  rcases execTx_cases E conn func fuel with ⟨_, hr⟩ | ⟨_, _, hr⟩ | ⟨_, _, hr⟩
  · rw [hr] at hrun
    rcases pre with _ | ⟨p1, pre⟩ <;> simp at hrun
    obtain ⟨h1, _⟩ := hrun
    simp [← h1, Event.sqlOf] at hb
  · rw [hr] at hrun
    rcases pre with _ | ⟨p1, _ | ⟨p2, pre⟩⟩ <;> simp at hrun
    · obtain ⟨h1, _⟩ := hrun
      simp [← h1, Event.sqlOf] at hb
    · obtain ⟨_, h1, _⟩ := hrun
      simp [← h1, Event.sqlOf] at hsp
  · obtain ⟨suf, hs⟩ := execTxLoop_extends E conn func fuel
      [Event.stmt "begin" (conn [] "begin"),
        Event.stmt "savepoint cockroach_restart"
          (conn [Event.stmt "begin" (conn [] "begin")] "savepoint cockroach_restart")]
    rw [hr, hs] at hrun
    rcases pre with _ | ⟨p1, _ | ⟨p2, pre⟩⟩
    · simp at hrun
      obtain ⟨h1, _⟩ := hrun
      simp [← h1, Event.sqlOf] at hb
    · simp at hrun
      obtain ⟨_, h1, _⟩ := hrun
      simp [← h1, Event.sqlOf] at hsp
    · simp only [List.cons_append, List.cons.injEq, List.nil_append] at hrun
      obtain ⟨h1, h2, h3⟩ := hrun
      refine ⟨_, suf, pre, hr, hs, ?_, h3, rfl, rfl⟩
      rw [← h1, ← h2]
      rfl

/-! ## The unit-of-work invocations of a run -/

/-- What the visitor hands to the loop is what the unit of work returned at
that history, in one of the three shapes a callback can answer in. -/
theorem _execTxSql_visitor_shapes (func : TxFunc) (h : List Event) (r : Bool × irods.error)
    (hr : r = _execTxSql_visitor func h) :
    (∃ f, func = TxFunc.plain f ∧ r = ((f h).ok, f h)) ∨
    (∃ f e, func = TxFunc.flagged f ∧ f h = Sum.inl e ∧ r = (e.ok, e)) ∨
    (∃ f, func = TxFunc.flagged f ∧ f h = Sum.inr r) := by
  cases func with
  | plain f => exact Or.inl ⟨f, rfl, hr⟩
  | flagged f =>
    right
    cases hf : f h with
    | inl e =>
      left
      refine ⟨f, e, rfl, hf, ?_⟩
      rw [hr]
      simp only [_execTxSql_visitor, _result_visitor, hf]
    | inr q =>
      right
      refine ⟨f, rfl, ?_⟩
      rw [hr]
      simp only [_execTxSql_visitor, _result_visitor, hf]

/-- A unit of work that reports success, in whichever shape. -/
theorem _execTxSql_visitor_success (func : TxFunc) (h : List Event)
    (hfunc : (∃ f, func = TxFunc.plain f ∧ (f h).ok = true) ∨
      (∃ f e, func = TxFunc.flagged f ∧ f h = Sum.inl e ∧ e.ok = true) ∨
      (∃ f e, func = TxFunc.flagged f ∧ f h = Sum.inr (true, e))) :
    (_execTxSql_visitor func h).1 = true := by
  rcases hfunc with ⟨f, rfl, hf⟩ | ⟨f, e, rfl, hf, he⟩ | ⟨f, e, rfl, hf⟩
  · simp only [_execTxSql_visitor, hf]
  · simp only [_execTxSql_visitor, _result_visitor, hf, he]
  · simp only [_execTxSql_visitor, _result_visitor, hf]

/-- Every unit-of-work event the loop of `execTx` appends carries what the
visitor returned at the history before it. -/
theorem execTxLoop_call_genuine (E : ErrorTable) (conn : Backend) (func : TxFunc) :
    ∀ (fuel : Nat) (h suf : List Event), (execTxLoop E conn func fuel h).2 = h ++ suf →
      ∀ (p : List Event) (r : Bool × irods.error) (post : List Event),
        suf = p ++ Event.call r :: post → r = _execTxSql_visitor func (h ++ p) := by
  intro fuel
  induction fuel with
  | zero =>
    intro h suf hs p r post hdec
    simp [execTxLoop] at hs
    subst hs
    simp at hdec
  | succ fuel ih =>
    intro h suf hs p r post hdec
    rcases execTxLoop_succ E conn func fuel h with
      ⟨_, hr⟩ | ⟨_, _, hr⟩ | ⟨_, _, _, hr⟩ | ⟨_, _, _, _, hr⟩ | ⟨_, _, _, _, hr⟩
    · rw [hr] at hs
      have hL := List.append_cancel_left hs
      subst hL
      rcases p with _ | ⟨p1, _ | ⟨p2, p⟩⟩
      · simp [workEvent] at hdec
        rw [← hdec.1, List.append_nil]
      · simp [workEvent] at hdec
      · simp [workEvent] at hdec
    · rw [hr] at hs
      have hL := List.append_cancel_left hs
      subst hL
      rcases p with _ | ⟨p1, _ | ⟨p2, _ | ⟨p3, p⟩⟩⟩
      · simp [workEvent] at hdec
        rw [← hdec.1, List.append_nil]
      all_goals simp [workEvent, releaseEvent] at hdec
    · rw [hr] at hs
      have hL := List.append_cancel_left hs
      subst hL
      rcases p with _ | ⟨p1, _ | ⟨p2, _ | ⟨p3, p⟩⟩⟩
      · simp [workEvent] at hdec
        rw [← hdec.1, List.append_nil]
      all_goals simp [workEvent, releaseEvent] at hdec
    · rw [hr] at hs
      have hL := List.append_cancel_left hs
      subst hL
      rcases p with _ | ⟨p1, _ | ⟨p2, _ | ⟨p3, _ | ⟨p4, p⟩⟩⟩⟩
      · simp [workEvent] at hdec
        rw [← hdec.1, List.append_nil]
      all_goals simp [workEvent, releaseEvent, restartEvent] at hdec
    · rw [hr] at hs
      obtain ⟨suf1, hs1⟩ := execTxLoop_extends E conn func fuel
        (h ++ [workEvent func h, releaseEvent conn func h, restartEvent conn func h])
      rw [hs1, List.append_assoc] at hs
      have hL := List.append_cancel_left hs
      subst hL
      rcases p with _ | ⟨p1, _ | ⟨p2, _ | ⟨p3, p⟩⟩⟩
      · simp [workEvent] at hdec
        rw [← hdec.1, List.append_nil]
      · simp [workEvent, releaseEvent, restartEvent] at hdec
      · simp [workEvent, releaseEvent, restartEvent] at hdec
      · simp only [List.cons_append, List.cons.injEq] at hdec
        obtain ⟨h1, h2, h3, h4⟩ := hdec
        have key := ih _ suf1 hs1 p r post h4
        rw [← h1, ← h2, ← h3]
        simpa using key

/-- Every unit-of-work event of a run of `execTx` carries what the visitor
returned at the history before it. -/
theorem execTx_call_genuine (E : ErrorTable) (conn : Backend) (func : TxFunc) (fuel : Nat)
    (pre : List Event) (r : Bool × irods.error) (post : List Event)
    (hrun : (execTx E conn func fuel).2 = pre ++ Event.call r :: post) :
    r = _execTxSql_visitor func pre := by
  obtain ⟨h, suf, p, _, hs, hpre, hsuf, _, _⟩ :=
    execTx_enters_loop E conn func fuel pre _ _ hrun (by simp [Event.sqlOf])
      (by simp [Event.sqlOf])
  rw [hpre]
  exact execTxLoop_call_genuine E conn func fuel h suf hs p r post hsuf

/-- The last unit-of-work invocation of a history is an event of it, with no
invocation after it. -/
theorem invocations_getLast_split (tr : List Event) (r : Bool × irods.error)
    (hlast : (invocations tr).getLast? = some r) :
    ∃ pre post, tr = pre ++ Event.call r :: post ∧ invocations post = [] := by
  induction tr using List.reverseRecOn with
  | nil => simp at hlast
  | append_singleton l a ih =>
    cases a with
    | stmt sql res =>
      have hl : (invocations l).getLast? = some r := by simpa using hlast
      obtain ⟨pre, post, hdec, hpost⟩ := ih hl
      refine ⟨pre, post ++ [Event.stmt sql res], ?_, ?_⟩
      · rw [hdec]; simp
      · simp [hpost]
    | call r1 =>
      have hr : r1 = r := by simpa using hlast
      exact ⟨l, [], by rw [hr], rfl⟩

/-! ## The sample backends -/

theorem retryBackend_other (K : Nat) (h : List Event) (sql : String)
    (hne : sql ≠ "release savepoint cockroach_restart") : retryBackend K h sql = okResult := by
  simp [retryBackend, hne]

theorem retryBackend_conflict (K : Nat) (h : List Event)
    (hlt : (statements h).count "release savepoint cockroach_restart" < K) :
    retryBackend K h "release savepoint cockroach_restart" = errResult "40001" := by
  simp [retryBackend, hlt]

theorem retryBackend_release (K : Nat) (h : List Event)
    (hge : ¬ (statements h).count "release savepoint cockroach_restart" < K) :
    retryBackend K h "release savepoint cockroach_restart" = okResult := by
  simp [retryBackend, hge]

/-! ## Claims on the retry engine -/

/-- C1: on a backend where `begin`, `savepoint cockroach_restart`, every
`rollback to savepoint cockroach_restart` and `commit` succeed and
`release savepoint cockroach_restart` fails with SQLSTATE 40001 on its first
`K` executions and succeeds on the next one, and with a unit of work that
reports success at every invocation (an `irods::error` that is ok from either
callback shape, or a pair whose flag is true), `execTx` (given at least `K + 1`
loop iterations) returns a result, has invoked the unit of work exactly
`K + 1` times, has issued `commit` exactly once, and the result it returns is
what the unit of work returned at its last invocation. Every invocation in
the history is one of the unit of work itself: it carries what the callback
returns at the history before it. -/
theorem execTx_retries_then_commits (E : ErrorTable) (conn : Backend) (func : TxFunc) (K : Nat)
    (hbegin : ∀ h, ¬ failed E "begin" (conn h "begin"))
    (hsave : ∀ h, ¬ failed E "savepoint cockroach_restart" (conn h "savepoint cockroach_restart"))
    (hrb : ∀ h, ¬ failed E "rollback to savepoint cockroach_restart"
      (conn h "rollback to savepoint cockroach_restart"))
    (hcommit : ∀ h, ¬ failed E "commit" (conn h "commit"))
    (hrel_fail : ∀ h, (statements h).count "release savepoint cockroach_restart" < K →
      failed E "release savepoint cockroach_restart"
        (conn h "release savepoint cockroach_restart") ∧
      sqlstateOf E "release savepoint cockroach_restart"
        (conn h "release savepoint cockroach_restart") = "40001")
    (hrel_ok : ∀ h, (statements h).count "release savepoint cockroach_restart" = K →
      ¬ failed E "release savepoint cockroach_restart"
        (conn h "release savepoint cockroach_restart"))
    (hfunc : ∀ h,
      (∃ f, func = TxFunc.plain f ∧ (f h).ok = true) ∨
      (∃ f e, func = TxFunc.flagged f ∧ f h = Sum.inl e ∧ e.ok = true) ∨
      (∃ f e, func = TxFunc.flagged f ∧ f h = Sum.inr (true, e)))
    (fuel : Nat) (hfuel : K + 1 ≤ fuel) :
    ∃ result pre post,
      (execTx E conn func fuel).1 = some result ∧
      (execTx E conn func fuel).2 = pre ++ Event.call (true, result) :: post ∧
      invocations post = [] ∧
      ((∃ f, func = TxFunc.plain f ∧ f pre = result) ∨
        (∃ f, func = TxFunc.flagged f ∧ f pre = Sum.inl result) ∨
        (∃ f, func = TxFunc.flagged f ∧ f pre = Sum.inr (true, result))) ∧
      (invocations (execTx E conn func fuel).2).length = K + 1 ∧
      (statements (execTx E conn func fuel).2).count "commit" = 1 ∧
      (∀ (p : List Event) (r : Bool × irods.error) (q : List Event),
        (execTx E conn func fuel).2 = p ++ Event.call r :: q →
        (∃ f, func = TxFunc.plain f ∧ r = ((f p).ok, f p)) ∨
        (∃ f e, func = TxFunc.flagged f ∧ f p = Sum.inl e ∧ r = (e.ok, e)) ∨
        (∃ f, func = TxFunc.flagged f ∧ f p = Sum.inr r)) := by
  have hb := hbegin []
  have hs := hsave ([] ++ [Event.stmt "begin" (conn [] "begin")])
  unfold failed at hb hs
  have hrun : execTx E conn func fuel = execTxLoop E conn func fuel
      ([] ++ [Event.stmt "begin" (conn [] "begin")] ++
        [Event.stmt "savepoint cockroach_restart"
          (conn ([] ++ [Event.stmt "begin" (conn [] "begin")]) "savepoint cockroach_restart")]) := by
    simp only [execTx, _execTxSql_fst, _execTxSql_snd, hb, hs, if_false]
  have key := execTxLoop_retry E conn func K hrb hcommit hrel_fail hrel_ok
    (fun h => _execTxSql_visitor_success func h (hfunc h)) K
    ([] ++ [Event.stmt "begin" (conn [] "begin")] ++
        [Event.stmt "savepoint cockroach_restart"
          (conn ([] ++ [Event.stmt "begin" (conn [] "begin")]) "savepoint cockroach_restart")])
    fuel (by simp [List.count_cons]) (by simp [List.count_cons]) hfuel
  rw [← hrun] at key
  obtain ⟨result, hres, hlen, hcm, hlast⟩ := key
  obtain ⟨pre, post, hdec, hpost⟩ := invocations_getLast_split _ _ hlast
  have hgen := execTx_call_genuine E conn func fuel pre (true, result) post hdec
  refine ⟨result, pre, post, hres, hdec, hpost, ?_, by simpa using hlen, hcm, ?_⟩
  · rcases _execTxSql_visitor_shapes func pre (true, result) hgen with
      ⟨f, hf, hr⟩ | ⟨f, e, hf, hfe, hr⟩ | ⟨f, hf, hr⟩
    · exact Or.inl ⟨f, hf, (Prod.mk.inj hr).2.symm⟩
    · exact Or.inr (Or.inl ⟨f, hf, by rw [hfe, (Prod.mk.inj hr).2]⟩)
    · exact Or.inr (Or.inr ⟨f, hf, hr⟩)
  · intro p r q hpq
    exact _execTxSql_visitor_shapes func p r (execTx_call_genuine E conn func fuel p r q hpq)

/-- Witness for C1: two serialization conflicts, then success. -/
theorem execTx_retries_then_commits_witness :
    ∃ result pre post,
      (execTx sampleTable (retryBackend 2) okWork 3).1 = some result ∧
      (execTx sampleTable (retryBackend 2) okWork 3).2 =
        pre ++ Event.call (true, result) :: post ∧
      invocations post = [] ∧
      ((∃ f, okWork = TxFunc.plain f ∧ f pre = result) ∨
        (∃ f, okWork = TxFunc.flagged f ∧ f pre = Sum.inl result) ∨
        (∃ f, okWork = TxFunc.flagged f ∧ f pre = Sum.inr (true, result))) ∧
      (invocations (execTx sampleTable (retryBackend 2) okWork 3).2).length = 2 + 1 ∧
      (statements (execTx sampleTable (retryBackend 2) okWork 3).2).count "commit" = 1 ∧
      (∀ (p : List Event) (r : Bool × irods.error) (q : List Event),
        (execTx sampleTable (retryBackend 2) okWork 3).2 = p ++ Event.call r :: q →
        (∃ f, okWork = TxFunc.plain f ∧ r = ((f p).ok, f p)) ∨
        (∃ f e, okWork = TxFunc.flagged f ∧ f p = Sum.inl e ∧ r = (e.ok, e)) ∨
        (∃ f, okWork = TxFunc.flagged f ∧ f p = Sum.inr r)) :=
  execTx_retries_then_commits sampleTable (retryBackend 2) okWork 2
    (fun h => by rw [retryBackend_other 2 h "begin" (by decide)]; decide)
    (fun h => by rw [retryBackend_other 2 h "savepoint cockroach_restart" (by decide)]; decide)
    (fun h => by
      rw [retryBackend_other 2 h "rollback to savepoint cockroach_restart" (by decide)]; decide)
    (fun h => by rw [retryBackend_other 2 h "commit" (by decide)]; decide)
    (fun h hlt => by rw [retryBackend_conflict 2 h hlt]; decide)
    (fun h heq => by rw [retryBackend_release 2 h (by omega)]; decide)
    (fun _ => Or.inl ⟨_, rfl, rfl⟩) 3 (by decide)

/-- C2: when `begin` and `savepoint cockroach_restart` succeed and the first
invocation of the unit of work reports failure `r`, in any of the callback
shapes (an `irods::error` that is not ok from the plain callback, an
`irods::error` that is not ok from the variant callback, or a pair whose flag
is false), `execTx` returns exactly `r`, has invoked the unit of work exactly
once, and the statements it issued are exactly `begin` and
`savepoint cockroach_restart`. -/
theorem execTx_work_failure (E : ErrorTable) (conn : Backend) (func : TxFunc) (fuel : Nat)
    (r : irods.error)
    (hbegin : ¬ failed E "begin" (conn [] "begin"))
    (hsave : ¬ failed E "savepoint cockroach_restart"
      (conn [Event.stmt "begin" (conn [] "begin")] "savepoint cockroach_restart"))
    (hwork :
      (∃ f, func = TxFunc.plain f ∧
        f [Event.stmt "begin" (conn [] "begin"),
           Event.stmt "savepoint cockroach_restart"
            (conn [Event.stmt "begin" (conn [] "begin")] "savepoint cockroach_restart")] = r ∧
        r.ok = false) ∨
      (∃ f, func = TxFunc.flagged f ∧
        f [Event.stmt "begin" (conn [] "begin"),
           Event.stmt "savepoint cockroach_restart"
            (conn [Event.stmt "begin" (conn [] "begin")] "savepoint cockroach_restart")] =
          Sum.inl r ∧
        r.ok = false) ∨
      (∃ f, func = TxFunc.flagged f ∧
        f [Event.stmt "begin" (conn [] "begin"),
           Event.stmt "savepoint cockroach_restart"
            (conn [Event.stmt "begin" (conn [] "begin")] "savepoint cockroach_restart")] =
          Sum.inr (false, r))) :
    (execTx E conn func (fuel + 1)).1 = some r ∧
      invocations (execTx E conn func (fuel + 1)).2 = [(false, r)] ∧
      statements (execTx E conn func (fuel + 1)).2 = ["begin", "savepoint cockroach_restart"] := by
  unfold failed at hbegin hsave
  have hv : _execTxSql_visitor func
      [Event.stmt "begin" (conn [] "begin"),
        Event.stmt "savepoint cockroach_restart"
          (conn [Event.stmt "begin" (conn [] "begin")] "savepoint cockroach_restart")] =
      (false, r) := by
    rcases hwork with ⟨f, rfl, hf, hr⟩ | ⟨f, rfl, hf, hr⟩ | ⟨f, rfl, hf⟩
    · simp only [_execTxSql_visitor, hf, hr]
    · simp only [_execTxSql_visitor, _result_visitor, hf, hr]
    · simp only [_execTxSql_visitor, _result_visitor, hf]
  have hrun : execTx E conn func (fuel + 1) =
      (some r, [Event.stmt "begin" (conn [] "begin"),
        Event.stmt "savepoint cockroach_restart"
          (conn [Event.stmt "begin" (conn [] "begin")] "savepoint cockroach_restart"),
        Event.call (false, r)]) := by
    simp only [execTx, execTxLoop, _execTxSql_fst, _execTxSql_snd, List.nil_append,
      List.cons_append, hbegin, hsave, hv, if_false, if_true]
  rw [hrun]
  exact ⟨rfl, rfl, rfl⟩

/-- Witness for C2: a variant callback returning a pair with a false flag. -/
theorem execTx_work_failure_witness :
    (execTx sampleTable (retryBackend 0) failWork (0 + 1)).1 =
        some (ERROR (-1) "unit of work failed") ∧
      invocations (execTx sampleTable (retryBackend 0) failWork (0 + 1)).2 =
        [(false, ERROR (-1) "unit of work failed")] ∧
      statements (execTx sampleTable (retryBackend 0) failWork (0 + 1)).2 =
        ["begin", "savepoint cockroach_restart"] :=
  execTx_work_failure sampleTable (retryBackend 0) failWork 0
    (ERROR (-1) "unit of work failed") (by decide) (by decide)
    (Or.inr (Or.inr ⟨fun _ => Sum.inr (false, ERROR (-1) "unit of work failed"), rfl, rfl⟩))

/-- C3, as the code has it: when `release savepoint cockroach_restart` fails
with a SQLSTATE other than 40001, or fails with 40001 and the following
`rollback to savepoint cockroach_restart` (the event in `mid`) fails, `execTx`
issues a full `rollback` as its next and last step; when that `rollback`
succeeds it returns the release failure, an error with the code of the failed
release step and the message "release savepoint cockroach_restart failure";
when the `rollback` itself fails it returns an error with the code of the
`rollback` step and the message "rollback failure". -/
theorem execTx_release_fatal (E : ErrorTable) (conn : Backend) (func : TxFunc) (fuel : Nat)
    (pre : List Event) (res : PGresult) (mid post : List Event)
    (hrun : (execTx E conn func fuel).2 =
      pre ++ Event.stmt "release savepoint cockroach_restart" res :: (mid ++ post))
    (hfail : failed E "release savepoint cockroach_restart" res)
    (hcase : (sqlstateOf E "release savepoint cockroach_restart" res ≠ "40001" ∧ mid = []) ∨
      (sqlstateOf E "release savepoint cockroach_restart" res = "40001" ∧
        ∃ res2, mid = [Event.stmt "rollback to savepoint cockroach_restart" res2] ∧
          failed E "rollback to savepoint cockroach_restart" res2)) :
    ∃ rr, post = [Event.stmt "rollback" rr] ∧
      (execTx E conn func fuel).1 =
        some (if failed E "rollback" rr then
          ERROR (processRes E "rollback" [] rr).1 "rollback failure"
        else ERROR (processRes E "release savepoint cockroach_restart" [] res).1
          "release savepoint cockroach_restart failure") := by
  obtain ⟨h, suf, p, hr, hs, _, hsuf, _, _⟩ :=
    execTx_enters_loop E conn func fuel pre _ _ hrun (by simp [Event.sqlOf])
      (by simp [Event.sqlOf])
  rw [hr]
  rcases hcase with ⟨hstate, rfl⟩ | ⟨_, res2, rfl, hfail2⟩
  · exact execTxLoop_release_fatal E conn func fuel h suf hs p res post
      (by simpa using hsuf) hfail hstate
  · exact execTxLoop_restart_fatal E conn func fuel h suf hs p res res2 post
      (by simpa using hsuf) hfail2

/-- Witness for C3: the release step fails with SQLSTATE XX000 and the full
`rollback` succeeds. -/
theorem execTx_release_fatal_witness :
    ∃ rr, [Event.stmt "rollback" okResult] = [Event.stmt "rollback" rr] ∧
      (execTx sampleTable
          (scriptedBackend [("release savepoint cockroach_restart", errResult "XX000")])
          okWork 1).1 =
        some (if failed sampleTable "rollback" rr then
          ERROR (processRes sampleTable "rollback" [] rr).1 "rollback failure"
        else ERROR (processRes sampleTable "release savepoint cockroach_restart" []
          (errResult "XX000")).1 "release savepoint cockroach_restart failure") :=
  execTx_release_fatal sampleTable
    (scriptedBackend [("release savepoint cockroach_restart", errResult "XX000")]) okWork 1
    [Event.stmt "begin" okResult, Event.stmt "savepoint cockroach_restart" okResult,
      Event.call (true, { status_ := true, code_ := 0, message_ := "" })]
    (errResult "XX000") [] [Event.stmt "rollback" okResult]
    (by decide) (by decide) (Or.inl ⟨by decide, rfl⟩)

/-- Counterexample to C3 as stated: the release step fails with SQLSTATE 23505
(code of the duplicate-name case) and the full `rollback` fails too (code -2);
`execTx` returns the rollback failure, not the release failure. -/
theorem execTx_release_fatal_counterexample :
    failed sampleTable "release savepoint cockroach_restart" dupResult ∧
    sqlstateOf sampleTable "release savepoint cockroach_restart" dupResult ≠ "40001" ∧
    (execTx sampleTable
        (scriptedBackend [("release savepoint cockroach_restart", dupResult),
          ("rollback", errResult "08006")]) okWork 1).2 =
      [Event.stmt "begin" okResult, Event.stmt "savepoint cockroach_restart" okResult,
        Event.call (true, { status_ := true, code_ := 0, message_ := "" }),
        Event.stmt "release savepoint cockroach_restart" dupResult,
        Event.stmt "rollback" (errResult "08006")] ∧
    (execTx sampleTable
        (scriptedBackend [("release savepoint cockroach_restart", dupResult),
          ("rollback", errResult "08006")]) okWork 1).1 =
      some (ERROR (-2) "rollback failure") ∧
    (execTx sampleTable
        (scriptedBackend [("release savepoint cockroach_restart", dupResult),
          ("rollback", errResult "08006")]) okWork 1).1 ≠
      some (ERROR (processRes sampleTable "release savepoint cockroach_restart" [] dupResult).1
        "release savepoint cockroach_restart failure") := by
  decide

/-- C4: only SQLSTATE 40001 triggers the retry path. In every run of `execTx`,
if the first `release savepoint cockroach_restart` succeeds or fails with a
SQLSTATE other than "40001", the unit of work is invoked exactly once and
`rollback to savepoint cockroach_restart` is never issued; and every
`rollback to savepoint cockroach_restart` in the run comes immediately after a
`release savepoint cockroach_restart` that failed with SQLSTATE "40001". -/
theorem execTx_retry_only_on_40001 (E : ErrorTable) (conn : Backend) (func : TxFunc)
    (fuel : Nat) :
    (∀ (pre : List Event) (res : PGresult) (post : List Event),
      (execTx E conn func fuel).2 =
        pre ++ Event.stmt "release savepoint cockroach_restart" res :: post →
      "release savepoint cockroach_restart" ∉ statements pre →
      (¬ failed E "release savepoint cockroach_restart" res ∨
        sqlstateOf E "release savepoint cockroach_restart" res ≠ "40001") →
      (invocations (execTx E conn func fuel).2).length = 1 ∧
        "rollback to savepoint cockroach_restart" ∉ statements (execTx E conn func fuel).2) ∧
    (∀ (pre : List Event) (res : PGresult) (post : List Event),
      (execTx E conn func fuel).2 =
        pre ++ Event.stmt "rollback to savepoint cockroach_restart" res :: post →
      ∃ q r, pre = q ++ [Event.stmt "release savepoint cockroach_restart" r] ∧
        failed E "release savepoint cockroach_restart" r ∧
        sqlstateOf E "release savepoint cockroach_restart" r = "40001") := by
  constructor
  · intro pre res post hrun hfirst hres
    obtain ⟨h, suf, p, hr, hs, hpre, hsuf, hst, hinv⟩ :=
      execTx_enters_loop E conn func fuel pre _ _ hrun (by simp [Event.sqlOf])
        (by simp [Event.sqlOf])
    have hp : "release savepoint cockroach_restart" ∉ statements p := by
      intro hmem
      apply hfirst
      rw [hpre, statements_append]
      exact List.mem_append_right _ hmem
    have key := execTxLoop_first_release E conn func fuel h suf hs p res post hsuf hp hres
    rw [hr, hs, invocations_append, statements_append, hinv, hst]
    refine ⟨by simpa using key.1, ?_⟩
    intro hmem
    rcases List.mem_append.1 hmem with hmem | hmem
    · simp at hmem
    · exact key.2 hmem
  · intro pre res post hrun
    obtain ⟨h, suf, p, _, hs, hpre, hsuf, _, _⟩ :=
      execTx_enters_loop E conn func fuel pre _ _ hrun (by simp [Event.sqlOf])
        (by simp [Event.sqlOf])
    obtain ⟨q, r, hq, hf, hstate⟩ :=
      execTxLoop_restart_guarded E conn func fuel h suf hs p res post hsuf
    exact ⟨h ++ q, r, by rw [hpre, hq, List.append_assoc], hf, hstate⟩

/-- Witness for C4: a run whose first release step succeeds, and a run with
one serialization conflict. -/
theorem execTx_retry_only_on_40001_witness :
    ((invocations (execTx sampleTable (retryBackend 0) okWork 1).2).length = 1 ∧
      "rollback to savepoint cockroach_restart" ∉
        statements (execTx sampleTable (retryBackend 0) okWork 1).2) ∧
    (∃ q r,
      [Event.stmt "begin" okResult, Event.stmt "savepoint cockroach_restart" okResult,
        Event.call (true, { status_ := true, code_ := 0, message_ := "" }),
        Event.stmt "release savepoint cockroach_restart" (errResult "40001")] =
          q ++ [Event.stmt "release savepoint cockroach_restart" r] ∧
        failed sampleTable "release savepoint cockroach_restart" r ∧
        sqlstateOf sampleTable "release savepoint cockroach_restart" r = "40001") :=
  ⟨(execTx_retry_only_on_40001 sampleTable (retryBackend 0) okWork 1).1
      [Event.stmt "begin" okResult, Event.stmt "savepoint cockroach_restart" okResult,
        Event.call (true, { status_ := true, code_ := 0, message_ := "" })]
      okResult [Event.stmt "commit" okResult] (by decide) (by decide) (Or.inl (by decide)),
    (execTx_retry_only_on_40001 sampleTable (retryBackend 1) okWork 2).2
      [Event.stmt "begin" okResult, Event.stmt "savepoint cockroach_restart" okResult,
        Event.call (true, { status_ := true, code_ := 0, message_ := "" }),
        Event.stmt "release savepoint cockroach_restart" (errResult "40001")]
      okResult
      [Event.call (true, { status_ := true, code_ := 0, message_ := "" }),
        Event.stmt "release savepoint cockroach_restart" okResult,
        Event.stmt "commit" okResult] (by decide)⟩

/-- C5: failure of `begin` or of the first `savepoint cockroach_restart` is
fatal. If `begin` fails, `execTx` returns an error carrying the code of the
`begin` step, and `begin` is all that happened: no further statement, no
invocation of the unit of work. If `begin` succeeds and the savepoint step
fails, it returns an error carrying the code of the savepoint step, and the
two statements are all that happened: no `rollback`, no invocation. -/
theorem execTx_begin_savepoint_fatal (E : ErrorTable) (conn : Backend) (func : TxFunc)
    (fuel : Nat) :
    (failed E "begin" (conn [] "begin") →
      execTx E conn func fuel =
        (some (ERROR (processRes E "begin" [] (conn [] "begin")).1 "begin failure"),
          [Event.stmt "begin" (conn [] "begin")])) ∧
    (¬ failed E "begin" (conn [] "begin") →
      failed E "savepoint cockroach_restart"
        (conn [Event.stmt "begin" (conn [] "begin")] "savepoint cockroach_restart") →
      execTx E conn func fuel =
        (some (ERROR (processRes E "savepoint cockroach_restart" []
            (conn [Event.stmt "begin" (conn [] "begin")] "savepoint cockroach_restart")).1
          "savepoint cockroach_restart failure"),
          [Event.stmt "begin" (conn [] "begin"),
            Event.stmt "savepoint cockroach_restart"
              (conn [Event.stmt "begin" (conn [] "begin")] "savepoint cockroach_restart")])) := by
  constructor
  · intro hb
    rcases execTx_cases E conn func fuel with ⟨_, hr⟩ | ⟨hnb, _, _⟩ | ⟨hnb, _, _⟩
    · exact hr
    · exact absurd hb hnb
    · exact absurd hb hnb
  · intro hnb hsp
    rcases execTx_cases E conn func fuel with ⟨hb, _⟩ | ⟨_, _, hr⟩ | ⟨_, hnsp, _⟩
    · exact absurd hb hnb
    · exact hr
    · exact absurd hsp hnsp

/-- Witness for C5: a backend on which `begin` fails, and one on which the
savepoint step fails. -/
theorem execTx_begin_savepoint_fatal_witness :
    execTx sampleTable (scriptedBackend [("begin", errResult "08006")]) okWork 5 =
        (some (ERROR (-2) "begin failure"), [Event.stmt "begin" (errResult "08006")]) ∧
    execTx sampleTable (scriptedBackend [("savepoint cockroach_restart", dupResult)]) okWork 5 =
        (some (ERROR (-809000) "savepoint cockroach_restart failure"),
          [Event.stmt "begin" okResult, Event.stmt "savepoint cockroach_restart" dupResult]) :=
  ⟨(execTx_begin_savepoint_fatal sampleTable (scriptedBackend [("begin", errResult "08006")])
      okWork 5).1 (by decide),
    (execTx_begin_savepoint_fatal sampleTable
      (scriptedBackend [("savepoint cockroach_restart", dupResult)]) okWork 5).2
      (by decide) (by decide)⟩

/-- C6: in every run of `execTx` in which the unit of work reports success
with result `e` and the following `release savepoint cockroach_restart`
succeeds, `commit` is the next and last thing that happens; if `commit` fails
the run returns an error carrying the code of the `commit` step, and if
`commit` succeeds it returns `e` unchanged. -/
theorem execTx_commit_after_release (E : ErrorTable) (conn : Backend) (func : TxFunc)
    (fuel : Nat) (pre : List Event) (e : irods.error) (res : PGresult) (post : List Event)
    (hrun : (execTx E conn func fuel).2 =
      pre ++ Event.call (true, e) ::
        Event.stmt "release savepoint cockroach_restart" res :: post)
    (hok : ¬ failed E "release savepoint cockroach_restart" res) :
    ∃ rc, post = [Event.stmt "commit" rc] ∧
      (execTx E conn func fuel).1 =
        some (if failed E "commit" rc then
          ERROR (processRes E "commit" [] rc).1 "commit failure" else e) := by
  obtain ⟨h, suf, p, hr, hs, _, hsuf, _, _⟩ :=
    execTx_enters_loop E conn func fuel pre _ _ hrun (by simp [Event.sqlOf])
      (by simp [Event.sqlOf])
  rw [hr]
  exact execTxLoop_release_ok E conn func fuel h suf hs p e res post hsuf hok

/-- Witness for C6: a run in which the commit step fails. -/
theorem execTx_commit_after_release_witness :
    ∃ rc, [Event.stmt "commit" (errResult "40003")] = [Event.stmt "commit" rc] ∧
      (execTx sampleTable (scriptedBackend [("commit", errResult "40003")]) okWork 1).1 =
        some (if failed sampleTable "commit" rc then
          ERROR (processRes sampleTable "commit" [] rc).1 "commit failure"
          else { status_ := true, code_ := 0, message_ := "" }) :=
  execTx_commit_after_release sampleTable (scriptedBackend [("commit", errResult "40003")])
    okWork 1
    [Event.stmt "begin" okResult, Event.stmt "savepoint cockroach_restart" okResult]
    { status_ := true, code_ := 0, message_ := "" } okResult
    [Event.stmt "commit" (errResult "40003")] (by decide) (by decide)

/-! ## Placeholder translation -/

/-- With a marker that ignores its number, the first number does not matter. -/
theorem withMarkers_const_shift (m : List Char) (segs : List (List Char)) (last : List Char)
    (i j : Nat) :
    withMarkers (fun _ => m) i segs last = withMarkers (fun _ => m) j segs last := by
  induction segs generalizing i j with
  | nil => rfl
  | cons g segs ih => simp only [withMarkers]; rw [ih (i + 1) (j + 1)]

theorem digitChar_isDigit (m : Nat) (hm : m < 10) : (Nat.digitChar m).isDigit = true := by
  interval_cases m <;> decide

theorem toDigitsCore_isDigit :
    ∀ (fuel n : Nat) (ds : List Char), (∀ c ∈ ds, c.isDigit = true) →
      ∀ c ∈ Nat.toDigitsCore 10 fuel n ds, c.isDigit = true := by
  intro fuel
  induction fuel with
  | zero => intro n ds hds c hc; exact hds c (by simpa [Nat.toDigitsCore] using hc)
  | succ fuel ih =>
    intro n ds hds c hc
    have hd : ∀ c ∈ Nat.digitChar (n % 10) :: ds, c.isDigit = true := by
      intro c hc
      rcases List.mem_cons.1 hc with rfl | hc
      · exact digitChar_isDigit _ (Nat.mod_lt _ (by decide))
      · exact hds c hc
    simp only [Nat.toDigitsCore] at hc
    split_ifs at hc
    · exact hd c hc
    · exact ih _ _ hd c hc

/-- The numeral written for a placeholder consists of decimal digits only. -/
theorem to_string_isDigit (i : Nat) : ∀ c ∈ to_string i, c.isDigit = true :=
  toDigitsCore_isDigit _ _ [] (by simp)

theorem to_string_no_placeholder (i : Nat) : '?' ∉ to_string i := by
  intro hmem
  have := to_string_isDigit i _ hmem
  revert this
  decide

/-- A stretch of text without `?` is copied by `replaceParams`. -/
theorem replaceParamsLoop_segment (seg : List Char) (hseg : '?' ∉ seg) (i : Nat)
    (rest : List Char) :
    replaceParamsLoop i (seg ++ rest) = seg ++ replaceParamsLoop i rest := by
  induction seg with
  | nil => rfl
  | cons c seg ih =>
    have hc : c ≠ '?' := fun hc => hseg (by simp [hc])
    have hs : '?' ∉ seg := fun hm => hseg (List.mem_cons_of_mem _ hm)
    simp [replaceParamsLoop, hc, ih hs]

/-- On a text given by its `?`-free segments, `replaceParams` writes the
numbered markers where the `?` were. -/
theorem replaceParamsLoop_withMarkers (segs : List (List Char)) (last : List Char)
    (hsegs : ∀ g ∈ segs, '?' ∉ g) (hlast : '?' ∉ last) (i : Nat) :
    replaceParamsLoop i (withMarkers (fun _ => ['?']) i segs last) =
      withMarkers (fun k => '$' :: to_string k) i segs last := by
  induction segs generalizing i with
  | nil =>
    simpa [withMarkers, replaceParamsLoop] using replaceParamsLoop_segment last hlast i []
  | cons g segs ih =>
    have hg : '?' ∉ g := hsegs g (by simp)
    have hrest : ∀ g ∈ segs, '?' ∉ g := fun g hm => hsegs g (List.mem_cons_of_mem _ hm)
    simp only [withMarkers, List.append_assoc, List.singleton_append, List.cons_append]
    rw [replaceParamsLoop_segment g hg]
    simp only [replaceParamsLoop, if_true, List.nil_append]
    rw [ih hrest (i + 1)]

/-- Every text splits at its `?` characters into `?`-free segments, one
segment before each `?` and one after the last. -/
theorem exists_segments (s : List Char) (k : Nat) :
    ∃ (segs : List (List Char)) (last : List Char),
      (∀ g ∈ segs, '?' ∉ g) ∧ '?' ∉ last ∧ segs.length = s.count '?' ∧
      s = withMarkers (fun _ => ['?']) k segs last := by
  induction s with
  | nil => exact ⟨[], [], by simp, by simp, rfl, rfl⟩
  | cons c s ih =>
    obtain ⟨segs, last, hsegs, hlast, hlen, hs⟩ := ih
    by_cases hc : c = '?'
    · refine ⟨[] :: segs, last, ?_, hlast, ?_, ?_⟩
      · intro g hg
        rcases List.mem_cons.1 hg with rfl | hg
        · simp
        · exact hsegs g hg
      · simp [hc, hlen]
      · simp only [withMarkers, List.nil_append, List.singleton_append]
        rw [withMarkers_const_shift _ segs last (k + 1) k, ← hs, hc]
    · cases segs with
      | nil =>
        refine ⟨[], c :: last, by simp, ?_, ?_, ?_⟩
        · simpa [hlast] using Ne.symm hc
        · simpa [List.count_cons, hc] using hlen
        · simp only [withMarkers] at hs ⊢
          rw [hs]
      | cons g gs =>
        refine ⟨(c :: g) :: gs, last, ?_, hlast, ?_, ?_⟩
        · intro g1 hg1
          rcases List.mem_cons.1 hg1 with rfl | hg1
          · have := hsegs g (by simp)
            simpa [this] using Ne.symm hc
          · exact hsegs g1 (List.mem_cons_of_mem _ hg1)
        · simpa [List.count_cons, hc] using hlen
        · simp only [withMarkers, List.cons_append] at hs ⊢
          rw [hs]

/-- A text put together from `?`-free segments and numbered markers holds no `?`. -/
theorem withMarkers_no_placeholder (segs : List (List Char)) (last : List Char)
    (hsegs : ∀ g ∈ segs, '?' ∉ g) (hlast : '?' ∉ last) (i : Nat) :
    '?' ∉ withMarkers (fun k => '$' :: to_string k) i segs last := by
  induction segs generalizing i with
  | nil => simpa [withMarkers] using hlast
  | cons g segs ih =>
    have hg : '?' ∉ g := hsegs g (by simp)
    have hrest : ∀ g ∈ segs, '?' ∉ g := fun g hm => hsegs g (List.mem_cons_of_mem _ hm)
    simp only [withMarkers, List.mem_append, List.mem_cons, not_or]
    exact ⟨⟨hg, by decide, to_string_no_placeholder i⟩, ih hrest (i + 1)⟩

/-- C7: every SQL text is `seg₀ ? seg₁ ? … ? last` with `?`-free pieces, as
many `?` as the text has, and `replaceParams` returns
`seg₀ $1 seg₁ $2 … $N last`: the `k`-th `?` from the left is replaced by `$`
and the decimal numeral of `k`, every other character stays in place and
order, and no `?` is left in the output. -/
theorem replaceParams_numbers_placeholders (s : String) :
    ∃ (segs : List (List Char)) (last : List Char),
      (∀ g ∈ segs, '?' ∉ g) ∧ '?' ∉ last ∧
      segs.length = s.data.count '?' ∧
      s.data = withMarkers (fun _ => ['?']) 1 segs last ∧
      (replaceParams s).data = withMarkers (fun k => '$' :: (toString k).data) 1 segs last ∧
      '?' ∉ (replaceParams s).data := by
  obtain ⟨segs, last, hsegs, hlast, hlen, hs⟩ := exists_segments s.data 1
  have hout : (replaceParams s).data =
      withMarkers (fun k => '$' :: to_string k) 1 segs last := by
    simp only [replaceParams]
    rw [hs]
    exact replaceParamsLoop_withMarkers segs last hsegs hlast 1
  refine ⟨segs, last, hsegs, hlast, hlen, hs, hout, ?_⟩
  rw [hout]
  exact withMarkers_no_placeholder segs last hsegs hlast 1

/-! ## The LIKE rewrite -/

/-- Passing over `k` characters and scanning on is scanning the text without
its first `k` characters. -/
theorem replaceAllFrom_skip (search format : List Char) :
    ∀ (k : Nat) (s : List Char),
      replaceAllFrom search format k s = replaceAllFrom search format 0 (s.drop k) := by
  intro k
  induction k with
  | zero => intro s; rfl
  | succ k ih =>
    intro s
    cases s with
    | nil => rfl
    | cons c s => simp only [replaceAllFrom, List.drop_succ_cons]; exact ih s

/-- The scan at a character, with nothing to pass over. -/
theorem replaceAllFrom_zero_cons (search format : List Char) (c : Char) (rest : List Char) :
    replaceAllFrom search format 0 (c :: rest) =
      if search.isPrefixOf (c :: rest) = true then
        format ++ replaceAllFrom search format (search.length - 1) rest
      else c :: replaceAllFrom search format 0 rest := by
  simp only [replaceAllFrom]

/-- Where `search` starts, `format` is written and the scan goes on behind it. -/
theorem replaceAllFrom_match (search format : List Char) (hne : search ≠ [])
    (rest : List Char) :
    replaceAllFrom search format 0 (search ++ rest) =
      format ++ replaceAllFrom search format 0 rest := by
  cases search with
  | nil => exact absurd rfl hne
  | cons p ps =>
    have hpre : (p :: ps).isPrefixOf (p :: (ps ++ rest)) = true := by
      rw [List.isPrefixOf_iff_prefix]
      exact ⟨rest, rfl⟩
    rw [List.cons_append, replaceAllFrom_zero_cons, if_pos hpre, replaceAllFrom_skip,
      List.length_cons, Nat.add_sub_cancel, List.drop_left]

/-- Where `search` does not start, the character is copied. -/
theorem replaceAllFrom_copy (search format : List Char) (c : Char) (rest : List Char)
    (hno : ¬ search <+: c :: rest) :
    replaceAllFrom search format 0 (c :: rest) = c :: replaceAllFrom search format 0 rest := by
  have hpre : search.isPrefixOf (c :: rest) = false := by
    rw [← Bool.not_eq_true, List.isPrefixOf_iff_prefix]
    exact hno
  rw [replaceAllFrom_zero_cons, hpre]
  simp only [Bool.false_eq_true, if_false]

/-- A text in which `search` does not occur is left as it is. -/
theorem replaceAllFrom_absent (search format : List Char) (s : List Char)
    (hno : ¬ search <:+: s) : replaceAllFrom search format 0 s = s := by
  induction s with
  | nil => rfl
  | cons c s ih =>
    rw [replaceAllFrom_copy search format c s (fun hp => hno hp.isInfix),
      ih (fun hi => hno (hi.trans (List.suffix_cons c s).isInfix))]

/-- A text in which `search` does not occur is left as it is by `replace_all`. -/
theorem replace_all_absent (input search format : List Char) (hno : ¬ search <:+: input) :
    replace_all input search format = input := by
  unfold replace_all
  split_ifs
  · rfl
  · exact replaceAllFrom_absent search format input hno

/-- A stretch of characters none of which starts `search` is copied by the scan. -/
theorem replaceAllFrom_block (p : Char) (ps format : List Char) (block : List Char)
    (hblock : ∀ c ∈ block, c ≠ p) (rest : List Char) :
    replaceAllFrom (p :: ps) format 0 (block ++ rest) =
      block ++ replaceAllFrom (p :: ps) format 0 rest := by
  induction block with
  | nil => rfl
  | cons c block ih =>
    have hc : c ≠ p := hblock c (by simp)
    rw [List.cons_append, replaceAllFrom_copy _ _ _ _
      (fun hpre => hc (List.cons_prefix_cons.1 hpre).1.symm),
      ih (fun d hd => hblock d (List.mem_cons_of_mem _ hd))]
    rfl

/-- A stretch of text inside which `search` does not start is copied by the scan. -/
theorem replaceAllFrom_segment (search format seg rest : List Char)
    (hno : ∀ t, t ≠ [] → t <:+ seg → ¬ search <+: t ++ rest) :
    replaceAllFrom search format 0 (seg ++ rest) =
      seg ++ replaceAllFrom search format 0 rest := by
  induction seg with
  | nil => rfl
  | cons c seg ih =>
    have h1 : ¬ search <+: c :: (seg ++ rest) :=
      hno (c :: seg) (by simp) (List.suffix_refl _)
    rw [List.cons_append, replaceAllFrom_copy _ _ _ _ h1,
      ih (fun t ht hsuf => hno t ht (hsuf.trans (List.suffix_cons c seg)))]
    rfl

/-- A keyword made of a space, four letters and a space cannot start inside a
text `pre` that is followed by a space, unless it occurs in `pre` followed by
that space. -/
theorem keyword_boundary (a b c d : Char) (ha : a ≠ ' ') (hb : b ≠ ' ') (hc : c ≠ ' ')
    (hd : d ≠ ' ') (pre rest : List Char)
    (hpre : ¬ [' ', a, b, c, d, ' '] <:+: pre ++ [' ']) (t : List Char) (ht : t ≠ [])
    (hsuf : t <:+ pre) : ¬ [' ', a, b, c, d, ' '] <+: t ++ ' ' :: rest := by
  intro hp
  rcases t with _ | ⟨t1, _ | ⟨t2, _ | ⟨t3, _ | ⟨t4, _ | ⟨t5, t⟩⟩⟩⟩⟩
  · exact ht rfl
  · simp only [List.cons_append, List.nil_append, List.cons_prefix_cons] at hp
    exact ha hp.2.1
  · simp only [List.cons_append, List.nil_append, List.cons_prefix_cons] at hp
    exact hb hp.2.2.1
  · simp only [List.cons_append, List.nil_append, List.cons_prefix_cons] at hp
    exact hc hp.2.2.2.1
  · simp only [List.cons_append, List.nil_append, List.cons_prefix_cons] at hp
    exact hd hp.2.2.2.2.1
  · simp only [List.cons_append, List.cons_prefix_cons] at hp
    obtain ⟨h1, h2, h3, h4, h5, h6⟩ := hp
    have hocc : [' ', a, b, c, d, ' '] <+: (t1 :: t2 :: t3 :: t4 :: t5 :: t) ++ [' '] := by
      rw [← h1, ← h2, ← h3, ← h4, ← h5]
      cases t with
      | nil => exact List.prefix_refl _
      | cons f t =>
        simp only [List.cons_append, List.cons_prefix_cons] at h6
        rw [← h6.1]
        exact ⟨t ++ [' '], rfl⟩
    obtain ⟨u, hu⟩ := hsuf
    apply hpre
    rw [← hu, List.append_assoc]
    exact hocc.isInfix.trans (List.suffix_append u _).isInfix

/-- A word that follows a space and does not start like the keyword is copied
by the scan, together with that space. -/
theorem replaceAllFrom_word (a b c d : Char) (format : List Char) (x : Char) (w rest : List Char)
    (hx : x ≠ a) (hw : ∀ y ∈ x :: w, y ≠ ' ') :
    replaceAllFrom [' ', a, b, c, d, ' '] format 0 (' ' :: x :: (w ++ rest)) =
      ' ' :: x :: (w ++ replaceAllFrom [' ', a, b, c, d, ' '] format 0 rest) := by
  have h1 : ¬ [' ', a, b, c, d, ' '] <+: ' ' :: x :: (w ++ rest) := by
    intro hp
    simp only [List.cons_prefix_cons] at hp
    exact hx hp.2.1.symm
  rw [replaceAllFrom_copy _ _ _ _ h1]
  exact congrArg (List.cons ' ')
    (replaceAllFrom_block ' ' [a, b, c, d, ' '] format (x :: w) hw rest)

/-- One pass of `boost::replace_all` for a keyword (a space, four letters, a
space) over a text given by its pieces and keywords: a keyword that is the one
searched for is replaced, a keyword of the other kind (one that the scan
copies up to its closing space) is kept, and so is every piece, provided no
piece holds the keyword searched for, not even between two spaces. The second
statement is the same for a scan that starts at a space before the text. -/
theorem replaceAllFrom_withKeywords (a b c d : Char) (ha : a ≠ ' ') (hb : b ≠ ' ')
    (hc : c ≠ ' ') (hd : d ≠ ' ') (format : List Char) (kin kout : Bool → List Char)
    (hk : ∀ up, (kin up = [' ', a, b, c, d, ' '] ∧ kout up = format) ∨
      (∃ o, kin up = ' ' :: (o ++ [' ']) ∧ kout up = kin up ∧
        ∀ rest, replaceAllFrom [' ', a, b, c, d, ' '] format 0 (' ' :: (o ++ ' ' :: rest)) =
          ' ' :: (o ++ replaceAllFrom [' ', a, b, c, d, ' '] format 0 (' ' :: rest))))
    (last : List Char) (hlast : ¬ [' ', a, b, c, d, ' '] <:+: ' ' :: (last ++ [' '])) :
    ∀ segs : List (List Char × Bool),
      (∀ w ∈ segs.map Prod.fst, ¬ [' ', a, b, c, d, ' '] <:+: ' ' :: (w ++ [' '])) →
      replaceAllFrom [' ', a, b, c, d, ' '] format 0
          (withKeywords (kin false) (kin true) segs last) =
        withKeywords (kout false) (kout true) segs last ∧
      replaceAllFrom [' ', a, b, c, d, ' '] format 0
          (' ' :: withKeywords (kin false) (kin true) segs last) =
        ' ' :: withKeywords (kout false) (kout true) segs last := by
  intro segs
  induction segs with
  | nil =>
    intro _
    have h1 : ¬ [' ', a, b, c, d, ' '] <:+: ' ' :: last := fun hi =>
      hlast (hi.trans ⟨[], [' '], by simp⟩)
    have h2 : ¬ [' ', a, b, c, d, ' '] <:+: last := fun hi =>
      h1 (hi.trans (List.suffix_cons ' ' last).isInfix)
    exact ⟨replaceAllFrom_absent _ _ _ h2, replaceAllFrom_absent _ _ _ h1⟩
  | cons seg segs ih =>
    obtain ⟨w, up⟩ := seg
    intro hclean
    have hw : ¬ [' ', a, b, c, d, ' '] <:+: ' ' :: (w ++ [' ']) := hclean w (by simp)
    have hw1 : ¬ [' ', a, b, c, d, ' '] <:+: w ++ [' '] := fun hi =>
      hw (hi.trans (List.suffix_cons ' ' _).isInfix)
    obtain ⟨ihA, ihB⟩ := ih (fun v hv => hclean v (by
      simp only [List.map_cons, List.mem_cons]
      exact Or.inr hv))
    have hsel : ∀ f : Bool → List Char,
        (if up = true then f true else f false) = f up := by
      intro f
      cases up <;> rfl
    have hkey : replaceAllFrom [' ', a, b, c, d, ' '] format 0
        (kin up ++ withKeywords (kin false) (kin true) segs last) =
        kout up ++ withKeywords (kout false) (kout true) segs last := by
      rcases hk up with ⟨h1, h2⟩ | ⟨o, h1, h2, h3⟩
      · rw [h1, h2, replaceAllFrom_match _ _ (by simp), ihA]
      · rw [h2, h1]
        have := h3 (withKeywords (kin false) (kin true) segs last)
        rw [ihB] at this
        simpa using this
    obtain ⟨t, ht⟩ : ∃ t, kin up = ' ' :: t := by
      rcases hk up with ⟨h1, _⟩ | ⟨o, h1, _, _⟩
      · exact ⟨_, h1⟩
      · exact ⟨_, h1⟩
    simp only [withKeywords, hsel kin, hsel kout]
    constructor
    · have hseg := replaceAllFrom_segment [' ', a, b, c, d, ' '] format w
        (kin up ++ withKeywords (kin false) (kin true) segs last)
        (fun u hu hsuf => by
          rw [ht]
          exact keyword_boundary a b c d ha hb hc hd w _ hw1 u hu hsuf)
      rw [hseg, hkey]
    · have hseg := replaceAllFrom_segment [' ', a, b, c, d, ' '] format (' ' :: w)
        (kin up ++ withKeywords (kin false) (kin true) segs last)
        (fun u hu hsuf => by
          rw [ht]
          exact keyword_boundary a b c d ha hb hc hd (' ' :: w) _ hw u hu hsuf)
      have e : ' ' :: (w ++ (kin up ++ withKeywords (kin false) (kin true) segs last)) =
          (' ' :: w) ++ (kin up ++ withKeywords (kin false) (kin true) segs last) := rfl
      rw [e, hseg, hkey]
      rfl

/-- C8, as the code has it: the LIKE rewrite knows two casings of the keyword,
all lower case and all upper case. For every text `w₀ k₀ w₁ k₁ … last` in
which every `kᵢ` is ` like ` or ` LIKE ` and no piece holds ` like ` or
` LIKE `, not even when put between two spaces, `replaceLikesToSimilarTos`
replaces every ` like ` by ` similar to ` and every ` LIKE ` by
` SIMILAR TO ` and leaves every piece as it is (a keyword in another casing
lies inside a piece and stays). -/
theorem replaceLikesToSimilarTos_keyword (segs : List (List Char × Bool)) (last : List Char)
    (hclean : ∀ w ∈ last :: segs.map Prod.fst,
      ¬ " like ".data <:+: ' ' :: (w ++ [' ']) ∧ ¬ " LIKE ".data <:+: ' ' :: (w ++ [' '])) :
    replaceLikesToSimilarTos (String.mk (withKeywords " like ".data " LIKE ".data segs last)) =
      String.mk (withKeywords " similar to ".data " SIMILAR TO ".data segs last) := by
  have hlastl : ¬ [' ', 'l', 'i', 'k', 'e', ' '] <:+: ' ' :: (last ++ [' ']) :=
    (hclean last (List.mem_cons_self _ _)).1
  have hlastu : ¬ [' ', 'L', 'I', 'K', 'E', ' '] <:+: ' ' :: (last ++ [' ']) :=
    (hclean last (List.mem_cons_self _ _)).2
  have hsegl : ∀ w ∈ segs.map Prod.fst,
      ¬ [' ', 'l', 'i', 'k', 'e', ' '] <:+: ' ' :: (w ++ [' ']) :=
    fun w hw => (hclean w (List.mem_cons_of_mem _ hw)).1
  have hsegu : ∀ w ∈ segs.map Prod.fst,
      ¬ [' ', 'L', 'I', 'K', 'E', ' '] <:+: ' ' :: (w ++ [' ']) :=
    fun w hw => (hclean w (List.mem_cons_of_mem _ hw)).2
  have pass1 : replaceAllFrom [' ', 'l', 'i', 'k', 'e', ' '] " similar to ".data 0
      (withKeywords " like ".data " LIKE ".data segs last) =
      withKeywords " similar to ".data " LIKE ".data segs last :=
    (replaceAllFrom_withKeywords 'l' 'i' 'k' 'e' (by decide) (by decide) (by decide)
      (by decide) " similar to ".data
      (fun up => if up = true then " LIKE ".data else " like ".data)
      (fun up => if up = true then " LIKE ".data else " similar to ".data)
      (fun up => by
        cases up
        · exact Or.inl ⟨rfl, rfl⟩
        · exact Or.inr ⟨['L', 'I', 'K', 'E'], rfl, rfl, fun rest =>
            replaceAllFrom_word 'l' 'i' 'k' 'e' " similar to ".data 'L' ['I', 'K', 'E']
              (' ' :: rest) (by decide) (by decide)⟩)
      last hlastl segs hsegl).1
  have pass2 : replaceAllFrom [' ', 'L', 'I', 'K', 'E', ' '] " SIMILAR TO ".data 0
      (withKeywords " similar to ".data " LIKE ".data segs last) =
      withKeywords " similar to ".data " SIMILAR TO ".data segs last :=
    (replaceAllFrom_withKeywords 'L' 'I' 'K' 'E' (by decide) (by decide) (by decide)
      (by decide) " SIMILAR TO ".data
      (fun up => if up = true then " LIKE ".data else " similar to ".data)
      (fun up => if up = true then " SIMILAR TO ".data else " similar to ".data)
      (fun up => by
        cases up
        · refine Or.inr ⟨['s', 'i', 'm', 'i', 'l', 'a', 'r', ' ', 't', 'o'], rfl, rfl,
            fun rest => ?_⟩
          have w1 := replaceAllFrom_word 'L' 'I' 'K' 'E' " SIMILAR TO ".data 's'
            ['i', 'm', 'i', 'l', 'a', 'r'] (' ' :: 't' :: (['o'] ++ ' ' :: rest))
            (by decide) (by decide)
          have w2 := replaceAllFrom_word 'L' 'I' 'K' 'E' " SIMILAR TO ".data 't' ['o']
            (' ' :: rest) (by decide) (by decide)
          rw [w2] at w1
          exact w1
        · exact Or.inl ⟨rfl, rfl⟩)
      last hlastu segs hsegu).1
  simp only [replaceLikesToSimilarTos, replace_all]
  exact congrArg String.mk ((congrArg _ pass1).trans pass2)

/-- Witness for C8: a text with one keyword in lower case and one in upper
case, and a keyword in mixed case that is left alone. -/
theorem replaceLikesToSimilarTos_keyword_witness :
    replaceLikesToSimilarTos (String.mk (withKeywords " like ".data " LIKE ".data
        [("a Like b AND y".data, false), ("? AND z".data, true)] "?".data)) =
      String.mk (withKeywords " similar to ".data " SIMILAR TO ".data
        [("a Like b AND y".data, false), ("? AND z".data, true)] "?".data) :=
  replaceLikesToSimilarTos_keyword
    [("a Like b AND y".data, false), ("? AND z".data, true)] "?".data (by decide)

/-- Counterexample to C8 as stated: the keyword in mixed case is not replaced. -/
theorem replaceLikesToSimilarTos_keyword_counterexample :
    replaceLikesToSimilarTos "x Like y" = "x Like y" ∧
      replaceLikesToSimilarTos "x lIkE y" = "x lIkE y" ∧
      " Like ".data <:+: (replaceLikesToSimilarTos "x Like y").data := by
  decide

/-- C9: the LIKE rewrite has no false positives. A text that contains neither
the substring ` like ` nor the substring ` LIKE ` (the keyword with a space on
each side) is returned unchanged by `replaceLikesToSimilarTos`. -/
theorem replaceLikesToSimilarTos_no_keyword (s : String)
    (hlower : ¬ " like ".data <:+: s.data) (hupper : ¬ " LIKE ".data <:+: s.data) :
    replaceLikesToSimilarTos s = s := by
  simp only [replaceLikesToSimilarTos]
  rw [replace_all_absent s.data _ _ hlower, replace_all_absent s.data _ _ hupper]

/-- Witness for C9: words that merely contain the letters are not rewritten. -/
theorem replaceLikesToSimilarTos_no_keyword_witness :
    replaceLikesToSimilarTos "x = 'UNLIKELY' OR y = 'unlikely'" =
      "x = 'UNLIKELY' OR y = 'unlikely'" :=
  replaceLikesToSimilarTos_no_keyword "x = 'UNLIKELY' OR y = 'unlikely'"
    (by decide) (by decide)

/-! ## The two rewrites together -/

/-- A text without `$` that starts the output of `replaceParams` starts its input. -/
theorem prefix_of_prefix_replaceParamsLoop :
    ∀ (pat t : List Char) (i : Nat), '$' ∉ pat → pat <+: replaceParamsLoop i t → pat <+: t := by
  intro pat
  induction pat with
  | nil => intro t i _ _; exact List.nil_prefix
  | cons p ps ih =>
    intro t i hd hpre
    cases t with
    | nil => simp [replaceParamsLoop] at hpre
    | cons d t =>
      by_cases hq : d = '?'
      · simp only [replaceParamsLoop, hq, if_true] at hpre
        have := (List.cons_prefix_cons.1 hpre).1
        exact absurd (by simp [this]) hd
      · simp only [replaceParamsLoop, hq, if_false] at hpre
        obtain ⟨h1, h2⟩ := List.cons_prefix_cons.1 hpre
        exact List.cons_prefix_cons.2
          ⟨h1, ih t i (fun hm => hd (List.mem_cons_of_mem _ hm)) h2⟩

/-- Numbering the placeholders and replacing a keyword that holds no `?`, no
`$` and does not start with a digit can be done in either order. -/
theorem replaceParamsLoop_replaceAllFrom (p : Char) (ps format : List Char)
    (hq : '?' ∉ p :: ps) (hd : '$' ∉ p :: ps) (hp : p.isDigit = false)
    (hf : '?' ∉ format) :
    ∀ (n : Nat) (s : List Char), s.length ≤ n → ∀ i : Nat,
      replaceParamsLoop i (replaceAllFrom (p :: ps) format 0 s) =
        replaceAllFrom (p :: ps) format 0 (replaceParamsLoop i s) := by
  intro n
  induction n with
  | zero =>
    intro s hs i
    have : s = [] := List.length_eq_zero.1 (Nat.le_zero.1 hs)
    subst this
    rfl
  | succ n ih =>
    intro s hs i
    cases s with
    | nil => rfl
    | cons c rest =>
      by_cases hpre : p :: ps <+: c :: rest
      · obtain ⟨rest1, hrest1⟩ := hpre
        have hlen : rest1.length ≤ n := by
          have := congrArg List.length hrest1
          simp only [List.length_append, List.length_cons] at this hs
          omega
        rw [← hrest1, replaceAllFrom_match _ _ (by simp), replaceParamsLoop_segment _ hf,
          replaceParamsLoop_segment _ hq, replaceAllFrom_match _ _ (by simp), ih rest1 hlen i]
      · have hlen : rest.length ≤ n := by
          simp only [List.length_cons] at hs
          omega
        rw [replaceAllFrom_copy _ _ _ _ hpre]
        by_cases hc : c = '?'
        · subst hc
          have hblock : ∀ d ∈ '$' :: to_string i, d ≠ p := by
            intro d hmem
            rcases List.mem_cons.1 hmem with rfl | hmem
            · intro h1
              exact hd (by rw [← h1]; exact List.mem_cons_self _ _)
            · intro h1
              have := to_string_isDigit i d hmem
              rw [h1, hp] at this
              exact Bool.noConfusion this
          have key := replaceAllFrom_block p ps format ('$' :: to_string i) hblock
            (replaceParamsLoop (i + 1) rest)
          simp only [replaceParamsLoop, if_true]
          rw [ih rest hlen (i + 1)]
          exact key.symm
        · have hno : ¬ p :: ps <+: replaceParamsLoop i (c :: rest) :=
            fun h1 => hpre (prefix_of_prefix_replaceParamsLoop _ _ i hd h1)
          simp only [replaceParamsLoop, hc, if_false] at hno ⊢
          rw [replaceAllFrom_copy _ _ _ _ hno, ih rest hlen i]

/-- Numbering the placeholders commutes with one `boost::replace_all` pass for
a keyword that holds no `?`, no `$` and does not start with a digit. -/
theorem replaceParamsLoop_replace_all (p : Char) (ps format : List Char)
    (hq : '?' ∉ p :: ps) (hd : '$' ∉ p :: ps) (hp : p.isDigit = false)
    (hf : '?' ∉ format) (s : List Char) (i : Nat) :
    replaceParamsLoop i (replace_all s (p :: ps) format) =
      replace_all (replaceParamsLoop i s) (p :: ps) format := by
  simp only [replace_all, List.isEmpty_cons, Bool.false_eq_true, if_false]
  exact replaceParamsLoop_replaceAllFrom p ps format hq hd hp hf s.length s (Nat.le_refl _) i

/-- C10: the text `_execSql` submits, and classifies the answer for, is
`replaceLikesToSimilarTos (replaceParams sql)`; the two rewrites give the same
text in either order; and the sample statement is translated as expected. -/
theorem _execSql_translation (E : ErrorTable) (exec : String → List String → PGresult)
    (_sql : String) (bindVars : List String) :
    _execSql E exec _sql bindVars =
      ((processRes E (replaceLikesToSimilarTos (replaceParams _sql)) bindVars
          (exec (replaceLikesToSimilarTos (replaceParams _sql)) bindVars)).1,
        exec (replaceLikesToSimilarTos (replaceParams _sql)) bindVars) ∧
    replaceLikesToSimilarTos (replaceParams _sql) =
      replaceParams (replaceLikesToSimilarTos _sql) ∧
    replaceLikesToSimilarTos (replaceParams "SELECT * FROM t WHERE x = ? AND y LIKE ?") =
      "SELECT * FROM t WHERE x = $1 AND y SIMILAR TO $2" := by
  have hlower : ∀ (s : List Char) (i : Nat),
      replaceParamsLoop i (replace_all s " like ".data " similar to ".data) =
        replace_all (replaceParamsLoop i s) " like ".data " similar to ".data :=
    replaceParamsLoop_replace_all ' ' "like ".data " similar to ".data
      (by decide) (by decide) (by decide) (by decide)
  have hupper : ∀ (s : List Char) (i : Nat),
      replaceParamsLoop i (replace_all s " LIKE ".data " SIMILAR TO ".data) =
        replace_all (replaceParamsLoop i s) " LIKE ".data " SIMILAR TO ".data :=
    replaceParamsLoop_replace_all ' ' "LIKE ".data " SIMILAR TO ".data
      (by decide) (by decide) (by decide) (by decide)
  refine ⟨rfl, ?_, by decide⟩
  simp only [replaceLikesToSimilarTos, replaceParams]
  rw [hupper, hlower]

/-! ## Claims on the statement classifier -/

/-- The model of `strstr` finds exactly the substrings. -/
theorem strstr_iff_infix (haystack needle : List Char) :
    strstr haystack needle = true ↔ needle <:+: haystack := by
  induction haystack with
  | nil => simp [strstr]
  | cons c cs ih =>
    rw [List.infix_cons_iff, ← ih, ← List.isPrefixOf_iff_prefix]
    simp [strstr]

/-- For a result with a success status (command-ok or tuples-ok), `processRes`
returns `CAT_SUCCESS_BUT_WITH_NO_INFO` when `atoi` reads 0 from the text of the
affected-row count and the statement is not, ignoring letter case, one of the
six transaction-control phrases, and 0 in every other case; the SQLSTATE it
returns is empty. With a `CAT_SUCCESS_BUT_WITH_NO_INFO` that is not 0 this is
an equivalence. -/
theorem processRes_success (E : ErrorTable) (_sql : String) (bindVars : List String)
    (res : PGresult)
    (hstat : res.status = ExecStatusType.PGRES_COMMAND_OK ∨
      res.status = ExecStatusType.PGRES_TUPLES_OK) :
    processRes E _sql bindVars res =
      (if atoi res.cmdTuples.data = 0 ∧
          iequals _sql "begin" = false ∧
          iequals _sql "commit" = false ∧
          iequals _sql "rollback" = false ∧
          iequals _sql "savepoint cockroach_restart" = false ∧
          iequals _sql "release savepoint cockroach_restart" = false ∧
          iequals _sql "rollback to savepoint cockroach_restart" = false
        then E.CAT_SUCCESS_BUT_WITH_NO_INFO else 0, "") ∧
    (E.CAT_SUCCESS_BUT_WITH_NO_INFO ≠ 0 →
      ((processRes E _sql bindVars res).1 = E.CAT_SUCCESS_BUT_WITH_NO_INFO ↔
        (atoi res.cmdTuples.data = 0 ∧
          iequals _sql "begin" = false ∧
          iequals _sql "commit" = false ∧
          iequals _sql "rollback" = false ∧
          iequals _sql "savepoint cockroach_restart" = false ∧
          iequals _sql "release savepoint cockroach_restart" = false ∧
          iequals _sql "rollback to savepoint cockroach_restart" = false))) := by
  have heq : processRes E _sql bindVars res =
      (if atoi res.cmdTuples.data = 0 ∧
          iequals _sql "begin" = false ∧
          iequals _sql "commit" = false ∧
          iequals _sql "rollback" = false ∧
          iequals _sql "savepoint cockroach_restart" = false ∧
          iequals _sql "release savepoint cockroach_restart" = false ∧
          iequals _sql "rollback to savepoint cockroach_restart" = false
        then E.CAT_SUCCESS_BUT_WITH_NO_INFO else 0, "") := by
    simp only [processRes, hstat, if_true]
    by_cases h0 : atoi res.cmdTuples.data = 0 <;>
    cases iequals _sql "begin" <;> cases iequals _sql "commit" <;>
    cases iequals _sql "rollback" <;> cases iequals _sql "savepoint cockroach_restart" <;>
    cases iequals _sql "release savepoint cockroach_restart" <;>
    cases iequals _sql "rollback to savepoint cockroach_restart" <;> simp [h0]
  refine ⟨heq, fun hne => ?_⟩
  rw [heq]
  constructor
  · intro h
    by_contra hc
    simp only [hc, if_false] at h
    exact hne h.symm
  · intro hc
    simp only [hc, and_self, if_true]

/-- A transaction-control phrase in mixed case and an update that touched no
row, both with a success status. -/
theorem processRes_success_witness :
    processRes sampleTable "Begin" [] okResult = (0, "") ∧
      processRes sampleTable "update t set x = 1" [] okResult = (-808000, "") :=
  ⟨(processRes_success sampleTable "Begin" [] okResult (Or.inl rfl)).1.trans (by decide),
    (processRes_success sampleTable "update t set x = 1" [] okResult
      (Or.inl rfl)).1.trans (by decide)⟩

/-- C11, at a row count the code misreads: an update with status command-ok
reports 4294967296 (2^32) affected rows. `strtol` reads the number 4294967296
from the text, `atoi` keeps of it the `int` 0, and `processRes` returns
`CAT_SUCCESS_BUT_WITH_NO_INFO` with an empty SQLSTATE, the answer for an
affected-row count of zero, although the count is not zero. -/
theorem processRes_row_count_wraps (E : ErrorTable) :
    manyRowsResult.status = ExecStatusType.PGRES_COMMAND_OK ∧
    strtol manyRowsResult.cmdTuples.data = 4294967296 ∧
    atoi manyRowsResult.cmdTuples.data = 0 ∧
    processRes E "update t set x = 1" [] manyRowsResult =
      (E.CAT_SUCCESS_BUT_WITH_NO_INFO, "") := by
  refine ⟨rfl, by decide, by decide, ?_⟩
  rw [(processRes_success E "update t set x = 1" [] manyRowsResult (Or.inl rfl)).1]
  rw [if_pos (by decide)]

/-- C12: the error classifier returns
`CATALOG_ALREADY_HAS_ITEM_BY_THAT_NAME` when the SQLSTATE is `23505` and the
message contains the substring `duplicate key`, and the generic code -2 in
every other case (with a `CATALOG_ALREADY_HAS_ITEM_BY_THAT_NAME` that is not
-2 this is an equivalence); for a result without a success status
`processRes` returns that code together with the raw SQLSTATE. -/
theorem logPsgError_classification (E : ErrorTable) (_sql : String) (bindVars : List String)
    (res : PGresult)
    (hstat : res.status ≠ ExecStatusType.PGRES_COMMAND_OK ∧
      res.status ≠ ExecStatusType.PGRES_TUPLES_OK) :
    logPsgError E res =
      (if res.sqlstate = "23505" ∧ "duplicate key".data <:+: res.message.data then
        E.CATALOG_ALREADY_HAS_ITEM_BY_THAT_NAME else -2) ∧
    (E.CATALOG_ALREADY_HAS_ITEM_BY_THAT_NAME ≠ -2 →
      (logPsgError E res = E.CATALOG_ALREADY_HAS_ITEM_BY_THAT_NAME ↔
        (res.sqlstate = "23505" ∧ "duplicate key".data <:+: res.message.data))) ∧
    processRes E _sql bindVars res = (logPsgError E res, res.sqlstate) := by
  have heq : logPsgError E res =
      (if res.sqlstate = "23505" ∧ "duplicate key".data <:+: res.message.data then
        E.CATALOG_ALREADY_HAS_ITEM_BY_THAT_NAME else -2) := by
    simp only [logPsgError, strstr_iff_infix]
  refine ⟨heq, fun hne => ?_, ?_⟩
  · rw [heq]
    constructor
    · intro h
      by_contra hc
      simp only [hc, if_false] at h
      exact hne h.symm
    · intro hc
      simp only [hc, and_self, if_true]
  · simp only [processRes, hstat.1, hstat.2, or_self, if_false]

/-- Witness for C12: a unique-constraint violation with the `duplicate key`
message, one with another message, and another SQLSTATE. -/
theorem logPsgError_classification_witness :
    logPsgError sampleTable dupResult = -809000 ∧
      logPsgError sampleTable (errResult "23505") = -2 ∧
      processRes sampleTable "insert into t values (1)" [] (errResult "40001") =
        (-2, "40001") :=
  ⟨(logPsgError_classification sampleTable "" [] dupResult
      ⟨by decide, by decide⟩).1.trans (by decide),
    (logPsgError_classification sampleTable "" [] (errResult "23505")
      ⟨by decide, by decide⟩).1.trans (by decide),
    (logPsgError_classification sampleTable "insert into t values (1)" [] (errResult "40001")
      ⟨by decide, by decide⟩).2.2.trans (by decide)⟩

/-! ## Claims on the result cursors -/

/-- The buffered-all cursor after at least one call, when the first invocation
of the callback stored the handle `res`: it holds `res`, the callback was
invoked once, and the row index has moved up to the last row. -/
theorem all_result_set_afterCalls (E : ErrorTable) (query_ : Nat → Int × Option PGresult)
    (res : PGresult) (hstore : (query_ 0).2 = some res) (n : Nat) :
    all_result_set.afterCalls E query_ (n + 1) =
      { res_ := some res, row_ := ((min n (res.tuples.length - 1) : Nat) : Int), invoked := 1 } := by
  induction n with
  | zero =>
    simp [all_result_set.afterCalls, all_result_set.next_row, all_result_set.new, hstore]
  | succ n ih =>
    rw [all_result_set.afterCalls, ih]
    simp only [all_result_set.next_row, PQntuples]
    split_ifs with h
    · simp only [all_result_set.mk.injEq, true_and, and_true]
      omega
    · simp only [all_result_set.mk.injEq, true_and, and_true]
      omega

/-- C13: on a fresh buffered-all cursor whose callback stores, at its first
invocation, a handle `res` with `R` rows: the first call of `next_row` returns
the status of the callback; after any number `n ≥ 1` of calls the callback has
been invoked exactly once; each of the calls 2..R returns 0 and moves the row
index up by one; every call after call `max(R,1)` returns
`CAT_SUCCESS_BUT_WITH_NO_INFO` and leaves the row index and the number of
invocations as they are. -/
theorem all_result_set_next_row (E : ErrorTable) (query_ : Nat → Int × Option PGresult)
    (res : PGresult) (hstore : (query_ 0).2 = some res) :
    (all_result_set.next_row E query_ all_result_set.new).1 = (query_ 0).1 ∧
    (∀ n, 1 ≤ n → (all_result_set.afterCalls E query_ n).invoked = 1) ∧
    (∀ k, 2 ≤ k → k ≤ res.tuples.length →
      (all_result_set.next_row E query_ (all_result_set.afterCalls E query_ (k - 1))).1 = 0 ∧
      (all_result_set.afterCalls E query_ k).row_ =
        (all_result_set.afterCalls E query_ (k - 1)).row_ + 1) ∧
    (∀ k, max res.tuples.length 1 < k →
      (all_result_set.next_row E query_ (all_result_set.afterCalls E query_ (k - 1))).1 =
        E.CAT_SUCCESS_BUT_WITH_NO_INFO ∧
      (all_result_set.afterCalls E query_ k).row_ =
        (all_result_set.afterCalls E query_ (k - 1)).row_ ∧
      (all_result_set.afterCalls E query_ k).invoked =
        (all_result_set.afterCalls E query_ (k - 1)).invoked) := by
  refine ⟨rfl, ?_, ?_, ?_⟩
  · intro n hn
    obtain ⟨m, rfl⟩ : ∃ m, n = m + 1 := ⟨n - 1, by omega⟩
    rw [all_result_set_afterCalls E query_ res hstore]
  · intro k hk hR
    obtain ⟨m, rfl⟩ : ∃ m, k = m + 2 := ⟨k - 2, by omega⟩
    have e : m + 2 - 1 = m + 1 := rfl
    rw [e, all_result_set_afterCalls E query_ res hstore (m + 1),
      all_result_set_afterCalls E query_ res hstore m]
    simp only [all_result_set.next_row, PQntuples]
    have hlt : ¬ ((min m (res.tuples.length - 1) : Nat) : Int) ≥ (res.tuples.length : Int) - 1 := by
      omega
    rw [if_neg hlt]
    refine ⟨rfl, ?_⟩
    show ((min (m + 1) (res.tuples.length - 1) : Nat) : Int) = _
    omega
  · intro k hk
    obtain ⟨m, rfl⟩ : ∃ m, k = m + 2 := ⟨k - 2, by omega⟩
    have e : m + 2 - 1 = m + 1 := rfl
    rw [e, all_result_set_afterCalls E query_ res hstore (m + 1),
      all_result_set_afterCalls E query_ res hstore m]
    simp only [all_result_set.next_row, PQntuples]
    have hge : ((min m (res.tuples.length - 1) : Nat) : Int) ≥ (res.tuples.length : Int) - 1 := by
      omega
    rw [if_pos hge]
    refine ⟨rfl, ?_, ?_⟩
    · show ((min (m + 1) (res.tuples.length - 1) : Nat) : Int) = _
      omega
    · simp

/-- Witness for C13: a callback that stores three rows; five calls. -/
theorem all_result_set_next_row_witness :
    (all_result_set.afterCalls sampleTable (constQuery (pageResult sampleRows)) 5).invoked = 1 ∧
    (all_result_set.next_row sampleTable (constQuery (pageResult sampleRows))
      (all_result_set.afterCalls sampleTable (constQuery (pageResult sampleRows)) (3 - 1))).1
        = 0 ∧
    (all_result_set.next_row sampleTable (constQuery (pageResult sampleRows))
      (all_result_set.afterCalls sampleTable (constQuery (pageResult sampleRows)) (4 - 1))).1
        = sampleTable.CAT_SUCCESS_BUT_WITH_NO_INFO :=
  ⟨(all_result_set_next_row sampleTable (constQuery (pageResult sampleRows))
      (pageResult sampleRows) rfl).2.1 5 (by decide),
    ((all_result_set_next_row sampleTable (constQuery (pageResult sampleRows))
      (pageResult sampleRows) rfl).2.2.1 3 (by decide) (by decide)).1,
    ((all_result_set_next_row sampleTable (constQuery (pageResult sampleRows))
      (pageResult sampleRows) rfl).2.2.2 4 (by decide)).1⟩

/-- The caller stops at the first call that returns a status other than 0. -/
theorem readAll_stop (query_ : List Fetch → Int → Int → Int × Option PGresult) (fuel : Nat)
    (s : paging_result_set) (h : (paging_result_set.next_row query_ s).1 ≠ 0) :
    paging_result_set.readAll query_ (fuel + 1) s =
      some ([], (paging_result_set.next_row query_ s).2) := by
  simp [paging_result_set.readAll, h]

/-- After a call that returns 0 the caller reads the current row and goes on. -/
theorem readAll_step (query_ : List Fetch → Int → Int → Int × Option PGresult) (fuel : Nat)
    (s : paging_result_set) (h : (paging_result_set.next_row query_ s).1 = 0) :
    paging_result_set.readAll query_ (fuel + 1) s =
      (paging_result_set.readAll query_ fuel (paging_result_set.next_row query_ s).2).map
        fun x => (current_row (paging_result_set.next_row query_ s).2.res_
          (paging_result_set.next_row query_ s).2.row_ :: x.1, x.2) := by
  simp only [paging_result_set.readAll, h, ne_eq, not_true_eq_false, if_false]
  cases paging_result_set.readAll query_ fuel (paging_result_set.next_row query_ s).2 <;> rfl

/-- The rows of a list from index `j` on: the row at `j`, then the rows from
`j + 1` on. -/
theorem map_some_drop (l : List (List String)) :
    ∀ j, j < l.length → (l.drop j).map some = l.get? j :: (l.drop (j + 1)).map some := by
  induction l with
  | nil => intro j hj; simp at hj
  | cons a l ih =>
    intro j hj
    cases j with
    | zero => simp
    | succ j =>
      simp only [List.length_cons, Nat.add_lt_add_iff_right] at hj
      simpa using ih j hj

/-- Inside a page the caller reads row after row up to the last row of the page. -/
theorem readAll_walk (query_ : List Fetch → Int → Int → Int × Option PGresult)
    (res : PGresult) :
    ∀ (k j : Nat) (s : paging_result_set) (fuel : Nat),
      j + k + 1 = res.tuples.length → s.res_ = some res → s.row_ = (j : Int) →
      paging_result_set.readAll query_ (k + fuel) s =
        (paging_result_set.readAll query_ fuel { s with row_ := ((j + k : Nat) : Int) }).map
          fun x => ((res.tuples.drop (j + 1)).map some ++ x.1, x.2) := by
  intro k
  induction k with
  | zero =>
    intro j s fuel hlen hres hrow
    have hs : ({ s with row_ := ((j + 0 : Nat) : Int) } : paging_result_set) = s := by
      cases s
      simp only [Nat.add_zero] at hrow ⊢
      simp only [paging_result_set.mk.injEq, true_and, and_true]
      exact hrow.symm
    have hd : res.tuples.drop (j + 1) = [] := List.drop_eq_nil_of_le (by omega)
    rw [hs, hd, Nat.zero_add]
    cases paging_result_set.readAll query_ fuel s <;> rfl
  | succ k ih =>
    intro j s fuel hlen hres hrow
    have hlt : ¬ s.row_ ≥ PQntuples res - 1 := by
      rw [hrow, PQntuples]
      omega
    have hnext : paging_result_set.next_row query_ s = (0, { s with row_ := s.row_ + 1 }) := by
      simp only [paging_result_set.next_row, hres, if_neg hlt]
    have e : k + 1 + fuel = (k + fuel) + 1 := by omega
    rw [e, readAll_step query_ _ s (by rw [hnext]), hnext]
    have hrow1 : ({ s with row_ := s.row_ + 1 } : paging_result_set).row_ = ((j + 1 : Nat) : Int) := by
      simp only [hrow]
      omega
    rw [ih (j + 1) { s with row_ := s.row_ + 1 } fuel (by omega) hres hrow1]
    have hcur : current_row ({ s with row_ := s.row_ + 1 } : paging_result_set).res_
        ({ s with row_ := s.row_ + 1 } : paging_result_set).row_ = res.tuples.get? (j + 1) := by
      rw [hrow1]
      simp only [hres, current_row]
      rw [if_neg (by omega)]
      rfl
    rw [hcur, map_some_drop res.tuples (j + 1) (by omega)]
    have e2 : j + 1 + k = j + (k + 1) := by omega
    simp only [e2]
    cases paging_result_set.readAll query_ fuel _ <;> rfl

/-- The paginated cursor over a fixed list of rows, about to fetch at offset
`o` with `d` rows left: the caller reads exactly the rows from `o` on, and the
callback is invoked once for each page that holds rows and once more. -/
theorem readAll_pageQuery (E : ErrorTable) (hne : E.CAT_SUCCESS_BUT_WITH_NO_INFO ≠ 0)
    (rows : List (List String)) (P : Nat) (hP : 1 ≤ P) :
    ∀ (d o : Nat) (s : paging_result_set) (fuel : Nat),
      rows.length - o = d → o ≤ rows.length → s.maxrows_ = (P : Int) →
      ((s.res_ = none ∧ s.offset_ = (o : Int)) ∨
        (∃ res, s.res_ = some res ∧ s.row_ ≥ PQntuples res - 1 ∧
          s.offset_ + PQntuples res = (o : Int))) →
      d + 1 ≤ fuel →
      ∃ t, paging_result_set.readAll (pageQuery E rows) fuel s =
          some ((rows.drop o).map some, t) ∧
        t.fetched.length = s.fetched.length + (d + P - 1) / P + 1 := by
  intro d
  induction d using Nat.strong_induction_on with
  | _ d ih =>
    intro o s fuel hd ho hmax hready hfuel
    obtain ⟨fuel, rfl⟩ : ∃ f, fuel = f + 1 := ⟨fuel - 1, by omega⟩
    have hnext : paging_result_set.next_row (pageQuery E rows) s =
        paging_result_set.fetch (pageQuery E rows) s (o : Int) := by
      rcases hready with ⟨hres, hoff⟩ | ⟨res, hres, hrow, hoff⟩
      · simp only [paging_result_set.next_row, hres, hoff]
      · simp only [paging_result_set.next_row, hres, if_pos hrow, hoff]
    clear hready
    have hfetch : paging_result_set.fetch (pageQuery E rows) s (o : Int) =
        (if (rows.drop o).take P = [] then E.CAT_SUCCESS_BUT_WITH_NO_INFO else 0,
          { res_ := some (pageResult ((rows.drop o).take P)), row_ := 0, offset_ := (o : Int),
            maxrows_ := (P : Int),
            fetched := s.fetched ++ [⟨(o : Int), (P : Int),
              if (rows.drop o).take P = [] then E.CAT_SUCCESS_BUT_WITH_NO_INFO else 0,
              some (pageResult ((rows.drop o).take P))⟩] }) := by
      simp only [paging_result_set.fetch, pageQuery, hmax, Int.toNat_ofNat]
    by_cases hpage : (rows.drop o).take P = []
    · have hdrop : rows.drop o = [] := by
        rcases List.take_eq_nil_iff.1 hpage with h | h
        · omega
        · exact h
      have hd0 : d = 0 := by
        have := List.drop_eq_nil_iff.1 hdrop
        omega
      refine ⟨(paging_result_set.next_row (pageQuery E rows) s).2, ?_, ?_⟩
      · rw [readAll_stop _ _ _ (by rw [hnext, hfetch, if_pos hpage]; exact hne), hdrop]
        rfl
      · rw [hnext, hfetch, hd0]
        simp only [List.length_append, List.length_singleton, Nat.zero_add]
        rw [Nat.div_eq_of_lt (by omega)]
    · have hstat : (paging_result_set.next_row (pageQuery E rows) s).1 = 0 := by
        rw [hnext, hfetch, if_neg hpage]
      rw [readAll_step _ _ _ hstat, hnext, hfetch]
      simp only [if_neg hpage]
      have hm : 1 ≤ ((rows.drop o).take P).length :=
        Nat.one_le_iff_ne_zero.2 (fun h => hpage (List.length_eq_zero.1 h))
      have hmle : ((rows.drop o).take P).length = min P (rows.length - o) := by
        simp [List.length_take, List.length_drop]
      have hmP : ((rows.drop o).take P).length ≤ P := by
        rw [hmle]; exact Nat.min_le_left _ _
      have hmR : ((rows.drop o).take P).length ≤ rows.length - o := by
        rw [hmle]; exact Nat.min_le_right _ _
      have hwalk := readAll_walk (pageQuery E rows) (pageResult ((rows.drop o).take P))
        (((rows.drop o).take P).length - 1) 0
        { res_ := some (pageResult ((rows.drop o).take P)), row_ := 0, offset_ := (o : Int),
          maxrows_ := (P : Int),
          fetched := s.fetched ++ [⟨(o : Int), (P : Int), 0,
            some (pageResult ((rows.drop o).take P))⟩] }
        (fuel - (((rows.drop o).take P).length - 1))
        (by simp only [pageResult]; clear hmle; omega) rfl rfl
      have efuel : ((rows.drop o).take P).length - 1 +
          (fuel - (((rows.drop o).take P).length - 1)) = fuel := by clear hmle; omega
      rw [efuel] at hwalk
      rw [hwalk]
      obtain ⟨t, ht, hlen⟩ := ih (d - ((rows.drop o).take P).length) (by clear hmle; omega)
        (o + ((rows.drop o).take P).length)
        { res_ := some (pageResult ((rows.drop o).take P)),
          row_ := ((0 + (((rows.drop o).take P).length - 1) : Nat) : Int), offset_ := (o : Int),
          maxrows_ := (P : Int),
          fetched := s.fetched ++ [⟨(o : Int), (P : Int), 0,
            some (pageResult ((rows.drop o).take P))⟩] }
        (fuel - (((rows.drop o).take P).length - 1))
        (by clear hmle; omega) (by clear hmle; omega) rfl
        (Or.inr ⟨_, rfl, by simp only [PQntuples, pageResult]; clear hmle; omega,
          by simp only [PQntuples, pageResult]; clear hmle; omega⟩)
        (by clear hmle; omega)
      refine ⟨t, ?_, ?_⟩
      · rw [ht]
        simp only [Option.map_some', current_row, pageResult, Option.some.injEq, Prod.mk.injEq,
          and_true]
        have h0 : ((rows.drop o).take P).get? 0 :: (((rows.drop o).take P).drop (0 + 1)).map some
            = ((rows.drop o).take P).map some := by
          rw [← map_some_drop _ 0 (by omega)]
          rfl
        have hrest : rows.drop (o + ((rows.drop o).take P).length) = (rows.drop o).drop P := by
          rw [List.drop_drop]
          by_cases hle : P ≤ rows.length - o
          · rw [hmle, Nat.min_eq_left hle, Nat.add_comm]
          · rw [List.drop_eq_nil_of_le (by omega), List.drop_eq_nil_of_le (by omega)]
        rw [hrest]
        have hsplit : (rows.drop o).map some =
            ((rows.drop o).take P).map some ++ ((rows.drop o).drop P).map some := by
          rw [← List.map_append, List.take_append_drop]
        rw [hsplit, ← h0]
        simp
      · rw [hlen]
        simp only [List.length_append, List.length_singleton]
        have hdiv : (d + P - 1) / P =
            (d - ((rows.drop o).take P).length + P - 1) / P + 1 := by
          by_cases hle : P ≤ rows.length - o
          · rw [hmle, Nat.min_eq_left hle]
            have : d + P - 1 = (d - P + P - 1) + P := by omega
            rw [this, Nat.add_div_right _ (by omega)]
          · rw [hmle, Nat.min_eq_right (by omega)]
            have h1 : d - (rows.length - o) + P - 1 = P - 1 := by omega
            rw [h1, Nat.div_eq_of_lt (by omega : P - 1 < P)]
            have h2 : d + P - 1 = (d - 1) + P := by omega
            rw [h2, Nat.add_div_right _ (by omega), Nat.div_eq_of_lt (by omega)]
        omega

/-- C14, as the code has it: over a backend that is a fixed list of `R` rows,
with page size `P ≥ 1` and starting at offset 0, a caller that calls
`next_row` until it returns a status other than 0 gets there (after `R + 1`
calls), and the query callback has then been invoked `ceil(R / P) + 1` times:
once for every page that holds rows and once more for the empty page. -/
theorem paging_fetch_count (E : ErrorTable) (hne : E.CAT_SUCCESS_BUT_WITH_NO_INFO ≠ 0)
    (rows : List (List String)) (P : Nat) (hP : 1 ≤ P) (fuel : Nat)
    (hfuel : rows.length + 1 ≤ fuel) :
    ∃ read t, paging_result_set.readAll (pageQuery E rows) fuel
        (paging_result_set.new 0 (P : Int)) = some (read, t) ∧
      t.fetched.length = (rows.length + P - 1) / P + 1 := by
  obtain ⟨t, ht, hlen⟩ := readAll_pageQuery E hne rows P hP rows.length 0
    (paging_result_set.new 0 (P : Int)) fuel rfl (Nat.zero_le _) rfl (Or.inl ⟨rfl, rfl⟩) hfuel
  refine ⟨_, t, ht, ?_⟩
  rw [hlen]
  simp [paging_result_set.new]

/-- Witness for C14: three rows in pages of two take three fetches. -/
theorem paging_fetch_count_witness :
    ∃ read t, paging_result_set.readAll (pageQuery sampleTable sampleRows) 4
        (paging_result_set.new 0 ((2 : Nat) : Int)) = some (read, t) ∧
      t.fetched.length = (sampleRows.length + 2 - 1) / 2 + 1 :=
  paging_fetch_count sampleTable (by decide) sampleRows 2 (by decide) 4 (by decide)

/-- Counterexample to C14 as stated: one row in pages of two takes two
fetches, while `ceil((R + 1) / P)` is 1. -/
theorem paging_fetch_count_counterexample :
    (paging_result_set.readAll (pageQuery sampleTable [["a"]]) 2
        (paging_result_set.new 0 2)).map (fun x => (x.1, x.2.fetched.length)) =
      some ([some ["a"]], 2) ∧
    (1 + 1 + 2 - 1) / 2 = 1 := by
  decide

/-- An element of a list that got one more element at its end is that new
element or an element of the list as it was. -/
theorem snoc_eq_append_cons {α : Type} (l : List α) (x : α) (pre : List α) (f : α)
    (post : List α) (h : l ++ [x] = pre ++ f :: post) :
    (pre = l ∧ f = x ∧ post = []) ∨ (∃ c, l = pre ++ f :: c ∧ post = c ++ [x]) := by
  rcases List.append_eq_append_iff.1 h with ⟨a, h1, h2⟩ | ⟨c, h1, h2⟩
  · rcases a with _ | ⟨y, a⟩
    · simp only [List.nil_append, List.cons.injEq] at h2
      exact Or.inl ⟨by simpa using h1, h2.1.symm, h2.2.symm⟩
    · simp only [List.cons_append, List.cons.injEq] at h2
      have := congrArg List.length h2.2
      simp only [List.length_nil, List.length_append, List.length_cons] at this
      omega
  · rcases c with _ | ⟨y, c⟩
    · simp only [List.nil_append, List.cons.injEq] at h2
      exact Or.inl ⟨by simpa using h1.symm, h2.1, h2.2⟩
    · simp only [List.cons_append, List.cons.injEq] at h2
      exact Or.inr ⟨c, by rw [h1, h2.1], h2.2⟩

/-- The rows of the handles of a record of fetches add up piece by piece. -/
theorem fetchedRows_append (a b : List Fetch) :
    fetchedRows (a ++ b) = fetchedRows a + fetchedRows b := by
  induction a with
  | nil => simp [fetchedRows]
  | cons f a ih =>
    rw [List.cons_append, fetchedRows, fetchedRows, ih]
    omega

/-- Whatever the callback does, every fetch of a paginated cursor is made at the
offset where the rows fetched before it end, and so will the next one be. -/
theorem next_row_offsets (query_ : List Fetch → Int → Int → Int × Option PGresult)
    (s : paging_result_set)
    (hlog : ∀ pre f post, s.fetched = pre ++ f :: post → f.offset = fetchedRows pre)
    (hnext : s.nextOffset = fetchedRows s.fetched) :
    (∀ pre f post, (paging_result_set.next_row query_ s).2.fetched = pre ++ f :: post →
      f.offset = fetchedRows pre) ∧
    (paging_result_set.next_row query_ s).2.nextOffset =
      fetchedRows (paging_result_set.next_row query_ s).2.fetched := by
  have hfetch : ∀ o, o = fetchedRows s.fetched →
      (∀ pre f post, (paging_result_set.fetch query_ s o).2.fetched = pre ++ f :: post →
        f.offset = fetchedRows pre) ∧
      (paging_result_set.fetch query_ s o).2.nextOffset =
        fetchedRows (paging_result_set.fetch query_ s o).2.fetched := by
    intro o ho
    constructor
    · intro pre f post hdec
      simp only [paging_result_set.fetch] at hdec
      rcases snoc_eq_append_cons _ _ _ _ _ hdec with ⟨h1, h2, _⟩ | ⟨c, h1, _⟩
      · rw [h1, h2]
        exact ho
      · exact hlog pre f c h1
    · simp only [paging_result_set.fetch, paging_result_set.nextOffset, fetchedRows_append,
        fetchedRows, ho]
      cases (query_ s.fetched (fetchedRows s.fetched) s.maxrows_).2 <;> simp
  simp only [paging_result_set.nextOffset] at hnext
  simp only [paging_result_set.next_row]
  cases hres : s.res_ with
  | none =>
    simp only [hres] at hnext
    exact hfetch _ hnext
  | some res =>
    simp only [hres] at hnext
    simp only []
    split_ifs
    · exact hfetch _ hnext
    · refine ⟨hlog, ?_⟩
      simp only [paging_result_set.nextOffset, hres]
      exact hnext

/-- A property of the cursor that every call of `next_row` keeps holds at the
end of the reading. -/
theorem readAll_preserves (query_ : List Fetch → Int → Int → Int × Option PGresult)
    (Inv : paging_result_set → Prop)
    (hstep : ∀ s, Inv s → Inv (paging_result_set.next_row query_ s).2) :
    ∀ (fuel : Nat) (s : paging_result_set) (read : List (Option (List String)))
      (t : paging_result_set),
      Inv s → paging_result_set.readAll query_ fuel s = some (read, t) → Inv t := by
  intro fuel
  induction fuel with
  | zero => intro s read t _ h; simp [paging_result_set.readAll] at h
  | succ fuel ih =>
    intro s read t hs h
    by_cases hst : (paging_result_set.next_row query_ s).1 = 0
    · rw [readAll_step _ _ _ hst] at h
      cases hr : paging_result_set.readAll query_ fuel (paging_result_set.next_row query_ s).2 with
      | none => rw [hr] at h; simp at h
      | some x =>
        rw [hr] at h
        simp only [Option.map_some', Option.some.injEq, Prod.mk.injEq] at h
        exact ih _ x.1 t (hstep s hs) (by rw [hr, ← h.2])
    · rw [readAll_stop _ _ _ hst] at h
      simp only [Option.some.injEq, Prod.mk.injEq] at h
      rw [← h.2]
      exact hstep s hs

/-- C15: over a backend that is a fixed list of `R` rows, with page size
`P ≥ 1` and starting at offset 0, a caller that reads the current row after
every call of `next_row` that returns 0, until the first call that does not,
reads exactly the rows of the list, in order, each once; and every fetch was
made at the offset that is the number of rows of the pages fetched before. -/
theorem paging_row_delivery (E : ErrorTable) (hne : E.CAT_SUCCESS_BUT_WITH_NO_INFO ≠ 0)
    (rows : List (List String)) (P : Nat) (hP : 1 ≤ P) (fuel : Nat)
    (hfuel : rows.length + 1 ≤ fuel) :
    ∃ t, paging_result_set.readAll (pageQuery E rows) fuel
        (paging_result_set.new 0 (P : Int)) = some (rows.map some, t) ∧
      ∀ pre f post, t.fetched = pre ++ f :: post → f.offset = fetchedRows pre := by
  obtain ⟨t, ht, _⟩ := readAll_pageQuery E hne rows P hP rows.length 0
    (paging_result_set.new 0 (P : Int)) fuel rfl (Nat.zero_le _) rfl (Or.inl ⟨rfl, rfl⟩) hfuel
  refine ⟨t, ht, ?_⟩
  have key := readAll_preserves (pageQuery E rows)
    (fun s => (∀ pre f post, s.fetched = pre ++ f :: post → f.offset = fetchedRows pre) ∧
      s.nextOffset = fetchedRows s.fetched)
    (fun s hs => next_row_offsets (pageQuery E rows) s hs.1 hs.2)
    fuel (paging_result_set.new 0 (P : Int)) _ t
    ⟨fun pre f post h => by simp [paging_result_set.new] at h, rfl⟩ ht
  exact key.1

/-- Witness for C15: three rows in pages of two. -/
theorem paging_row_delivery_witness :
    ∃ t, paging_result_set.readAll (pageQuery sampleTable sampleRows) 4
        (paging_result_set.new 0 ((2 : Nat) : Int)) = some (sampleRows.map some, t) ∧
      ∀ pre f post, t.fetched = pre ++ f :: post → f.offset = fetchedRows pre :=
  paging_row_delivery sampleTable (by decide) sampleRows 2 (by decide) 4 (by decide)

/-! ## Claims on the cursor registry -/

/-- The scan of `find_res_inx` finds the first empty slot, if there is one. -/
theorem find_res_inx_scan_spec {α : Type} :
    ∀ (rs : List (Option α)) (i : Nat),
      (∃ j : Nat, find_res_inx_scan i rs = some (i + j) ∧ rs[j]? = some none ∧
        ∀ k : Nat, k < j → rs[k]? ≠ some none) ∨
      (find_res_inx_scan i rs = none ∧ ∀ k : Nat, rs[k]? ≠ some none) := by
  intro rs
  induction rs with
  | nil => intro i; exact Or.inr ⟨rfl, by simp⟩
  | cons a rs ih =>
    intro i
    cases a with
    | none => exact Or.inl ⟨0, rfl, by simp, fun k hk => absurd hk (Nat.not_lt_zero k)⟩
    | some c =>
      rcases ih (i + 1) with ⟨j, h1, h2, h3⟩ | ⟨h1, h2⟩
      · refine Or.inl ⟨j + 1, ?_, by simpa using h2, ?_⟩
        · rw [find_res_inx_scan, h1]
          congr 1
          omega
        · intro k hk
          cases k with
          | zero => simp
          | succ k => simpa using h3 k (by omega)
      · refine Or.inr ⟨by rw [find_res_inx_scan, h1], ?_⟩
        intro k
        cases k with
        | zero => simp
        | succ k => simpa using h2 k

/-- C16: when some slot of the registry is empty, `find_res_inx` returns the
least index of an empty slot and leaves the registry unchanged; when no slot
is empty it appends one empty slot, leaving the others unchanged, and returns
the previous length. In both cases the index returned is in range and its
slot is empty. -/
theorem find_res_inx_spec {α : Type} (rs : List (Option α)) :
    ((∃ i : Nat, rs[i]? = some none) →
      (find_res_inx rs).2 = rs ∧ rs[(find_res_inx rs).1]? = some none ∧
      ∀ k : Nat, k < (find_res_inx rs).1 → rs[k]? ≠ some none) ∧
    ((∀ i : Nat, rs[i]? ≠ some none) → find_res_inx rs = (rs.length, rs ++ [none])) ∧
    (find_res_inx rs).1 < (find_res_inx rs).2.length ∧
    (find_res_inx rs).2[(find_res_inx rs).1]? = some none := by
  rcases find_res_inx_scan_spec rs 0 with ⟨j, h1, h2, h3⟩ | ⟨h1, h2⟩
  · have hf : find_res_inx rs = (j, rs) := by
      simp only [find_res_inx, h1, Nat.zero_add]
    rw [hf]
    refine ⟨fun _ => ⟨rfl, h2, h3⟩, fun hno => absurd h2 (hno j), ?_, h2⟩
    by_contra hlt
    rw [List.getElem?_eq_none (by simpa using hlt)] at h2
    exact Option.noConfusion h2
  · have hf : find_res_inx rs = (rs.length, rs ++ [none]) := by
      simp only [find_res_inx, h1]
    rw [hf]
    refine ⟨fun ⟨i, hi⟩ => absurd hi (h2 i), fun _ => rfl, by simp, by simp⟩

/-- Witness for C16: a registry with two empty slots, and one without. -/
theorem find_res_inx_spec_witness :
    ((find_res_inx [some 7, none, some 8, none]).2 = [some 7, none, some 8, none] ∧
      [some 7, none, some 8, none][(find_res_inx [some 7, none, some 8, none]).1]? = some none ∧
      ∀ k : Nat, k < (find_res_inx [some 7, none, some 8, none]).1 →
        [some 7, none, some 8, none][k]? ≠ some none) ∧
    find_res_inx [some 7] = ([some 7].length, [some 7] ++ [none]) :=
  ⟨(find_res_inx_spec [some 7, none, some 8, none]).1 ⟨1, rfl⟩,
    (find_res_inx_spec [some 7]).2.1 (fun i => by
      cases i with
      | zero => simp
      | succ i => simp)⟩

/-- The two ways `find_res_inx` can go. -/
theorem find_res_inx_cases {α : Type} (rs : List (Option α)) :
    (∃ j : Nat, find_res_inx rs = (j, rs) ∧ rs[j]? = some none) ∨
    find_res_inx rs = (rs.length, rs ++ [none]) := by
  rcases find_res_inx_scan_spec rs 0 with ⟨j, h1, h2, _⟩ | ⟨h1, _⟩
  · exact Or.inl ⟨j, by simp only [find_res_inx, h1, Nat.zero_add], h2⟩
  · exact Or.inr (by simp only [find_res_inx, h1])

/-- Storing a new cursor: the handle is a slot that was empty or new, the slot
now holds the cursor, and every slot that held a cursor still holds it. -/
theorem cllExecSqlWithResultBV_spec {α : Type} (c : α) (rs : List (Option α)) :
    (∀ d, rs[(cllExecSqlWithResultBV c rs).1]? ≠ some (some d)) ∧
    (cllExecSqlWithResultBV c rs).2[(cllExecSqlWithResultBV c rs).1]? = some (some c) ∧
    (∀ (h : Nat) (d : α), rs[h]? = some (some d) →
      (cllExecSqlWithResultBV c rs).2[h]? = some (some d)) := by
  rcases find_res_inx_cases rs with ⟨j, hf, hj⟩ | hf
  · have hlt : j < rs.length := by
      by_contra hlt
      rw [List.getElem?_eq_none (by simpa using hlt)] at hj
      exact Option.noConfusion hj
    simp only [cllExecSqlWithResultBV, hf]
    refine ⟨fun d hd => ?_, ?_, fun h d hd => ?_⟩
    · rw [hj] at hd
      simp at hd
    · simp [List.getElem?_set, hlt]
    · have hne : j ≠ h := by
        rintro rfl
        rw [hj] at hd
        simp at hd
      rw [List.getElem?_set_ne hne]
      exact hd
  · simp only [cllExecSqlWithResultBV, hf]
    refine ⟨fun d hd => ?_, ?_, fun h d hd => ?_⟩
    · rw [List.getElem?_eq_none (Nat.le_refl _)] at hd
      exact Option.noConfusion hd
    · simp [List.getElem?_set]
    · have hlt : h < rs.length := by
        by_contra hlt
        rw [List.getElem?_eq_none (by simpa using hlt)] at hd
        exact Option.noConfusion hd
      rw [List.getElem?_set_ne (by omega), List.getElem?_append_left hlt]
      exact hd

/-- One operation keeps the registry sound: every live handle's slot holds
the cursor the handle was given out for, and no handle is live twice. -/
theorem Registry_step_sound {α : Type} (s t : Registry α) (op : RegistryOp α)
    (hslots : ∀ h c, (h, c) ∈ s.live → s.result_sets[h]? = some (some c))
    (hnodup : (s.live.map Prod.fst).Nodup) (hstep : s.step op = some t) :
    (∀ h c, (h, c) ∈ t.live → t.result_sets[h]? = some (some c)) ∧
    (t.live.map Prod.fst).Nodup := by
  cases op with
  | allocate resset =>
    simp only [Registry.step, Option.some.injEq] at hstep
    subst hstep
    obtain ⟨hfresh, hnew, hkeep⟩ := cllExecSqlWithResultBV_spec resset s.result_sets
    constructor
    · intro h c hmem
      rcases List.mem_cons.1 hmem with heq | hmem
      · simp only [Prod.mk.injEq] at heq
        rw [heq.1, heq.2]
        exact hnew
      · exact hkeep h c (hslots h c hmem)
    · simp only [List.map_cons, List.nodup_cons]
      refine ⟨?_, hnodup⟩
      intro hmem
      obtain ⟨x, hx, hx1⟩ := List.mem_map.1 hmem
      exact hfresh x.2 (by rw [← hx1]; exact hslots x.1 x.2 hx)
  | free _resinx =>
    simp only [Registry.step] at hstep
    split_ifs at hstep with hlive
    simp only [Option.some.injEq] at hstep
    subst hstep
    constructor
    · intro h c hmem
      obtain ⟨hmem, hne⟩ := List.mem_filter.1 hmem
      have hne : h ≠ _resinx := by simpa using hne
      simp only [cllFreeStatement]
      rw [List.getElem?_set_ne (Ne.symm hne)]
      exact hslots h c hmem
    · exact (List.filter_sublist _).map Prod.fst |>.nodup hnodup

/-- Every registry reached from a sound one is sound. -/
theorem Registry_run_sound {α : Type} :
    ∀ (ops : List (RegistryOp α)) (s t : Registry α),
      (∀ h c, (h, c) ∈ s.live → s.result_sets[h]? = some (some c)) →
      (s.live.map Prod.fst).Nodup → Registry.run ops s = some t →
      (∀ h c, (h, c) ∈ t.live → t.result_sets[h]? = some (some c)) ∧
      (t.live.map Prod.fst).Nodup := by
  intro ops
  induction ops with
  | nil =>
    intro s t h1 h2 hrun
    simp only [Registry.run, Option.some.injEq] at hrun
    subst hrun
    exact ⟨h1, h2⟩
  | cons op ops ih =>
    intro s t h1 h2 hrun
    simp only [Registry.run] at hrun
    cases hstep : s.step op with
    | none => rw [hstep] at hrun; exact Option.noConfusion hrun
    | some u =>
      rw [hstep] at hrun
      obtain ⟨h3, h4⟩ := Registry_step_sound s u op h1 h2 hstep
      exact ih u t h3 h4 hrun

/-- C17: after every sequence of operations on the empty registry in which
only live handles are freed, every live handle's slot holds the cursor the
handle was given out for, no handle is live twice, the handle a further
allocate returns differs from every live handle, and a further operation
other than freeing the handle itself leaves the slot of a live handle as it is. -/
theorem registry_live_handles {α : Type} (ops : List (RegistryOp α)) (s : Registry α)
    (hrun : Registry.run ops { result_sets := [], live := [] } = some s) :
    (∀ h c, (h, c) ∈ s.live → s.result_sets[h]? = some (some c)) ∧
    (s.live.map Prod.fst).Nodup ∧
    (∀ resset, (cllExecSqlWithResultBV resset s.result_sets).1 ∉ s.live.map Prod.fst) ∧
    (∀ op t, s.step op = some t → ∀ h c, (h, c) ∈ s.live → op ≠ RegistryOp.free h →
      t.result_sets[h]? = some (some c) ∧ (h, c) ∈ t.live) := by
  obtain ⟨hslots, hnodup⟩ := Registry_run_sound ops _ s
    (fun h c hmem => by simp at hmem) (by simp) hrun
  refine ⟨hslots, hnodup, ?_, ?_⟩
  · intro resset hmem
    obtain ⟨x, hx, hx1⟩ := List.mem_map.1 hmem
    exact (cllExecSqlWithResultBV_spec resset s.result_sets).1 x.2
      (by rw [← hx1]; exact hslots x.1 x.2 hx)
  · intro op t hstep h c hmem hop
    have hmem' : (h, c) ∈ t.live := by
      cases op with
      | allocate resset =>
        simp only [Registry.step, Option.some.injEq] at hstep
        subst hstep
        exact List.mem_cons_of_mem _ hmem
      | free _resinx =>
        simp only [Registry.step] at hstep
        split_ifs at hstep with hlive
        simp only [Option.some.injEq] at hstep
        subst hstep
        refine List.mem_filter.2 ⟨hmem, ?_⟩
        have : h ≠ _resinx := fun heq => hop (by rw [heq])
        simpa using this
    exact ⟨(Registry_step_sound s t op hslots hnodup hstep).1 h c hmem', hmem'⟩

/-- Witness for C17: allocate two cursors, free the first, allocate a third,
which gets the slot of the first. -/
theorem registry_live_handles_witness :
    (∀ h c, (h, c) ∈ [(0, "c"), (1, "b")] →
      [some "c", some "b"][h]? = some (some c)) ∧
    (([(0, "c"), (1, "b")] : List (Nat × String)).map Prod.fst).Nodup ∧
    (∀ resset, (cllExecSqlWithResultBV resset [some "c", some "b"]).1 ∉
      ([(0, "c"), (1, "b")] : List (Nat × String)).map Prod.fst) ∧
    (∀ op t, Registry.step { result_sets := [some "c", some "b"], live := [(0, "c"), (1, "b")] }
        op = some t →
      ∀ h c, (h, c) ∈ [(0, "c"), (1, "b")] → op ≠ RegistryOp.free h →
      t.result_sets[h]? = some (some c) ∧ (h, c) ∈ t.live) :=
  registry_live_handles
    [RegistryOp.allocate "a", RegistryOp.allocate "b", RegistryOp.free 0,
      RegistryOp.allocate "c"]
    { result_sets := [some "c", some "b"], live := [(0, "c"), (1, "b")] } rfl

/-! ## The state of a result cursor -/

/-- A call of `all_result_set::next_row` keeps the row index inside the handle
held, or at 0 when there is no handle or the handle holds no row. -/
theorem all_result_set_next_row_index (E : ErrorTable) (query_ : Nat → Int × Option PGresult)
    (s : all_result_set)
    (hs : (s.res_ = none ∧ s.row_ = 0) ∨
      ∃ res, s.res_ = some res ∧ 0 ≤ s.row_ ∧
        (s.row_ < PQntuples res ∨ (PQntuples res = 0 ∧ s.row_ = 0))) :
    ((all_result_set.next_row E query_ s).2.res_ = none ∧
        (all_result_set.next_row E query_ s).2.row_ = 0) ∨
      ∃ res, (all_result_set.next_row E query_ s).2.res_ = some res ∧
        0 ≤ (all_result_set.next_row E query_ s).2.row_ ∧
        ((all_result_set.next_row E query_ s).2.row_ < PQntuples res ∨
          (PQntuples res = 0 ∧ (all_result_set.next_row E query_ s).2.row_ = 0)) := by
  rcases hs with ⟨hres, hrow⟩ | ⟨res, hres, h0, hlt⟩
  · have hn : all_result_set.next_row E query_ s =
        ((query_ s.invoked).1,
          { s with res_ := (query_ s.invoked).2, invoked := s.invoked + 1 }) := by
      simp only [all_result_set.next_row, hres]
    rw [hn]
    cases hq : (query_ s.invoked).2 with
    | none => exact Or.inl ⟨rfl, hrow⟩
    | some res =>
      have hnn : (0 : Int) ≤ PQntuples res := Int.ofNat_nonneg _
      refine Or.inr ⟨res, rfl, ?_, ?_⟩
      · show 0 ≤ s.row_
        omega
      · show s.row_ < PQntuples res ∨ (PQntuples res = 0 ∧ s.row_ = 0)
        omega
  · by_cases h : s.row_ ≥ PQntuples res - 1
    · have hn : all_result_set.next_row E query_ s = (E.CAT_SUCCESS_BUT_WITH_NO_INFO, s) := by
        simp only [all_result_set.next_row, hres, if_pos h]
      rw [hn]
      exact Or.inr ⟨res, hres, h0, hlt⟩
    · have hn : all_result_set.next_row E query_ s = (0, { s with row_ := s.row_ + 1 }) := by
        simp only [all_result_set.next_row, hres, if_neg h]
      rw [hn]
      refine Or.inr ⟨res, hres, ?_, Or.inl ?_⟩
      · show 0 ≤ s.row_ + 1
        omega
      · show s.row_ + 1 < PQntuples res
        omega

/-- A call of `paging_result_set::next_row` keeps the row index inside the
handle held, or at 0 when there is no handle or the handle holds no row. -/
theorem paging_result_set_next_row_index
    (query_ : List Fetch → Int → Int → Int × Option PGresult) (s : paging_result_set)
    (hs : (s.res_ = none ∧ s.row_ = 0) ∨
      ∃ res, s.res_ = some res ∧ 0 ≤ s.row_ ∧
        (s.row_ < PQntuples res ∨ (PQntuples res = 0 ∧ s.row_ = 0))) :
    ((paging_result_set.next_row query_ s).2.res_ = none ∧
        (paging_result_set.next_row query_ s).2.row_ = 0) ∨
      ∃ res, (paging_result_set.next_row query_ s).2.res_ = some res ∧
        0 ≤ (paging_result_set.next_row query_ s).2.row_ ∧
        ((paging_result_set.next_row query_ s).2.row_ < PQntuples res ∨
          (PQntuples res = 0 ∧ (paging_result_set.next_row query_ s).2.row_ = 0)) := by
  have hfetch : ∀ o,
      ((paging_result_set.fetch query_ s o).2.res_ = none ∧
          (paging_result_set.fetch query_ s o).2.row_ = 0) ∨
        ∃ res, (paging_result_set.fetch query_ s o).2.res_ = some res ∧
          0 ≤ (paging_result_set.fetch query_ s o).2.row_ ∧
          ((paging_result_set.fetch query_ s o).2.row_ < PQntuples res ∨
            (PQntuples res = 0 ∧ (paging_result_set.fetch query_ s o).2.row_ = 0)) := by
    intro o
    cases hq : (query_ s.fetched o s.maxrows_).2 with
    | none =>
      refine Or.inl ⟨?_, rfl⟩
      show (query_ s.fetched o s.maxrows_).2 = none
      exact hq
    | some res =>
      have hnn : (0 : Int) ≤ PQntuples res := Int.ofNat_nonneg _
      refine Or.inr ⟨res, ?_, ?_, ?_⟩
      · show (query_ s.fetched o s.maxrows_).2 = some res
        exact hq
      · show (0 : Int) ≤ 0
        omega
      · show (0 : Int) < PQntuples res ∨ (PQntuples res = 0 ∧ (0 : Int) = 0)
        omega
  rcases hs with ⟨hres, _⟩ | ⟨res, hres, h0, hlt⟩
  · have hn : paging_result_set.next_row query_ s =
        paging_result_set.fetch query_ s s.offset_ := by
      simp only [paging_result_set.next_row, hres]
    rw [hn]
    exact hfetch _
  · by_cases h : s.row_ ≥ PQntuples res - 1
    · have hn : paging_result_set.next_row query_ s =
          paging_result_set.fetch query_ s (s.offset_ + PQntuples res) := by
        simp only [paging_result_set.next_row, hres, if_pos h]
      rw [hn]
      exact hfetch _
    · have hn : paging_result_set.next_row query_ s = (0, { s with row_ := s.row_ + 1 }) := by
        simp only [paging_result_set.next_row, hres, if_neg h]
      rw [hn]
      refine Or.inr ⟨res, hres, ?_, Or.inl ?_⟩
      · show 0 ≤ s.row_ + 1
        omega
      · show s.row_ + 1 < PQntuples res
        omega

/-- A text without the character `c` that occurs in `a ++ c :: b` occurs in `a`
or in `b`. -/
theorem infix_append_cons_of_not_mem (pat a b : List Char) (c : Char) (hc : c ∉ pat)
    (h : pat <:+: a ++ c :: b) : pat <:+: a ∨ pat <:+: b := by
  obtain ⟨u, v, huv⟩ := h
  rcases List.append_eq_append_iff.1 huv with ⟨a1, h1, _⟩ | ⟨c1, h1, h2⟩
  · exact Or.inl ⟨u, a1, h1.symm⟩
  · rcases c1 with _ | ⟨x, c1⟩
    · rw [List.append_nil] at h1
      exact Or.inl ⟨u, [], by rw [List.append_nil, h1]⟩
    · simp only [List.cons_append, List.cons.injEq] at h2
      obtain ⟨hx, hb⟩ := h2
      rcases List.append_eq_append_iff.1 h1 with ⟨a2, _, h4⟩ | ⟨c2, h3, h4⟩
      · exact absurd (by rw [h4, ← hx]; simp) hc
      · rcases c2 with _ | ⟨y, c2⟩
        · simp only [List.nil_append] at h4
          exact absurd (by rw [← h4, ← hx]; exact List.mem_cons_self _ _) hc
        · simp only [List.cons_append, List.cons.injEq] at h4
          right
          exact ⟨c2, v, by rw [hb, h4.2, List.append_assoc]⟩

/-- The clauses for the optional parameters, one after the other, are the
clauses of those that are present. -/
theorem extract_optional_join (k1 k2 k3 k4 : String) (o1 o2 o3 o4 : Option String) :
    extract_optional k1 o1 ++ extract_optional k2 o2 ++ extract_optional k3 o3 ++
        extract_optional k4 o4 =
      String.join ([(k1, o1), (k2, o2), (k3, o3), (k4, o4)].filterMap
        fun kv => kv.2.map fun value => " " ++ kv.1 ++ "=" ++ value) := by
  cases o1 <;> cases o2 <;> cases o3 <;> cases o4 <;>
    simp [extract_optional, String.join, String.append_assoc]

/-- C19, as the code has it: the string `cllConnect` passes to the backend is
`host=<host> port=<port> dbname=<dbname> user=<user> password=<password>`
followed, in the order sslmode, sslrootcert, sslcert, sslkey, by
` <key>=<value>` for each optional parameter that is present and by nothing
for each that is absent. With host "db", port 5432, dbname "cat", no TLS
option, and a user name and a password that do not contain `sslmode=`, the
string contains no `sslmode=`. -/
theorem cllConnect_conninfo (PQconnectdb : String → Bool)
    (databaseUsername databasePassword host : String) (port : Int) (dbname : String)
    (sslmode sslrootcert sslcert sslkey : Option String) :
    (cllConnect PQconnectdb databaseUsername databasePassword host port dbname
        sslmode sslrootcert sslcert sslkey).2 =
      "host=" ++ host ++ " port=" ++ toString port ++ " dbname=" ++ dbname ++
        " user=" ++ databaseUsername ++ " password=" ++ databasePassword ++
        String.join ([("sslmode", sslmode), ("sslrootcert", sslrootcert),
          ("sslcert", sslcert), ("sslkey", sslkey)].filterMap
            fun kv => kv.2.map fun value => " " ++ kv.1 ++ "=" ++ value) ∧
    (¬ "sslmode=".data <:+: databaseUsername.data →
      ¬ "sslmode=".data <:+: databasePassword.data →
      ¬ "sslmode=".data <:+:
        (cllConnect PQconnectdb databaseUsername databasePassword "db" 5432 "cat"
          none none none none).2.data) := by
  constructor
  · simp only [cllConnect]
    rw [← extract_optional_join]
    simp only [String.append_assoc]
  · intro hu hp hin
    have hdata : (cllConnect PQconnectdb databaseUsername databasePassword "db" 5432 "cat"
        none none none none).2.data =
        "host=db".data ++ ' ' :: ("port=5432".data ++ ' ' :: ("dbname=cat".data ++
          ' ' :: (("user=".data ++ databaseUsername.data) ++
            ' ' :: ("password=".data ++ databasePassword.data)))) := by
      simp only [cllConnect, extract_optional, String.data_append, String.append_empty,
        List.append_assoc]
      rfl
    rw [hdata] at hin
    have hsp : ' ' ∉ "sslmode=".data := by decide
    rcases infix_append_cons_of_not_mem _ _ _ _ hsp hin with h | hin
    · revert h; decide
    rcases infix_append_cons_of_not_mem _ _ _ _ hsp hin with h | hin
    · revert h; decide
    rcases infix_append_cons_of_not_mem _ _ _ _ hsp hin with h | hin
    · revert h; decide
    rcases infix_append_cons_of_not_mem _ _ _ _ hsp hin with h | h
    · have h1 : "sslmode=".data <:+: 'u' :: 's' :: 'e' :: 'r' :: '=' :: databaseUsername.data := h
      simp only [List.infix_cons_iff] at h1
      rcases h1 with h1 | h1 | h1 | h1 | h1 | h1
      · exact absurd (List.cons_prefix_cons.1 h1).1 (by decide)
      · exact absurd (List.cons_prefix_cons.1 (List.cons_prefix_cons.1 h1).2).1 (by decide)
      · exact absurd (List.cons_prefix_cons.1 h1).1 (by decide)
      · exact absurd (List.cons_prefix_cons.1 h1).1 (by decide)
      · exact absurd (List.cons_prefix_cons.1 h1).1 (by decide)
      · exact hu h1
    · have h1 : "sslmode=".data <:+:
          'p' :: 'a' :: 's' :: 's' :: 'w' :: 'o' :: 'r' :: 'd' :: '=' :: databasePassword.data := h
      simp only [List.infix_cons_iff] at h1
      rcases h1 with h1 | h1 | h1 | h1 | h1 | h1 | h1 | h1 | h1 | h1
      · exact absurd (List.cons_prefix_cons.1 h1).1 (by decide)
      · exact absurd (List.cons_prefix_cons.1 h1).1 (by decide)
      · exact absurd (List.cons_prefix_cons.1 (List.cons_prefix_cons.1
          (List.cons_prefix_cons.1 h1).2).2).1 (by decide)
      · exact absurd (List.cons_prefix_cons.1 (List.cons_prefix_cons.1 h1).2).1 (by decide)
      · exact absurd (List.cons_prefix_cons.1 h1).1 (by decide)
      · exact absurd (List.cons_prefix_cons.1 h1).1 (by decide)
      · exact absurd (List.cons_prefix_cons.1 h1).1 (by decide)
      · exact absurd (List.cons_prefix_cons.1 h1).1 (by decide)
      · exact absurd (List.cons_prefix_cons.1 h1).1 (by decide)
      · exact hp h1

/-- Witness for C19: ordinary credentials, no TLS option. -/
theorem cllConnect_conninfo_witness :
    ¬ "sslmode=".data <:+:
      (cllConnect (fun _ => true) "irods" "secret" "db" 5432 "cat"
        none none none none).2.data :=
  (cllConnect_conninfo (fun _ => true) "irods" "secret" "db" 5432 "cat"
    none none none none).2 (by decide) (by decide)

/-- Counterexample to C19 as stated: with a password that itself contains
`sslmode=`, the string for host "db", port 5432, dbname "cat" and no TLS
option contains `sslmode=`. -/
theorem cllConnect_conninfo_counterexample :
    (cllConnect (fun _ => true) "irods" "x sslmode=disable" "db" 5432 "cat"
        none none none none).2 =
      "host=db port=5432 dbname=cat user=irods password=x sslmode=disable" ∧
    "sslmode=".data <:+:
      (cllConnect (fun _ => true) "irods" "x sslmode=disable" "db" 5432 "cat"
        none none none none).2.data := by
  decide

/-! ## The statements of a run of `execTx` -/

/-- The loop of `execTx` issues only reserved phrases. -/
theorem execTxLoop_statements (E : ErrorTable) (conn : Backend) (func : TxFunc) :
    ∀ (fuel : Nat) (h : List Event),
      (∀ sql ∈ statements h, sql ∈ ["begin", "commit", "rollback",
        "savepoint cockroach_restart", "release savepoint cockroach_restart",
        "rollback to savepoint cockroach_restart"]) →
      ∀ sql ∈ statements (execTxLoop E conn func fuel h).2, sql ∈ ["begin", "commit",
        "rollback", "savepoint cockroach_restart", "release savepoint cockroach_restart",
        "rollback to savepoint cockroach_restart"] := by
  intro fuel
  induction fuel with
  | zero => intro h hh; simpa [execTxLoop] using hh
  | succ fuel ih =>
    intro h hh
    rcases execTxLoop_succ E conn func fuel h with
      ⟨_, hr⟩ | ⟨_, _, hr⟩ | ⟨_, _, _, hr⟩ | ⟨_, _, _, _, hr⟩ | ⟨_, _, _, _, hr⟩
    · rw [hr]
      simpa [workEvent] using hh
    · rw [hr]
      intro sql hsql
      simp only [statements_append, workEvent, releaseEvent, statements_call, statements_stmt,
        statements_nil, List.mem_append] at hsql
      rcases hsql with hsql | hsql
      · exact hh sql hsql
      · revert hsql; revert sql; decide
    · rw [hr]
      intro sql hsql
      simp only [statements_append, workEvent, releaseEvent, statements_call, statements_stmt,
        statements_nil, List.mem_append] at hsql
      rcases hsql with hsql | hsql
      · exact hh sql hsql
      · revert hsql; revert sql; decide
    · rw [hr]
      intro sql hsql
      simp only [statements_append, workEvent, releaseEvent, restartEvent, statements_call,
        statements_stmt, statements_nil, List.mem_append] at hsql
      rcases hsql with hsql | hsql
      · exact hh sql hsql
      · revert hsql; revert sql; decide
    · rw [hr]
      apply ih
      intro sql hsql
      simp only [statements_append, workEvent, releaseEvent, restartEvent, statements_call,
        statements_stmt, statements_nil, List.mem_append] at hsql
      rcases hsql with hsql | hsql
      · exact hh sql hsql
      · revert hsql; revert sql; decide

/-- The loop of `execTx` issues `commit` at most once. -/
theorem execTxLoop_commit_count (E : ErrorTable) (conn : Backend) (func : TxFunc) :
    ∀ (fuel : Nat) (h : List Event),
      (statements (execTxLoop E conn func fuel h).2).count "commit" ≤
        (statements h).count "commit" + 1 := by
  intro fuel
  induction fuel with
  | zero => intro h; simp [execTxLoop]
  | succ fuel ih =>
    intro h
    rcases execTxLoop_succ E conn func fuel h with
      ⟨_, hr⟩ | ⟨_, _, hr⟩ | ⟨_, _, _, hr⟩ | ⟨_, _, _, _, hr⟩ | ⟨_, _, _, _, hr⟩
    · rw [hr]
      simp [workEvent]
    · rw [hr]
      simp [workEvent, releaseEvent, List.count_cons]
    · rw [hr]
      simp [workEvent, releaseEvent, List.count_cons]
    · rw [hr]
      simp [workEvent, releaseEvent, restartEvent, List.count_cons]
    · rw [hr]
      refine (ih _).trans ?_
      simp [workEvent, releaseEvent, restartEvent, List.count_cons]

/-- In the events the loop appends, `commit` comes right after a release step
that succeeded, and nothing comes after it. -/
theorem execTxLoop_commit_last (E : ErrorTable) (conn : Backend) (func : TxFunc) :
    ∀ (fuel : Nat) (h suf : List Event), (execTxLoop E conn func fuel h).2 = h ++ suf →
      ∀ (p : List Event) (res : PGresult) (post : List Event),
        suf = p ++ Event.stmt "commit" res :: post →
        post = [] ∧ ∃ q r, p = q ++ [Event.stmt "release savepoint cockroach_restart" r] ∧
          ¬ failed E "release savepoint cockroach_restart" r := by
  intro fuel
  induction fuel with
  | zero =>
    intro h suf hs p res post hdec
    simp [execTxLoop] at hs
    subst hs
    simp at hdec
  | succ fuel ih =>
    intro h suf hs p res post hdec
    rcases execTxLoop_succ E conn func fuel h with
      ⟨_, hr⟩ | ⟨_, hf, hr⟩ | ⟨_, _, _, hr⟩ | ⟨_, _, _, _, hr⟩ | ⟨_, _, _, _, hr⟩
    · rw [hr] at hs
      have hL := List.append_cancel_left hs
      subst hL
      rcases p with _ | ⟨p1, _ | ⟨p2, p⟩⟩ <;> simp [workEvent] at hdec
    · rw [hr] at hs
      have hL := List.append_cancel_left hs
      subst hL
      rcases p with _ | ⟨p1, _ | ⟨p2, _ | ⟨p3, p⟩⟩⟩ <;>
        simp [workEvent, releaseEvent] at hdec
      obtain ⟨h1, h2, _, h4⟩ := hdec
      exact ⟨h4, [p1], releaseResult conn func h,
        by simp [← h2, releaseResult, workEvent], hf⟩
    · rw [hr] at hs
      have hL := List.append_cancel_left hs
      subst hL
      rcases p with _ | ⟨p1, _ | ⟨p2, _ | ⟨p3, p⟩⟩⟩ <;>
        simp [workEvent, releaseEvent] at hdec
    · rw [hr] at hs
      have hL := List.append_cancel_left hs
      subst hL
      rcases p with _ | ⟨p1, _ | ⟨p2, _ | ⟨p3, _ | ⟨p4, p⟩⟩⟩⟩ <;>
        simp [workEvent, releaseEvent, restartEvent] at hdec
    · rw [hr] at hs
      obtain ⟨suf1, hs1⟩ := execTxLoop_extends E conn func fuel
        (h ++ [workEvent func h, releaseEvent conn func h, restartEvent conn func h])
      rw [hs1, List.append_assoc] at hs
      have hL := List.append_cancel_left hs
      subst hL
      rcases p with _ | ⟨p1, _ | ⟨p2, _ | ⟨p3, p⟩⟩⟩
      · simp [workEvent, releaseEvent, restartEvent] at hdec
      · simp [workEvent, releaseEvent, restartEvent] at hdec
      · simp [workEvent, releaseEvent, restartEvent] at hdec
      · simp only [List.cons_append, List.cons.injEq] at hdec
        obtain ⟨hpost, q, r, hq, hqf⟩ := ih _ suf1 hs1 p res post hdec.2.2.2
        exact ⟨hpost, p1 :: p2 :: p3 :: q, r, by simp [hq], hqf⟩

/-- The loop of `execTx` issues no `commit` in a run whose last invocation of
the unit of work reported failure. -/
theorem execTxLoop_failure_no_commit (E : ErrorTable) (conn : Backend) (func : TxFunc) :
    ∀ (fuel : Nat) (h : List Event) (e : irods.error), "commit" ∉ statements h →
      (invocations (execTxLoop E conn func fuel h).2).getLast? = some (false, e) →
      "commit" ∉ statements (execTxLoop E conn func fuel h).2 := by
  intro fuel
  induction fuel with
  | zero => intro h e hh _; simpa [execTxLoop] using hh
  | succ fuel ih =>
    intro h e hh hlast
    rcases execTxLoop_succ E conn func fuel h with
      ⟨_, hr⟩ | ⟨hv, _, hr⟩ | ⟨_, _, _, hr⟩ | ⟨_, _, _, _, hr⟩ | ⟨_, _, _, _, hr⟩
    · rw [hr]
      simpa [workEvent] using hh
    · rw [hr] at hlast
      simp [workEvent, releaseEvent] at hlast
      rw [hlast] at hv
      exact Bool.noConfusion hv
    · rw [hr]
      simpa [workEvent, releaseEvent] using hh
    · rw [hr]
      simpa [workEvent, releaseEvent, restartEvent] using hh
    · rw [hr] at hlast ⊢
      exact ih _ e (by simpa [workEvent, releaseEvent, restartEvent] using hh) hlast

/-- In the events the loop appends, every invocation of the unit of work comes
right after a successful savepoint step or a successful rollback to the
savepoint, when the loop was entered right after one. -/
theorem execTxLoop_call_guarded (E : ErrorTable) (conn : Backend) (func : TxFunc) :
    ∀ (fuel : Nat) (h suf : List Event), (execTxLoop E conn func fuel h).2 = h ++ suf →
      (∃ h1 res, (h = h1 ++ [Event.stmt "savepoint cockroach_restart" res] ∧
          ¬ failed E "savepoint cockroach_restart" res) ∨
        (h = h1 ++ [Event.stmt "rollback to savepoint cockroach_restart" res] ∧
          ¬ failed E "rollback to savepoint cockroach_restart" res)) →
      ∀ (p : List Event) (r : Bool × irods.error) (post : List Event),
        suf = p ++ Event.call r :: post →
        ∃ q res, (h ++ p = q ++ [Event.stmt "savepoint cockroach_restart" res] ∧
            ¬ failed E "savepoint cockroach_restart" res) ∨
          (h ++ p = q ++ [Event.stmt "rollback to savepoint cockroach_restart" res] ∧
            ¬ failed E "rollback to savepoint cockroach_restart" res) := by
  intro fuel
  induction fuel with
  | zero =>
    intro h suf hs _ p r post hdec
    simp [execTxLoop] at hs
    subst hs
    simp at hdec
  | succ fuel ih =>
    intro h suf hs hh p r post hdec
    have hnil : p = [] → ∃ q res,
        (h ++ p = q ++ [Event.stmt "savepoint cockroach_restart" res] ∧
            ¬ failed E "savepoint cockroach_restart" res) ∨
          (h ++ p = q ++ [Event.stmt "rollback to savepoint cockroach_restart" res] ∧
            ¬ failed E "rollback to savepoint cockroach_restart" res) := by
      intro hp
      rw [hp, List.append_nil]
      exact hh
    rcases execTxLoop_succ E conn func fuel h with
      ⟨_, hr⟩ | ⟨_, _, hr⟩ | ⟨_, _, _, hr⟩ | ⟨_, _, _, _, hr⟩ | ⟨_, _, _, hf, hr⟩
    · rw [hr] at hs
      have hL := List.append_cancel_left hs
      subst hL
      rcases p with _ | ⟨p1, _ | ⟨p2, p⟩⟩
      · exact hnil rfl
      · simp [workEvent] at hdec
      · simp [workEvent] at hdec
    · rw [hr] at hs
      have hL := List.append_cancel_left hs
      subst hL
      rcases p with _ | ⟨p1, _ | ⟨p2, _ | ⟨p3, p⟩⟩⟩
      · exact hnil rfl
      all_goals simp [workEvent, releaseEvent] at hdec
    · rw [hr] at hs
      have hL := List.append_cancel_left hs
      subst hL
      rcases p with _ | ⟨p1, _ | ⟨p2, _ | ⟨p3, p⟩⟩⟩
      · exact hnil rfl
      all_goals simp [workEvent, releaseEvent] at hdec
    · rw [hr] at hs
      have hL := List.append_cancel_left hs
      subst hL
      rcases p with _ | ⟨p1, _ | ⟨p2, _ | ⟨p3, _ | ⟨p4, p⟩⟩⟩⟩
      · exact hnil rfl
      all_goals simp [workEvent, releaseEvent, restartEvent] at hdec
    · rw [hr] at hs
      obtain ⟨suf1, hs1⟩ := execTxLoop_extends E conn func fuel
        (h ++ [workEvent func h, releaseEvent conn func h, restartEvent conn func h])
      rw [hs1, List.append_assoc] at hs
      have hL := List.append_cancel_left hs
      subst hL
      rcases p with _ | ⟨p1, _ | ⟨p2, _ | ⟨p3, p⟩⟩⟩
      · exact hnil rfl
      · simp [workEvent, releaseEvent, restartEvent] at hdec
      · simp [workEvent, releaseEvent, restartEvent] at hdec
      · simp only [List.cons_append, List.cons.injEq] at hdec
        obtain ⟨h1, h2, h3, h4⟩ := hdec
        have key := ih _ suf1 hs1
          ⟨h ++ [workEvent func h, releaseEvent conn func h], restartResult conn func h,
            Or.inr ⟨by simp [restartEvent], hf⟩⟩ p r post h4
        rw [← h1, ← h2, ← h3]
        simpa using key

end LowLevelLibpq
